import Mathlib

/-! Terragen heightmap codec and resampler.

A shallow embedding of `terragen_file.h` and `terragen_file_manager.cpp`
(`readTerragen`, `writeTerragen`, `scale` and the binary helpers), and
theorems about it.

Modelling conventions.

* A byte is a `Fin 256`; an input stream is the list of bytes still unread.
  `read` and `ignore` raise `ioFailure` when fewer bytes are left than asked
  for (the stream has `failbit | badbit | eofbit` in its exception mask).
* A C++ exception is an `Except.error`.  `undefinedBehaviour` is not an
  exception: it marks an execution that leaves defined C++ by signed `int`
  overflow or by an access outside the allocated block.
* `int` is `Int` with every arithmetic result checked against the 32-bit
  range; `size_t` is `Nat` modulo `2^64`; conversions to `uint16_t` reduce
  modulo `2^16`.
* The `float` fields that take part in arithmetic (`height_scale`,
  `base_height`, `min_height`, `max_height` and the samples) are values of
  `Flt32`: a finite single-precision number given by its exact rational
  value, an infinity or a NaN.  Every operation computes the exact result
  and rounds it to the nearest single-precision number, ties to even
  (`Flt32.ofRat`); `+`, `-`, `*`, `/` and `<` on `Flt32` are these IEEE-754
  operations, each carried out in single precision (no wider intermediate
  format, no fused multiply-add).  The two zeros are not told apart and
  there is one NaN.  Equality of `Flt32` values is equality of these values,
  not the C++ `==`.
* A conversion of a float to `std::int16_t` truncates toward zero; where the
  truncated value does not fit, the model follows the instruction compilers
  emit on x86-64 (`cvttss2si` into a 32-bit register, of which the low
  16 bits are kept).
* The fields `scale` and `planet_radius` are only copied and compared; they
  are kept as IEEE-754 bit patterns (`F32`).
* Memory returned by `malloc` and fields the constructor leaves unset hold
  indeterminate values; these are parameters of the model (`Indeterminate`).
* `writeTerragen` is declared `bool` and ends without a `return` statement.
  The model gives the bytes the call has written when the stream is closed
  (line 314); what the call returns, and what it does after that point, is
  not modelled.
-/

namespace Terragen

/-! ## Bytes, errors, streams -/

abbrev Byte := Fin 256

inductive TerragenError where
  /-- The stream exception `std::ios_base::failure`: a read or skip ran past
  the end of the stream. -/
  | ioFailure
  /-- The exception "signature did not match". -/
  | signatureMismatch
  /-- The exception "SCAL values are not all equal". -/
  | scalNotEqual
  /-- The exception "SCAL value is negative". -/
  | scalNegative
  /-- The exception "ALTW found before dimensions". -/
  | altwBeforeDimensions
  /-- The exception "unexpected chunk", with the offending marker. -/
  | unexpectedChunk (marker : List Byte)
  /-- The exception "Terrain is too large for Terragen format". -/
  | tooLarge
  /-- The exception "Empty region cannot be written to Terragen format". -/
  | emptyRegion
  /-- The execution leaves defined behaviour. -/
  | undefinedBehaviour
  deriving DecidableEq, Repr

deriving instance DecidableEq for Except

/-- A computation over a binary input stream: it gets the unread bytes and
returns a value with the bytes it left unread, or raises. -/
def IStream (α : Type) : Type := List Byte → Except TerragenError (α × List Byte)

namespace IStream

def run {α : Type} (m : IStream α) (s : List Byte) : Except TerragenError (α × List Byte) := m s

def ret {α : Type} (a : α) : IStream α := fun s => .ok (a, s)

def andThen {α β : Type} (m : IStream α) (f : α → IStream β) : IStream β := fun s =>
  match m s with
  | .ok (a, s') => f a s'
  | .error e => .error e

def raise {α : Type} (e : TerragenError) : IStream α := fun _ => .error e

/-- Run a computation that does not touch the stream. -/
def lift {α : Type} (r : Except TerragenError α) : IStream α := fun s =>
  match r with
  | .ok a => .ok (a, s)
  | .error e => .error e

instance : Monad IStream where
  pure := ret
  bind := andThen

/-- Model of `in.read(buf, n)`. -/
def read (n : Nat) : IStream (List Byte) := fun s =>
  if s.length < n then .error .ioFailure else .ok (s.take n, s.drop n)

/-- Model of `in.ignore(n)`. -/
def ignore (n : Nat) : IStream Unit := fun s =>
  if s.length < n then .error .ioFailure else .ok ((), s.drop n)

end IStream

/-- Model of a counted loop `for (int i = start; i < start + count; i++)`
whose body updates a state. -/
def forLoop {m : Type → Type} [Monad m] {σ : Type} (body : Nat → σ → m σ) :
    Nat → Nat → σ → m σ
  | 0, _, s => pure s
  | k + 1, i, s => body i s >>= forLoop body k (i + 1)

/-! ## Machine arithmetic -/

def INT_MAX : Int := 2147483647
def INT_MIN : Int := -2147483648

/-- The result of an `int` operation: defined only inside the 32-bit range. -/
def ckInt (v : Int) : Except TerragenError Int :=
  if INT_MIN ≤ v ∧ v ≤ INT_MAX then .ok v else .error .undefinedBehaviour

/-- Conversion of an `int` to `std::uint16_t`. -/
def toUint16 (v : Int) : Nat := (v % 65536).toNat

/-- Conversion of an `int` to `size_t` (64 bit). -/
def toSizeT (v : Int) : Nat := (v % 18446744073709551616).toNat

/-- Model of `static_cast<std::int16_t>` on a `std::uint16_t`. -/
def uint16ToInt16 (v : Nat) : Int :=
  if v % 65536 < 32768 then ((v % 65536 : Nat) : Int) else ((v % 65536 : Nat) : Int) - 65536

/-- Rounding toward zero, the value of a float to integer conversion. -/
def truncQ (q : ℚ) : Int := if 0 ≤ q then ⌊q⌋ else -⌊-q⌋

/-- Model of `std::round`: nearest integer, halfway cases away from zero. -/
def roundQ (q : ℚ) : Int := if 0 ≤ q then ⌊q + 1 / 2⌋ else -⌊-q + 1 / 2⌋

/-! ## Single-precision arithmetic -/

/-- A value of type `float`: a finite number by its exact value, an infinity
with its sign, or a NaN. -/
inductive Flt32 where
  | finite (q : ℚ)
  | infinite (negative : Bool)
  | nan
  deriving DecidableEq

namespace Flt32

/-- The power `2^z` of an integer exponent. -/
def pow2 (z : Int) : ℚ :=
  if 0 ≤ z then ((2 ^ z.toNat : Nat) : ℚ) else 1 / ((2 ^ (-z).toNat : Nat) : ℚ)

def log2Aux : Nat → Nat → Nat
  | 0, _ => 0
  | fuel + 1, n => if n < 2 then 0 else log2Aux fuel (n / 2) + 1

/-- The position of the leading bit of a natural number. -/
def log2 (n : Nat) : Nat := log2Aux n n

/-- The binary exponent of a positive rational `a`: the `e` with
`2^e <= a < 2^(e+1)`. -/
def ilog2 (a : ℚ) : Int :=
  let e0 : Int := (log2 a.num.natAbs : Int) - (log2 a.den : Int)
  if pow2 e0 ≤ a then e0 else e0 - 1

/-- The nearest integer, halfway cases to the even one. -/
def roundHalfEven (m : ℚ) : Int :=
  if m - (⌊m⌋ : ℚ) < 1 / 2 then ⌊m⌋
  else if 1 / 2 < m - (⌊m⌋ : ℚ) then ⌊m⌋ + 1
  else if ⌊m⌋ % 2 = 0 then ⌊m⌋ else ⌊m⌋ + 1

/-- The positive rational `a` rounded to 24 significant bits, with the
exponent not below that of the least normal number (so that small values
round on the grid of the subnormal numbers). -/
def roundMagnitude (a : ℚ) : ℚ :=
  (roundHalfEven (a / pow2 (max (ilog2 a) (-126) - 23)) : ℚ) * pow2 (max (ilog2 a) (-126) - 23)

/-- The least magnitude that rounds to an infinity: `2^128 - 2^103`, halfway
between the largest finite number and `2^128`. -/
def overflowThreshold : ℚ := 340282356779733661637539395458142568448

/-- The single-precision number nearest to a rational (round to nearest, ties
to even). -/
def ofRat (q : ℚ) : Flt32 :=
  if q = 0 then finite 0
  else if overflowThreshold ≤ |q| then infinite (decide (q < 0))
  else if 0 < q then finite (roundMagnitude q) else finite (-roundMagnitude (-q))

/-- Conversion of an `int` to `float`. -/
def ofInt (z : Int) : Flt32 := ofRat (z : ℚ)

def add : Flt32 → Flt32 → Flt32
  | finite a, finite b => ofRat (a + b)
  | finite _, infinite s => infinite s
  | infinite s, finite _ => infinite s
  | infinite s, infinite t => if s = t then infinite s else nan
  | _, _ => nan

def neg : Flt32 → Flt32
  | finite a => finite (-a)
  | infinite s => infinite (!s)
  | nan => nan

def sub (x y : Flt32) : Flt32 := add x (neg y)

def mul : Flt32 → Flt32 → Flt32
  | finite a, finite b => ofRat (a * b)
  | finite a, infinite s => if a = 0 then nan else infinite (xor (decide (a < 0)) s)
  | infinite s, finite b => if b = 0 then nan else infinite (xor s (decide (b < 0)))
  | infinite s, infinite t => infinite (xor s t)
  | _, _ => nan

def div : Flt32 → Flt32 → Flt32
  | finite a, finite b =>
    if b = 0 then (if a = 0 then nan else infinite (decide (a < 0))) else ofRat (a / b)
  | finite _, infinite _ => finite 0
  | infinite s, finite b => infinite (xor s (decide (b < 0)))
  | _, _ => nan

/-- The comparison `x < y` of C++: false when an operand is a NaN. -/
def lt : Flt32 → Flt32 → Bool
  | finite a, finite b => decide (a < b)
  | finite _, infinite s => !s
  | infinite s, finite _ => s
  | infinite s, infinite t => s && !t
  | _, _ => false

instance : Add Flt32 := ⟨add⟩
instance : Sub Flt32 := ⟨sub⟩
instance : Mul Flt32 := ⟨mul⟩
instance : Div Flt32 := ⟨div⟩
instance : Neg Flt32 := ⟨neg⟩
instance : LT Flt32 := ⟨fun x y => lt x y = true⟩
instance (x y : Flt32) : Decidable (x < y) := inferInstanceAs (Decidable (lt x y = true))
instance (n : Nat) : OfNat Flt32 n := ⟨ofRat (n : ℚ)⟩
instance : NatCast Flt32 := ⟨fun n => ofInt (n : Int)⟩
instance : IntCast Flt32 := ⟨ofInt⟩

/-- The number is finite. -/
def isFinite : Flt32 → Bool
  | finite _ => true
  | _ => false

end Flt32

/-- The rational is a single-precision number: rounding leaves it as it is. -/
def Flt32.Representable (q : ℚ) : Prop := Flt32.ofRat q = Flt32.finite q

instance (q : ℚ) : Decidable (Flt32.Representable q) :=
  inferInstanceAs (Decidable (Flt32.ofRat q = Flt32.finite q))

/-- Model of `std::round` on a float: the nearest integer, halfway cases away
from zero; an infinity or a NaN is returned as it is. -/
def Flt32.round : Flt32 → Flt32
  | .finite a => .finite ((roundQ a : Int) : ℚ)
  | x => x

/-- Model of `std::int16_t(f)` for a float `f`: the value truncated toward
zero when that is a 16-bit integer.  Otherwise the low 16 bits of the 32-bit
result of `cvttss2si`: those of the truncated value when it is a 32-bit
integer, those of `0x80000000` when it is not or `f` is no number. -/
def floatToInt16 : Flt32 → Int
  | .finite a =>
    if -2147483648 ≤ truncQ a ∧ truncQ a ≤ 2147483647 then uint16ToInt16 (toUint16 (truncQ a))
    else 0
  | _ => 0

/-! ## IEEE-754 single precision values that are only copied and compared -/

/-- A `float` given by its 32-bit pattern. -/
abbrev F32 := Fin 4294967296

namespace F32

def exponent (f : F32) : Nat := f.val / 8388608 % 256
def mantissa (f : F32) : Nat := f.val % 8388608
def signBit (f : F32) : Bool := 2147483648 ≤ f.val
def isNaN (f : F32) : Bool := f.exponent = 255 ∧ f.mantissa ≠ 0
def isZero (f : F32) : Bool := f.val % 2147483648 = 0

/-- The C++ comparison `a != b` on floats. -/
def ne (a b : F32) : Bool :=
  a.isNaN || b.isNaN || !(a = b || (a.isZero && b.isZero))

/-- The C++ comparison `a <= 0.0f`. -/
def leZero (a : F32) : Bool := !a.isNaN && (a.isZero || a.signBit)

/-- The C++ comparison `a > 0.0f`. -/
def pos (a : F32) : Bool := !a.isNaN && !a.isZero && !a.signBit

/-- The literal `30.f`. -/
def thirty : F32 := 0x41F00000
/-- The literal `6370` converted to float. -/
def earthRadius : F32 := 0x45C71000

end F32

/-! ## Binary primitives -/

/-- Model of `readUint16`. -/
def readUint16 : IStream Nat := do
  let data ← IStream.read 2
  pure ((data.getD 0 0).val + 256 * (data.getD 1 0).val)

/-- Model of `readInt16`. -/
def readInt16 : IStream Int := do
  let v ← readUint16
  pure (uint16ToInt16 v)

/-- Model of `readFloat`. -/
def readFloat : IStream F32 := do
  let data ← IStream.read 4
  pure (Fin.ofNat ((data.getD 0 0).val + 256 * (data.getD 1 0).val
    + 65536 * (data.getD 2 0).val + 16777216 * (data.getD 3 0).val))

/-- Model of `writeUint16`: the two bytes appended to the output. -/
def writeUint16 (v : Nat) : List Byte := [Fin.ofNat (v % 256), Fin.ofNat (v / 256 % 256)]

/-- Model of `writeInt16`. -/
def writeInt16 (v : Int) : List Byte := writeUint16 (toUint16 v)

/-- Model of `writeFloat`. -/
def writeFloat (f : F32) : List Byte :=
  [Fin.ofNat (f.val % 256), Fin.ofNat (f.val / 256 % 256),
   Fin.ofNat (f.val / 65536 % 256), Fin.ofNat (f.val / 16777216 % 256)]

/-! ## Data model (`terragen_file.h`) -/

structure TerragenFileHeaderData where
  width : Int
  depth : Int
  mode : Int
  scale : F32
  planet_radius : F32
  height_scale : Flt32
  base_height : Flt32
  min_height : Flt32
  max_height : Flt32
  deriving DecidableEq

/-- The grid: the header and the block `m_height_data` points to (the empty
list for the null pointer). -/
structure TerragenFile where
  m_header_data : TerragenFileHeaderData
  m_height_data : List Flt32
  deriving DecidableEq

/-- Values the program does not choose: what the header fields hold before
they are first assigned, and the content of freshly allocated memory, by
element index. -/
structure Indeterminate where
  header : TerragenFileHeaderData
  heap : Nat → Flt32

/-- The constructor `TerragenFileHeaderData()`: it sets `mode`, `scale` and
`planet_radius` and leaves the other fields as they are. -/
def TerragenFileHeaderData.ctor (u : TerragenFileHeaderData) : TerragenFileHeaderData :=
  { u with mode := 0, scale := F32.thirty, planet_radius := F32.earthRadius }

/-- The constructor `TerragenFile()`. -/
def TerragenFile.ctor (env : Indeterminate) : TerragenFile :=
  { m_header_data := env.header.ctor, m_height_data := [] }

/-- Model of `(float*) malloc(bytes)`: a block of `bytes / sizeof(float)`
elements with indeterminate content. -/
def malloc (env : Indeterminate) (bytes : Nat) : List Flt32 := (List.range (bytes / 4)).map env.heap

/-- The byte count `sizeof(float) * width * depth`, computed in `size_t`. -/
def allocBytes (width depth : Int) : Nat :=
  (4 * toSizeT width % 18446744073709551616) * toSizeT depth % 18446744073709551616

namespace TerragenFile

/-- The element index `z * width + x` of `operator()`, defined when the
arithmetic stays in `int` and the element lies in the allocated block. -/
def index (f : TerragenFile) (x z : Int) : Except TerragenError Nat := do
  let a ← ckInt (z * f.m_header_data.width)
  let i ← ckInt (a + x)
  if 0 ≤ i ∧ i < f.m_height_data.length then pure i.toNat else throw .undefinedBehaviour

/-- Reading `file(x, z)`. -/
def get (f : TerragenFile) (x z : Int) : Except TerragenError Flt32 := do
  let i ← f.index x z
  pure (f.m_height_data.getD i 0)

/-- The assignment `file(x, z) = v`. -/
def set (f : TerragenFile) (x z : Int) (v : Flt32) : Except TerragenError TerragenFile := do
  let i ← f.index x z
  pure { f with m_height_data := f.m_height_data.set i v }

end TerragenFile

/-! ## The chunk markers -/

/-- The bytes of an ASCII string. -/
def asciiBytes (s : String) : List Byte := s.toList.map (fun c => Fin.ofNat c.toNat)

namespace Markers

def SIGNATURE : List Byte := asciiBytes "TERRAGENTERRAIN "
def XPTS : List Byte := asciiBytes "XPTS"
def YPTS : List Byte := asciiBytes "YPTS"
def SIZE : List Byte := asciiBytes "SIZE"
def SCAL : List Byte := asciiBytes "SCAL"
def CRAD : List Byte := asciiBytes "CRAD"
def CRVM : List Byte := asciiBytes "CRVM"
def ALTW : List Byte := asciiBytes "ALTW"
def EOF_ : List Byte := asciiBytes "EOF "

end Markers

/-! ## `readTerragen` -/

/-- The constant `FLT_MAX`. -/
def FLT_MAX : Flt32 := .finite 340282346638528859811704183484516925440
/-- The constant `FLT_MIN`, the least positive normal float. -/
def FLT_MIN : Flt32 := .finite (1 / 85070591730234615865843651857942052864)

/-- State of the sample loops of the `ALTW` branch. -/
structure AltwState where
  ret : TerragenFile
  min_height : Flt32
  max_height : Flt32

/-- Body of the inner sample loop (lines 177-186). -/
def readSample (y x : Nat) (st : AltwState) : IStream AltwState := do
  let raw ← readInt16
  let h : Flt32 := st.ret.m_header_data.base_height + st.ret.m_header_data.height_scale * (raw : Flt32)
  let min_height := if h < st.min_height then h else st.min_height
  let max_height := if h > st.max_height then h else st.max_height
  let ret ← IStream.lift (st.ret.set x y h)
  pure { ret := ret, min_height := min_height, max_height := max_height }

/-- The assignments of lines 168-170: the two header words are stored and the
block for `width * depth` floats is allocated. -/
def altwBegin (env : Indeterminate) (ret : TerragenFile) (hs bh : Int) : TerragenFile :=
  { m_header_data :=
      { ret.m_header_data with height_scale := (hs : Flt32) / 65536, base_height := (bh : Flt32) }
    m_height_data := malloc env (allocBytes ret.m_header_data.width ret.m_header_data.depth) }

/-- The sample loops (lines 171-187). -/
def readAltwSamples (ret : TerragenFile) : IStream AltwState :=
  forLoop
    (fun y st => forLoop (readSample y) ret.m_header_data.width.toNat 0 st)
    ret.m_header_data.depth.toNat 0
    { ret := ret, min_height := FLT_MAX, max_height := FLT_MIN }

/-- The assignments of lines 188-189: the extremes found go to the header. -/
def altwEnd (st : AltwState) : TerragenFile :=
  { st.ret with
    m_header_data :=
      { st.ret.m_header_data with min_height := st.min_height, max_height := st.max_height } }

/-- The realignment of lines 190-191. -/
def readAltwPadding (ret : TerragenFile) : IStream TerragenFile := do
  let p ← IStream.lift (ckInt (ret.m_header_data.depth * ret.m_header_data.width))
  if p.tmod 2 ≠ 0 then do
    IStream.ignore 2
    pure ret
  else
    pure ret

/-- The `ALTW` branch (lines 165-191). -/
def readAltw (env : Indeterminate) (ret : TerragenFile) : IStream TerragenFile :=
  if ret.m_header_data.width ≤ 0 ∨ ret.m_header_data.depth ≤ 0 then
    IStream.raise .altwBeforeDimensions
  else do
    let hs ← readInt16
    let bh ← readInt16
    let st ← readAltwSamples (altwBegin env ret hs bh)
    readAltwPadding (altwEnd st)

/-- The branches of the chunk loop (lines 130-196), by the marker read.  The
flag of the result tells whether the branch was the `break` of the `EOF `
marker. -/
def readChunkBody (env : Indeterminate) (ret : TerragenFile) (marker : List Byte) :
    IStream (Bool × TerragenFile) :=
  if marker = Markers.XPTS then do
    let v ← readUint16
    IStream.ignore 2
    pure (false, { ret with m_header_data := { ret.m_header_data with width := (v : Int) } })
  else if marker = Markers.YPTS then do
    let v ← readUint16
    IStream.ignore 2
    pure (false, { ret with m_header_data := { ret.m_header_data with depth := (v : Int) } })
  else if marker = Markers.SIZE then do
    let v ← readUint16
    IStream.ignore 2
    pure (false,
      { ret with m_header_data :=
          { ret.m_header_data with width := (v : Int) + 1, depth := (v : Int) + 1 } })
  else if marker = Markers.SCAL then do
    let stepX ← readFloat
    let stepY ← readFloat
    let stepZ ← readFloat
    if F32.ne stepY stepX || F32.ne stepZ stepX then
      IStream.raise .scalNotEqual
    else if F32.leZero stepX then
      IStream.raise .scalNegative
    else
      pure (false, { ret with m_header_data := { ret.m_header_data with scale := stepX } })
  else if marker = Markers.CRAD then do
    let r ← readFloat
    pure (false, { ret with m_header_data := { ret.m_header_data with planet_radius := r } })
  else if marker = Markers.CRVM then do
    let v ← readUint16
    IStream.ignore 2
    pure (false, { ret with m_header_data := { ret.m_header_data with mode := (v : Int) } })
  else if marker = Markers.ALTW then do
    let ret ← readAltw env ret
    pure (false, ret)
  else if marker = Markers.EOF_ then
    pure (true, ret)
  else
    IStream.raise (.unexpectedChunk marker)

/-- One iteration of the chunk loop (lines 127-196): the marker is read and
its branch taken. -/
def readChunk (env : Indeterminate) (ret : TerragenFile) : IStream (Bool × TerragenFile) := do
  let marker ← IStream.read 4
  readChunkBody env ret marker

/-- The chunk loop `while (true)` (lines 120-197).  Every iteration reads a
4-byte marker, so `fuel` iterations suffice for a stream of at most `fuel`
bytes; with no fuel left the stream is empty and the marker read fails. -/
def readChunks (env : Indeterminate) : Nat → TerragenFile → IStream TerragenFile
  | 0, _ => IStream.raise .ioFailure
  | fuel + 1, ret => do
    let r ← readChunk env ret
    if r.1 then pure r.2 else readChunks env fuel r.2

/-- The body of `readTerragen` on an open stream (lines 108-203). -/
def readTerragenStream (env : Indeterminate) (fuel : Nat) : IStream TerragenFile := do
  let ret := TerragenFile.ctor env
  let signature ← IStream.read 16
  if signature ≠ Markers.SIGNATURE then
    IStream.raise .signatureMismatch
  else
    readChunks env fuel ret

/-- Model of `readTerragen` on the content of the file, with the bytes left
unread after the `EOF ` marker. -/
def readTerragenRest (env : Indeterminate) (input : List Byte) :
    Except TerragenError (TerragenFile × List Byte) :=
  (readTerragenStream env input.length).run input

/-- Model of `readTerragen` on the content of the file. -/
def readTerragen (env : Indeterminate) (input : List Byte) : Except TerragenError TerragenFile :=
  match readTerragenRest env input with
  | .ok (ret, _) => .ok ret
  | .error e => .error e

/-! ## `scale` -/

/-- The assignment of line 229,
`height_data[(y*scale_factor*width) + (x*scale_factor) + i] = v`. -/
def scaleStore (scale_factor width : Int) (y x i : Nat) (v : Flt32) (height_data : List Flt32) :
    Except TerragenError (List Flt32) := do
  let a ← ckInt ((y : Int) * scale_factor)
  let a ← ckInt (a * width)
  let b ← ckInt ((x : Int) * scale_factor)
  let c ← ckInt (a + b)
  let idx ← ckInt (c + (i : Int))
  if 0 ≤ idx ∧ idx < height_data.length then
    pure (height_data.set idx.toNat v)
  else
    throw .undefinedBehaviour

/-- The value of step `i` of the first pass (lines 223-226 and 229), from the
heights `v` of the original sample and `v2` of its right neighbour. -/
def scaleXValue (base_height v v2 : Flt32) (scale_factor : Int) (i : Nat) : Flt32 :=
  let h : Flt32 := (v - base_height) * (scale_factor : Flt32)
  let h2 : Flt32 := (v2 - base_height) * (scale_factor : Flt32)
  let height_diff : Flt32 := h2 - h
  let height_increments : Flt32 := height_diff / (scale_factor : Flt32)
  base_height + (h + (i : Flt32) * height_increments)

/-- Body of the loop over `x` of the first pass (lines 223-229). -/
def scaleX (file : TerragenFile) (scale_factor width : Int) (base_height : Flt32) (y x : Nat)
    (height_data : List Flt32) : Except TerragenError (List Flt32) := do
  let v ← file.get x y
  let x1 ← ckInt ((x : Int) + 1)
  let w1 ← ckInt (file.m_header_data.width - 1)
  let v2 ← file.get (min x1 w1) y
  forLoop
    (fun i hd => scaleStore scale_factor width y x i
      (scaleXValue base_height v v2 scale_factor i) hd)
    scale_factor.toNat 0 height_data

/-- The value of step `i` of the second pass (lines 246-249 and 252), from the
heights `v` of the new row `y * scale_factor` and `v2` of the row below. -/
def scaleYValue (base_height v v2 : Flt32) (scale_factor : Int) (i : Nat) : Flt32 :=
  let h : Flt32 := v - base_height
  let h2 : Flt32 := v2 - base_height
  let height_diff : Flt32 := h2 - h
  let height_increments : Flt32 := height_diff / (scale_factor : Flt32)
  base_height + h + (i : Flt32) * height_increments

/-- The assignment of line 252, `file(x, (y*scale_factor) + i) = v`. -/
def scaleYStore (scale_factor : Int) (y x i : Nat) (v : Flt32) (file : TerragenFile) :
    Except TerragenError TerragenFile := do
  let z ← ckInt ((y : Int) * scale_factor)
  let zi ← ckInt (z + (i : Int))
  file.set x zi v

/-- Body of the loop over `x` of the second pass (lines 246-252). -/
def scaleY (scale_factor depth : Int) (base_height : Flt32) (y x : Nat) (file : TerragenFile) :
    Except TerragenError TerragenFile := do
  let z ← ckInt ((y : Int) * scale_factor)
  let v ← file.get x z
  let y1 ← ckInt ((y : Int) + 1)
  let z1 ← ckInt (y1 * scale_factor)
  let d1 ← ckInt (depth - 1)
  let v2 ← file.get x (min z1 d1)
  forLoop
    (fun i f => scaleYStore scale_factor y x i (scaleYValue base_height v v2 scale_factor i) f)
    scale_factor.toNat 0 file

/-- Model of `TerragenFileManager::scale` (lines 206-255). -/
def scale (env : Indeterminate) (file : TerragenFile) (scale_factor : Int) :
    Except TerragenError TerragenFile := do
  let old_width := file.m_header_data.width
  let old_depth := file.m_header_data.depth
  let width ← ckInt (file.m_header_data.width * scale_factor)
  let depth ← ckInt (file.m_header_data.depth * scale_factor)
  let base_height := file.m_header_data.base_height
  let height_data := malloc env (allocBytes width depth)
  let height_data ← forLoop
    (fun y hd => forLoop (scaleX file scale_factor width base_height y) old_width.toNat 0 hd)
    old_depth.toNat 0 height_data
  let file : TerragenFile :=
    { m_height_data := height_data
      m_header_data :=
        { file.m_header_data with
          depth := depth
          width := width
          max_height :=
            base_height + (file.m_header_data.max_height - base_height) * (scale_factor : Flt32)
          min_height :=
            base_height + (file.m_header_data.min_height - base_height) * (scale_factor : Flt32) } }
  forLoop
    (fun y f => forLoop (scaleY scale_factor depth base_height y) width.toNat 0 f)
    old_depth.toNat 0 file

/-! ## `writeTerragen` -/

/-- Body of the sample loop (lines 306-307): the bytes of one sample are
appended to the output. -/
def writeSample (terragen : TerragenFile) (y x : Nat) (out : List Byte) :
    Except TerragenError (List Byte) := do
  let v ← terragen.get x y
  let h : Flt32 := (v - terragen.m_header_data.base_height) / terragen.m_header_data.height_scale
  pure (out ++ writeInt16 (floatToInt16 (Flt32.round h)))

/-- The output of `writeTerragen` once the stream is open (lines 273-313). -/
def writeTerragenStream (terragen : TerragenFile) : Except TerragenError (List Byte) := do
  let hdr := terragen.m_header_data
  let out := Markers.SIGNATURE
  let out := out ++ Markers.SIZE
  let m ← ckInt (min hdr.width hdr.depth - 1)
  let out := out ++ writeUint16 (toUint16 m)
  let out := out ++ writeUint16 0
  let out := out ++ Markers.XPTS
  let out := out ++ writeUint16 (toUint16 hdr.width)
  let out := out ++ writeUint16 0
  let out := out ++ Markers.YPTS
  let out := out ++ writeUint16 (toUint16 hdr.depth)
  let out := out ++ writeUint16 0
  let out := out ++ Markers.SCAL
  let out := out ++ writeFloat hdr.scale
  let out := out ++ writeFloat hdr.scale
  let out := out ++ writeFloat hdr.scale
  let out := out ++ Markers.CRAD
  let out := out ++ writeFloat hdr.planet_radius
  let out := out ++ Markers.CRVM
  let out := out ++ writeUint16 (toUint16 hdr.mode)
  let out := out ++ writeUint16 0
  let out := out ++ Markers.ALTW
  let hs := floatToInt16 (hdr.height_scale * 65536)
  let out := out ++ writeInt16 hs
  let bh := floatToInt16 hdr.base_height
  let out := out ++ writeInt16 bh
  let out ← forLoop
    (fun y o => forLoop (writeSample terragen y) hdr.width.toNat 0 o)
    hdr.depth.toNat 0 out
  let p ← ckInt (hdr.depth * hdr.width)
  let out := if p.tmod 2 ≠ 0 then out ++ writeUint16 0 else out
  pure (out ++ Markers.EOF_)

/-- Model of `writeTerragen`: the bytes written to the file, or the exception
raised.  The two dimension checks (lines 261-264) come before the output
stream is opened, so when they raise no byte has been written.  The C++
function is declared `bool` and flows off its end without a `return`
statement: `.ok bytes` says that the file was written with these bytes and
closed (line 314), not that a value was returned. -/
def writeTerragen (terragen : TerragenFile) : Except TerragenError (List Byte) :=
  if terragen.m_header_data.width ≥ 65536 ∨ terragen.m_header_data.depth ≥ 65536 then
    .error .tooLarge
  else if terragen.m_header_data.width = 0 ∨ terragen.m_header_data.depth = 0 then
    .error .emptyRegion
  else
    writeTerragenStream terragen

/-! ## Specification vocabulary -/

/-- The height at column `x` of row `y`, for coordinates inside the grid. -/
def TerragenFile.height (g : TerragenFile) (x y : Nat) : Flt32 :=
  g.m_height_data.getD (y * g.m_header_data.width.toNat + x) 0

/-- The 16-bit signed word number `k` of a stream, little-endian. -/
def rawSample (s : List Byte) (k : Nat) : Int :=
  uint16ToInt16 ((s.getD (2 * k) 0).val + 256 * (s.getD (2 * k + 1) 0).val)

/-- The running minimum of lines 181-182 after `k` values. -/
def runMin (init : Flt32) (v : Nat → Flt32) : Nat → Flt32
  | 0 => init
  | k + 1 => if v k < runMin init v k then v k else runMin init v k

/-- The running maximum of lines 183-184 after `k` values. -/
def runMax (init : Flt32) (v : Nat → Flt32) : Nat → Flt32
  | 0 => init
  | k + 1 => if v k > runMax init v k then v k else runMax init v k

/-- The state of the sample loops after one more sample, of raw value `raw`,
is stored at element `k` (lines 178-186). -/
def AltwState.store (st : AltwState) (k : Nat) (raw : Int) : AltwState :=
  let h : Flt32 := st.ret.m_header_data.base_height + st.ret.m_header_data.height_scale * (raw : Flt32)
  { ret := { st.ret with m_height_data := st.ret.m_height_data.set k h }
    min_height := if h < st.min_height then h else st.min_height
    max_height := if h > st.max_height then h else st.max_height }

/-- A stream computation that succeeds has read a front part `c` of its
input, succeeds alike whatever follows `c`, and raises the stream failure on
every shorter cut of `c`. -/
def Sequential {α : Type} (m : IStream α) : Prop :=
  ∀ s a rest, m.run s = .ok (a, rest) →
    ∃ c, s = c ++ rest ∧ (∀ t, m.run (c ++ t) = .ok (a, t)) ∧
      ∀ k, k < c.length → m.run (c.take k) = .error .ioFailure

/-- The grid the `ALTW` branch leaves when the stream `s`, read from the two
header words on, holds all the samples: the words 0 and 1 of `s` are the
scale and the base, the words from 2 on the samples. -/
def decodeAltw (ret : TerragenFile) (s : List Byte) : TerragenFile :=
  let hs : Flt32 := (rawSample s 0 : Flt32) / 65536
  let bh : Flt32 := (rawSample s 1 : Flt32)
  let n : Nat := ret.m_header_data.depth.toNat * ret.m_header_data.width.toNat
  let v : Nat → Flt32 := fun k => bh + hs * (rawSample s (k + 2) : Flt32)
  { m_header_data :=
      { ret.m_header_data with
        height_scale := hs
        base_height := bh
        min_height := runMin FLT_MAX v n
        max_height := runMax FLT_MIN v n }
    m_height_data := (List.range n).map v }

/-- The number of padding bytes after `n` samples. -/
def altwPadding (n : Nat) : Nat := if n % 2 = 1 then 2 else 0

/-- The 16-bit sample `writeTerragen` computes for element `k` of the block
(lines 306-307). -/
def quantized (g : TerragenFile) (k : Nat) : Int :=
  floatToInt16 (Flt32.round ((g.m_height_data.getD k 0 - g.m_header_data.base_height)
    / g.m_header_data.height_scale))

/-- The bytes of the first `n` samples of a sequence, in order. -/
def sampleBytes (q : Nat → Int) : Nat → List Byte
  | 0 => []
  | n + 1 => sampleBytes q n ++ writeInt16 (q n)

/-- A grid of `W` columns and `D` rows: both positive, a block of `D * W`
elements, every element index within `int`. -/
structure IsGrid (g : TerragenFile) (W D : Nat) : Prop where
  width_eq : g.m_header_data.width = (W : Int)
  depth_eq : g.m_header_data.depth = (D : Int)
  width_pos : 0 < W
  depth_pos : 0 < D
  size_eq : g.m_height_data.length = D * W
  size_le : ((D * W : Nat) : Int) ≤ INT_MAX

/-- The bytes of the chunks before `ALTW` (lines 273-297). -/
def chunkBytes (g : TerragenFile) : List Byte :=
  Markers.SIGNATURE ++ (Markers.SIZE ++
    (writeUint16 (toUint16 (min g.m_header_data.width g.m_header_data.depth - 1)) ++
    (writeUint16 0 ++ (Markers.XPTS ++ (writeUint16 (toUint16 g.m_header_data.width) ++
    (writeUint16 0 ++ (Markers.YPTS ++ (writeUint16 (toUint16 g.m_header_data.depth) ++
    (writeUint16 0 ++ (Markers.SCAL ++ (writeFloat g.m_header_data.scale ++
    (writeFloat g.m_header_data.scale ++ (writeFloat g.m_header_data.scale ++
    (Markers.CRAD ++ (writeFloat g.m_header_data.planet_radius ++
    (Markers.CRVM ++ (writeUint16 (toUint16 g.m_header_data.mode) ++
    writeUint16 0)))))))))))))))))

/-- The payload of the `ALTW` chunk (lines 300-311): the two header words,
the samples of the block in order, the padding. -/
def altwBytes (g : TerragenFile) : List Byte :=
  writeInt16 (floatToInt16 (g.m_header_data.height_scale * 65536)) ++
    (writeInt16 (floatToInt16 g.m_header_data.base_height) ++
    (sampleBytes (quantized g) g.m_height_data.length ++
    List.replicate (altwPadding g.m_height_data.length) 0))

/-- The file `writeTerragen` produces for a grid. -/
def encoded (g : TerragenFile) : List Byte :=
  chunkBytes g ++ (Markers.ALTW ++ (altwBytes g ++ Markers.EOF_))

/-- The grid `readTerragen` returns for the file `writeTerragen` produces for
`g`: the dimensions, `scale` and `planet_radius` of `g`, its `mode` as a
16-bit word, the two header words as written, and every height rebuilt from
its sample. -/
def reread (g : TerragenFile) : TerragenFile :=
  let hs : Flt32 := (floatToInt16 (g.m_header_data.height_scale * 65536) : Flt32) / 65536
  let bh : Flt32 := (floatToInt16 g.m_header_data.base_height : Flt32)
  let v : Nat → Flt32 := fun k => bh + hs * (quantized g k : Flt32)
  { m_header_data :=
      { width := g.m_header_data.width
        depth := g.m_header_data.depth
        mode := (toUint16 g.m_header_data.mode : Int)
        scale := g.m_header_data.scale
        planet_radius := g.m_header_data.planet_radius
        height_scale := hs
        base_height := bh
        min_height := runMin FLT_MAX v g.m_height_data.length
        max_height := runMax FLT_MIN v g.m_height_data.length }
    m_height_data := (List.range g.m_height_data.length).map v }

/-- The value the first pass of `scale` stores at column `X` of the new row
`y * n` (lines 223-229): the heights above the base of the original column
`X / n` and of its right neighbour, clamped at the last column, are
multiplied by `n` and interpolated at step `X % n`. -/
def scaleRow (file : TerragenFile) (n X y : Nat) : Flt32 :=
  let b := file.m_header_data.base_height
  let h : Flt32 := (file.height (X / n) y - b) * (n : Flt32)
  let h2 : Flt32 :=
    (file.height (min (X / n + 1) (file.m_header_data.width.toNat - 1)) y - b) * (n : Flt32)
  b + (h + (X % n : Nat) * ((h2 - h) / (n : Flt32)))

/-- The value the second pass reads as the lower end for the rows derived
from the original row `y` (line 247): the first-pass value of the next
original row, or, for the last original row, whatever the new row
`depth * n - 1` holds at that time. -/
def scaleBelow (env : Indeterminate) (file : TerragenFile) (n X y : Nat) : Flt32 :=
  if y + 1 < file.m_header_data.depth.toNat then scaleRow file n X (y + 1)
  else if n = 1 then scaleRow file n X y
  else env.heap ((file.m_header_data.depth.toNat * n - 1)
    * (file.m_header_data.width.toNat * n) + X)

/-- The value `scale` leaves at column `X` of the new row `y * n + j`
(lines 246-252). -/
def scaleCell (env : Indeterminate) (file : TerragenFile) (n X y j : Nat) : Flt32 :=
  let b := file.m_header_data.base_height
  let h : Flt32 := scaleRow file n X y - b
  let h2 : Flt32 := scaleBelow env file n X y - b
  b + h + (j : Flt32) * ((h2 - h) / (n : Flt32))

/-- Invariant of the first pass of `scale` on a `w` by `d` grid with factor
`N`, after `c` stores: the new block has its final size, the cells of the
rows `y * N` stored so far hold their `scaleRow` value, and every other cell
holds what the allocation left there. -/
def Pass1Inv (env : Indeterminate) (file : TerragenFile) (w d N c : Nat) (hd : List Flt32) : Prop :=
  hd.length = d * N * (w * N) ∧
  ∀ y j X, y < d → j < N → X < w * N →
    hd.getD ((y * N + j) * (w * N) + X) 0 =
      if j = 0 ∧ y * (w * N) + X < c then scaleRow file N X y
      else env.heap ((y * N + j) * (w * N) + X)

/-- Invariant of the second pass of `scale` after `c` stores: the header is
`hdr`, and the cells stored so far hold their `scaleCell` value while every
other cell still holds what the first pass left there. -/
def Pass2Inv (env : Indeterminate) (file : TerragenFile) (hdr : TerragenFileHeaderData)
    (w d N c : Nat) (f : TerragenFile) : Prop :=
  f.m_header_data = hdr ∧ f.m_height_data.length = d * N * (w * N) ∧
  ∀ y j X, y < d → j < N → X < w * N →
    f.m_height_data.getD ((y * N + j) * (w * N) + X) 0 =
      if (y * (w * N) + X) * N + j < c then scaleCell env file N X y j
      else if j = 0 then scaleRow file N X y
      else env.heap ((y * N + j) * (w * N) + X)

/-- The header `scale` leaves (lines 236-239): the dimensions are multiplied
by the factor, the extremes are rescaled around the base, the other fields
are kept. -/
def scaledHeader (file : TerragenFile) (N : Nat) : TerragenFileHeaderData :=
  { file.m_header_data with
    depth := ((file.m_header_data.depth.toNat * N : Nat) : Int)
    width := ((file.m_header_data.width.toNat * N : Nat) : Int)
    max_height := file.m_header_data.base_height
      + (file.m_header_data.max_height - file.m_header_data.base_height) * (N : Flt32)
    min_height := file.m_header_data.base_height
      + (file.m_header_data.min_height - file.m_header_data.base_height) * (N : Flt32) }

/-- The increment `height_increments` of the first pass for the original
sample `(x, y)` (lines 223-226). -/
def scaleIncrementX (file : TerragenFile) (n x y : Nat) : Flt32 :=
  let b := file.m_header_data.base_height
  let h : Flt32 := (file.height x y - b) * (n : Flt32)
  let h2 : Flt32 :=
    (file.height (min (x + 1) (file.m_header_data.width.toNat - 1)) y - b) * (n : Flt32)
  (h2 - h) / (n : Flt32)

/-- The increment `height_increments` of the second pass at column `X` for
the original row `y` (lines 246-249). -/
def scaleIncrementY (env : Indeterminate) (file : TerragenFile) (n X y : Nat) : Flt32 :=
  let b := file.m_header_data.base_height
  let h : Flt32 := scaleRow file n X y - b
  let h2 : Flt32 := scaleBelow env file n X y - b
  (h2 - h) / (n : Flt32)

/-- The reference value `R(x*n+i, y)` of the resampler, in the words of the
specification and with its operations in the order of lines 223-229:
`b + ((g(x,y) - b)*n + i*(((g(min(x+1, w-1), y) - b)*n - (g(x,y) - b)*n)/n))`,
every operation rounded to single precision. -/
def referenceRow (g : TerragenFile) (n x i y : Nat) : Flt32 :=
  let b := g.m_header_data.base_height
  let w := g.m_header_data.width.toNat
  b + ((g.height x y - b) * (n : Flt32)
    + (i : Flt32) * (((g.height (min (x + 1) (w - 1)) y - b) * (n : Flt32)
        - (g.height x y - b) * (n : Flt32)) / (n : Flt32)))

/-- The 32-bit word number `k` of a stream as a float, little-endian. -/
def floatAt (s : List Byte) (k : Nat) : F32 :=
  Fin.ofNat ((s.getD (4 * k) 0).val + 256 * (s.getD (4 * k + 1) 0).val
    + 65536 * (s.getD (4 * k + 2) 0).val + 16777216 * (s.getD (4 * k + 3) 0).val)

/-- The state of the chunk loop, the grid under construction and the unread
bytes, after `k` further iterations that all completed without reaching the
`EOF ` marker; `none` when the loop has raised or stopped before. -/
def chunkLoopAfter (env : Indeterminate) :
    Nat → TerragenFile → List Byte → Option (TerragenFile × List Byte)
  | 0, ret, s => some (ret, s)
  | k + 1, ret, s =>
    match (readChunk env ret).run s with
    | .ok ((false, ret'), rest) => chunkLoopAfter env k ret' rest
    | _ => none

/-- The height sample `k` of an `ALTW` payload `s` stands for: the base, word
1, plus the scale, word 0 over 65536, times the raw sample, word `k + 2`. -/
def payloadHeight (s : List Byte) (k : Nat) : Flt32 :=
  (rawSample s 1 : Flt32) + (rawSample s 0 : Flt32) / 65536 * (rawSample s (k + 2) : Flt32)

/-- The block and the four height fields of `g` are what the `ALTW` branch
leaves for the payload `s` with `n` samples. -/
structure FromPayload (s : List Byte) (n : Nat) (g : TerragenFile) : Prop where
  height_scale_eq : g.m_header_data.height_scale = (rawSample s 0 : Flt32) / 65536
  base_height_eq : g.m_header_data.base_height = (rawSample s 1 : Flt32)
  min_eq : g.m_header_data.min_height = runMin FLT_MAX (payloadHeight s) n
  max_eq : g.m_header_data.max_height = runMax FLT_MIN (payloadHeight s) n
  data_eq : g.m_height_data = (List.range n).map (payloadHeight s)

/-- The grid `g'` has the block and the four height fields of `g`. -/
def SameBlock (g g' : TerragenFile) : Prop :=
  g'.m_height_data = g.m_height_data ∧
  g'.m_header_data.height_scale = g.m_header_data.height_scale ∧
  g'.m_header_data.base_height = g.m_header_data.base_height ∧
  g'.m_header_data.min_height = g.m_header_data.min_height ∧
  g'.m_header_data.max_height = g.m_header_data.max_height

/-- What the chunk loop keeps true of the grid under construction: `scale`
is positive, `mode` is a 16-bit word, and the block is either not allocated
or was decoded from an `ALTW` chunk that starts at some position `p` of the
input, read with some positive dimensions `W` and `D`. -/
structure Decoded (input : List Byte) (g : TerragenFile) : Prop where
  scale_pos : g.m_header_data.scale.pos = true
  mode_lo : 0 ≤ g.m_header_data.mode
  mode_hi : g.m_header_data.mode < 65536
  block : g.m_height_data = [] ∨
    (0 ≤ g.m_header_data.width ∧ 0 ≤ g.m_header_data.depth ∧
      ∃ p W D : Nat, 0 < W ∧ 0 < D ∧ ((D * W : Nat) : Int) ≤ INT_MAX ∧
        (input.drop p).take 4 = Markers.ALTW ∧ p + 8 + 2 * (D * W) ≤ input.length ∧
        FromPayload (input.drop (p + 4)) (D * W) g)

/-! ## Concrete inputs -/

/-- A header with every field zero but the three the constructor sets. -/
def zeroHeader : TerragenFileHeaderData :=
  { width := 0, depth := 0, mode := 0, scale := F32.thirty, planet_radius := F32.earthRadius,
    height_scale := 0, base_height := 0, min_height := 0, max_height := 0 }

/-- An environment in which unset fields and fresh memory hold zero. -/
def zeroEnv : Indeterminate := { header := zeroHeader, heap := fun _ => 0 }

/-- An environment in which the unset `width` and `depth` both hold 1. -/
def oneByOneEnv : Indeterminate :=
  { header := { zeroHeader with width := 1, depth := 1 }, heap := fun _ => 0 }

/-- An environment in which the unset `width` and `depth` both hold 2. -/
def twoByTwoEnv : Indeterminate :=
  { header := { zeroHeader with width := 2, depth := 2 }, heap := fun _ => 0 }

/-- A stream of 36 bytes with no dimension chunk: the signature, the marker
`ALTW`, the scale word 256, the base 0, the words 1 and 2, and the end marker
twice. -/
def doubleEofStream : List Byte :=
  Markers.SIGNATURE ++ Markers.ALTW ++ [0, 1, 0, 0, 1, 0, 2, 0] ++ Markers.EOF_ ++ Markers.EOF_

/-- The grid decoded from `doubleEofStream` when the unset dimensions hold 2:
the first end marker is read as the samples 20293 and 8262. -/
def doubleEofGrid : TerragenFile :=
  { m_header_data :=
      { width := 2, depth := 2, mode := 0, scale := F32.thirty, planet_radius := F32.earthRadius,
        height_scale := 1 / 256, base_height := 0, min_height := 1 / 256,
        max_height := 20293 / 256 }
    m_height_data := [1 / 256, 2 / 256, 20293 / 256, 8262 / 256] }

/-- The grid decoded from the first 32 bytes of `doubleEofStream` when the
unset dimensions hold 1: the word 2 is skipped as padding. -/
def cutGrid : TerragenFile :=
  { m_header_data :=
      { width := 1, depth := 1, mode := 0, scale := F32.thirty, planet_radius := F32.earthRadius,
        height_scale := 1 / 256, base_height := 0, min_height := 1 / 256,
        max_height := 1 / 256 }
    m_height_data := [1 / 256] }

/-- A stream with the signature, an `ALTW` chunk with one sample (scale word
256, base 5, raw sample 3, two padding bytes) and the end marker, and no
dimension chunk. -/
def altwOnlyStream : List Byte :=
  Markers.SIGNATURE ++ Markers.ALTW ++ [0, 1, 5, 0, 3, 0, 0, 0] ++ Markers.EOF_

/-- A complete file of 40 bytes: the signature, a `SIZE` chunk for a 1 by 1
grid, the same `ALTW` chunk and the end marker. -/
def smallStream : List Byte :=
  Markers.SIGNATURE ++ Markers.SIZE ++ [0, 0, 0, 0] ++ Markers.ALTW ++
    [0, 1, 5, 0, 3, 0, 0, 0] ++ Markers.EOF_

/-- The grid decoded from `altwOnlyStream` when the unset dimensions hold 1,
and from `smallStream`. -/
def altwOnlyGrid : TerragenFile :=
  { m_header_data :=
      { width := 1, depth := 1, mode := 0, scale := F32.thirty, planet_radius := F32.earthRadius,
        height_scale := 1 / 256, base_height := 5, min_height := 1283 / 256,
        max_height := 1283 / 256 }
    m_height_data := [1283 / 256] }

/-- A grid whose `width` is negative; its loops touch no sample. -/
def negativeWidthGrid : TerragenFile :=
  { m_header_data :=
      { zeroHeader with width := -1, depth := 1, height_scale := 1 / 65536 }
    m_height_data := [] }

/-- The 86 bytes `writeTerragen` emits for `negativeWidthGrid`. -/
def negativeWidthOutput : List Byte :=
  Markers.SIGNATURE
    ++ Markers.SIZE ++ [254, 255, 0, 0]
    ++ Markers.XPTS ++ [255, 255, 0, 0]
    ++ Markers.YPTS ++ [1, 0, 0, 0]
    ++ Markers.SCAL ++ [0, 0, 240, 65, 0, 0, 240, 65, 0, 0, 240, 65]
    ++ Markers.CRAD ++ [0, 16, 199, 69]
    ++ Markers.CRVM ++ [0, 0, 0, 0]
    ++ Markers.ALTW ++ [1, 0, 0, 0]
    ++ [0, 0]
    ++ Markers.EOF_

/-- A 1 by 3 grid with heights in steps of a quarter around the base 10. -/
def stripGrid : TerragenFile :=
  { m_header_data :=
      { zeroHeader with width := 3, depth := 1, height_scale := 1 / 4, base_height := 10 }
    m_height_data := [10, 49 / 4, -5] }

/-- The 2 by 2 grid with base 0 and the samples 0, 100, 200, 300. -/
def squareGrid : TerragenFile :=
  { m_header_data :=
      { zeroHeader with width := 2, depth := 2, height_scale := 1 / 65536, max_height := 300 }
    m_height_data := [0, 100, 200, 300] }

/-- A 2 by 1 grid. -/
def pairGrid : TerragenFile :=
  { m_header_data := { zeroHeader with width := 2, depth := 1, height_scale := 1 / 65536 }
    m_height_data := [0, 1] }

/-- An environment in which fresh memory holds 1000. -/
def thousandEnv : Indeterminate := { header := zeroHeader, heap := fun _ => 1000 }

/-- A 1 by 1 grid with `height_scale * 65536 = 3 / 2` and `base_height =
107 / 10`, its sample at the base. -/
def fractionGrid : TerragenFile :=
  { m_header_data :=
      { zeroHeader with
        width := 1, depth := 1, height_scale := 3 / 131072, base_height := 107 / 10 }
    m_height_data := [107 / 10] }

/-- A complete file for a 1 by 1 grid whose only raw sample is -3 (scale word
256, base 0). -/
def negativeStream : List Byte :=
  Markers.SIGNATURE ++ Markers.SIZE ++ [0, 0, 0, 0] ++ Markers.ALTW ++
    [0, 1, 0, 0, 253, 255, 0, 0] ++ Markers.EOF_

/-- A file whose `XPTS` chunk after the `ALTW` chunk changes the width: the
samples 0, 1, 2, 3 are read as 2 by 2 (scale word 256, base 0), then the
width is set to 1. -/
def lateWidthStream : List Byte :=
  Markers.SIGNATURE ++ Markers.XPTS ++ [2, 0, 0, 0] ++ Markers.YPTS ++ [2, 0, 0, 0]
    ++ Markers.ALTW ++ [0, 1, 0, 0, 0, 0, 1, 0, 2, 0, 3, 0]
    ++ Markers.XPTS ++ [1, 0, 0, 0] ++ Markers.EOF_

/-- A file with a `SIZE` chunk and then a `SCAL` chunk whose third component
differs from the first two. -/
def unequalScalStream : List Byte :=
  Markers.SIGNATURE ++ Markers.SIZE ++ [0, 0, 0, 0] ++ Markers.SCAL
    ++ writeFloat F32.thirty ++ writeFloat F32.thirty ++ writeFloat F32.earthRadius
    ++ Markers.EOF_

/-- A 1 by 1 grid with the base 1000 and the height `0.1f`. -/
def tenthGrid : TerragenFile :=
  { m_header_data := { zeroHeader with width := 1, depth := 1, base_height := 1000 }
    m_height_data := [1 / 10] }

/-- A grid of 65535 columns and 32769 rows of zeros: its dimensions fit the
format and its block has `width * depth = 2147516415` elements, more than
`INT_MAX`. -/
def hugeGrid : TerragenFile :=
  { m_header_data := { zeroHeader with width := 65535, depth := 32769, height_scale := 1 / 65536 }
    m_height_data := List.replicate 2147516415 0 }

/-- A grid of 32769 columns and 65535 rows of zeros, with mode 0 and the
default `scale`. -/
def tallGrid : TerragenFile :=
  { m_header_data := { zeroHeader with width := 32769, depth := 65535, height_scale := 1 / 65536 }
    m_height_data := List.replicate 2147516415 0 }

/-- A grid wider than the format allows. -/
def tooWideGrid : TerragenFile :=
  { m_header_data := { zeroHeader with width := 65536, depth := 1 }, m_height_data := [] }

/-! ## Stream computations, step by step -/

namespace IStream

@[simp] theorem run_pure {α : Type} (a : α) (s : List Byte) :
    (pure a : IStream α).run s = .ok (a, s) := rfl

@[simp] theorem run_bind {α β : Type} (m : IStream α) (f : α → IStream β) (s : List Byte) :
    (m >>= f).run s =
      match m.run s with
      | .ok (a, s') => (f a).run s'
      | .error e => .error e := rfl

@[simp] theorem run_raise {α : Type} (e : TerragenError) (s : List Byte) :
    (raise e : IStream α).run s = .error e := rfl

@[simp] theorem run_lift_ok {α : Type} (a : α) (s : List Byte) :
    (lift (.ok a) : IStream α).run s = .ok (a, s) := rfl

@[simp] theorem run_lift_error {α : Type} (e : TerragenError) (s : List Byte) :
    (lift (.error e) : IStream α).run s = .error e := rfl

theorem run_read (n : Nat) (s : List Byte) :
    (read n).run s = if s.length < n then .error .ioFailure else .ok (s.take n, s.drop n) := rfl

theorem run_ignore (n : Nat) (s : List Byte) :
    (ignore n).run s = if s.length < n then .error .ioFailure else .ok ((), s.drop n) := rfl

end IStream


/-! ## Single-precision arithmetic: values that are not rounded -/

namespace Flt32

theorem intCast_natCast (n : Nat) : ((n : Int) : Flt32) = (n : Flt32) := rfl

theorem finite_add (a b : ℚ) : finite a + finite b = ofRat (a + b) := rfl

theorem finite_sub (a b : ℚ) : finite a - finite b = ofRat (a - b) := by
  show ofRat (a + -b) = ofRat (a - b)
  rw [sub_eq_add_neg]

theorem finite_mul (a b : ℚ) : finite a * finite b = ofRat (a * b) := rfl

theorem finite_div (a b : ℚ) (hb : b ≠ 0) : finite a / finite b = ofRat (a / b) := by
  show div (finite a) (finite b) = ofRat (a / b)
  unfold div
  simp [hb]

theorem intCast_eq (z : Int) : ((z : Int) : Flt32) = ofRat (z : ℚ) := rfl

theorem natCast_eq (n : Nat) : ((n : Nat) : Flt32) = ofRat (n : ℚ) := by
  show ofRat (((n : Int)) : ℚ) = ofRat (n : ℚ)
  simp

theorem ofNat_eq (n : Nat) : (OfNat.ofNat n : Flt32) = ofRat (n : ℚ) := rfl

theorem ofRat_zero : ofRat 0 = finite 0 := by
  unfold ofRat; simp

theorem isFinite_iff (x : Flt32) : x.isFinite = true ↔ ∃ c : ℚ, x = finite c := by
  cases x <;> simp [isFinite]

theorem zero_mul_of_isFinite (x : Flt32) (h : x.isFinite = true) : finite 0 * x = finite 0 := by
  obtain ⟨c, rfl⟩ := (isFinite_iff x).mp h
  rw [finite_mul, zero_mul, ofRat_zero]

theorem isFinite_ofRat (q : ℚ) (h : |q| < overflowThreshold) : (ofRat q).isFinite = true := by
  unfold ofRat
  split
  · rfl
  · rw [if_neg (not_le.mpr h)]
    split <;> rfl

theorem pow2_eq_zpow (z : Int) : pow2 z = (2 : ℚ) ^ z := by
  unfold pow2
  split
  · rename_i h
    obtain ⟨n, rfl⟩ := Int.eq_ofNat_of_zero_le h
    simp
  · rename_i h
    obtain ⟨n, hn⟩ := Int.eq_ofNat_of_zero_le (show 0 ≤ -z by omega)
    have hz : z = -(n : Int) := by omega
    subst hz
    simp

theorem pow2_pos (z : Int) : 0 < pow2 z := by
  rw [pow2_eq_zpow]; positivity

theorem pow2_add (x y : Int) : pow2 (x + y) = pow2 x * pow2 y := by
  rw [pow2_eq_zpow, pow2_eq_zpow, pow2_eq_zpow, zpow_add₀ (by norm_num)]

theorem pow2_natCast (n : Nat) : pow2 (n : Int) = ((2 ^ n : Nat) : ℚ) := by
  rw [pow2_eq_zpow]; simp

theorem pow2_le_pow2 {x y : Int} (h : x ≤ y) : pow2 x ≤ pow2 y := by
  rw [pow2_eq_zpow, pow2_eq_zpow]
  exact zpow_le_zpow_right₀ (by norm_num) h

theorem pow2_lt_pow2_iff {x y : Int} : pow2 x < pow2 y ↔ x < y := by
  rw [pow2_eq_zpow, pow2_eq_zpow]
  exact zpow_lt_zpow_iff_right₀ (by norm_num)

theorem log2Aux_spec (fuel : Nat) : ∀ n : Nat, n ≤ fuel → 1 ≤ n →
    2 ^ log2Aux fuel n ≤ n ∧ n < 2 ^ (log2Aux fuel n + 1) := by
  induction fuel with
  | zero => intro n h1 h2; omega
  | succ fuel ih =>
    intro n h1 h2
    unfold log2Aux
    split
    · simp; omega
    · rename_i h
      have := ih (n / 2) (by omega) (by omega)
      rw [pow_succ, pow_succ (n := log2Aux fuel (n / 2) + 1)]
      omega

theorem log2_spec (n : Nat) (hn : 1 ≤ n) : 2 ^ log2 n ≤ n ∧ n < 2 ^ (log2 n + 1) :=
  log2Aux_spec n n (le_refl n) hn

theorem ilog2_spec (a : ℚ) (ha : 0 < a) : pow2 (ilog2 a) ≤ a ∧ a < pow2 (ilog2 a + 1) := by
  have hnum : 0 < a.num := Rat.num_pos.mpr ha
  have hden : 0 < a.den := a.den_pos
  obtain ⟨n1, n2⟩ := log2_spec a.num.natAbs (by omega)
  obtain ⟨d1, d2⟩ := log2_spec a.den (by omega)
  have hnat : ((a.num.natAbs : Nat) : ℚ) = (a.num : ℚ) := by
    rw [← Int.cast_natCast, Int.natAbs_of_nonneg (le_of_lt hnum)]
  have hmul : a * (a.den : ℚ) = (a.num : ℚ) := Rat.mul_den_eq_num a
  have hdq : (0 : ℚ) < (a.den : ℚ) := by exact_mod_cast hden
  have N1 : pow2 (log2 a.num.natAbs : Int) ≤ (a.num : ℚ) := by
    rw [pow2_natCast, ← hnat]; exact_mod_cast n1
  have N2 : (a.num : ℚ) < pow2 ((log2 a.num.natAbs : Int) + 1) := by
    have : ((log2 a.num.natAbs : Int) + 1) = ((log2 a.num.natAbs + 1 : Nat) : Int) := by simp
    rw [this, pow2_natCast, ← hnat]; exact_mod_cast n2
  have D1 : pow2 (log2 a.den : Int) ≤ (a.den : ℚ) := by
    rw [pow2_natCast]; exact_mod_cast d1
  have D2 : (a.den : ℚ) < pow2 ((log2 a.den : Int) + 1) := by
    have : ((log2 a.den : Int) + 1) = ((log2 a.den + 1 : Nat) : Int) := by simp
    rw [this, pow2_natCast]; exact_mod_cast d2
  have upper : a < pow2 ((log2 a.num.natAbs : Int) - (log2 a.den : Int) + 1) := by
    have e : pow2 ((log2 a.num.natAbs : Int) - (log2 a.den : Int) + 1) * pow2 (log2 a.den : Int)
        = pow2 ((log2 a.num.natAbs : Int) + 1) := by
      rw [← pow2_add]; congr 1; ring
    have h1 : a * (a.den : ℚ) < pow2 ((log2 a.num.natAbs : Int) - (log2 a.den : Int) + 1) * (a.den : ℚ) := by
      calc a * (a.den : ℚ) = (a.num : ℚ) := hmul
        _ < pow2 ((log2 a.num.natAbs : Int) + 1) := N2
        _ = pow2 ((log2 a.num.natAbs : Int) - (log2 a.den : Int) + 1) * pow2 (log2 a.den : Int) := e.symm
        _ ≤ pow2 ((log2 a.num.natAbs : Int) - (log2 a.den : Int) + 1) * (a.den : ℚ) :=
            mul_le_mul_of_nonneg_left D1 (le_of_lt (pow2_pos _))
    exact lt_of_mul_lt_mul_right h1 (le_of_lt hdq)
  have lower : pow2 ((log2 a.num.natAbs : Int) - (log2 a.den : Int) - 1) ≤ a := by
    have e : pow2 ((log2 a.num.natAbs : Int) - (log2 a.den : Int) - 1) * pow2 ((log2 a.den : Int) + 1)
        = pow2 (log2 a.num.natAbs : Int) := by
      rw [← pow2_add]; congr 1; ring
    have h1 : pow2 ((log2 a.num.natAbs : Int) - (log2 a.den : Int) - 1) * (a.den : ℚ) ≤ a * (a.den : ℚ) := by
      calc pow2 ((log2 a.num.natAbs : Int) - (log2 a.den : Int) - 1) * (a.den : ℚ)
          ≤ pow2 ((log2 a.num.natAbs : Int) - (log2 a.den : Int) - 1) * pow2 ((log2 a.den : Int) + 1) :=
            mul_le_mul_of_nonneg_left (le_of_lt D2) (le_of_lt (pow2_pos _))
        _ = pow2 (log2 a.num.natAbs : Int) := e
        _ ≤ (a.num : ℚ) := N1
        _ = a * (a.den : ℚ) := hmul.symm
    exact le_of_mul_le_mul_right h1 hdq
  unfold ilog2
  simp only []
  split
  · rename_i h
    exact ⟨h, upper⟩
  · rename_i h
    refine ⟨lower, ?_⟩
    have : (log2 a.num.natAbs : Int) - (log2 a.den : Int) - 1 + 1
        = (log2 a.num.natAbs : Int) - (log2 a.den : Int) := by ring
    rw [this]
    exact lt_of_not_le h

theorem ilog2_unique (a : ℚ) (k : Int) (h1 : pow2 k ≤ a) (h2 : a < pow2 (k + 1)) (ha : 0 < a) :
    ilog2 a = k := by
  obtain ⟨s1, s2⟩ := ilog2_spec a ha
  have l1 : ilog2 a < k + 1 := pow2_lt_pow2_iff.mp (lt_of_le_of_lt s1 h2)
  have l2 : k < ilog2 a + 1 := pow2_lt_pow2_iff.mp (lt_of_le_of_lt h1 s2)
  omega

theorem roundHalfEven_intCast (z : Int) : roundHalfEven (z : ℚ) = z := by
  unfold roundHalfEven
  simp

theorem roundMagnitude_dyadic (n : Nat) (e : Int) (hn : 0 < n) (hn2 : n < 16777216)
    (he : -149 ≤ e) : roundMagnitude ((n : ℚ) * pow2 e) = (n : ℚ) * pow2 e := by
  obtain ⟨l1, l2⟩ := log2_spec n hn
  have hl : log2 n ≤ 23 := by
    by_contra hc
    have : 2 ^ 24 ≤ 2 ^ log2 n := Nat.pow_le_pow_right (by norm_num) (by omega)
    omega
  have ha : 0 < (n : ℚ) * pow2 e := mul_pos (by exact_mod_cast hn) (pow2_pos e)
  have hlog : ilog2 ((n : ℚ) * pow2 e) = (log2 n : Int) + e := by
    apply ilog2_unique _ _ _ _ ha
    · rw [pow2_add, pow2_natCast]
      exact mul_le_mul_of_nonneg_right (by exact_mod_cast l1) (le_of_lt (pow2_pos e))
    · have : (log2 n : Int) + e + 1 = ((log2 n + 1 : Nat) : Int) + e := by push_cast; ring
      rw [this, pow2_add, pow2_natCast]
      exact mul_lt_mul_of_pos_right (by exact_mod_cast l2) (pow2_pos e)
  unfold roundMagnitude
  rw [hlog]
  obtain ⟨k, hk⟩ := Int.eq_ofNat_of_zero_le
    (show 0 ≤ e - (max ((log2 n : Int) + e) (-126) - 23) by omega)
  have hsplit : pow2 e = pow2 (k : Int) * pow2 (max ((log2 n : Int) + e) (-126) - 23) := by
    rw [← pow2_add, ← hk]; congr 1; ring
  have hE : pow2 (max ((log2 n : Int) + e) (-126) - 23) ≠ 0 := ne_of_gt (pow2_pos _)
  have hq : (n : ℚ) * pow2 e / pow2 (max ((log2 n : Int) + e) (-126) - 23)
      = (((n * 2 ^ k : Nat) : Int) : ℚ) := by
    rw [hsplit, pow2_natCast, ← mul_assoc, mul_div_assoc, div_self hE]
    push_cast; ring
  rw [hq, roundHalfEven_intCast, hsplit, pow2_natCast]
  push_cast; ring

theorem ofRat_dyadic (m e : Int) (hm : |m| < 16777216) (he : -149 ≤ e) (hmax : e ≤ 104) :
    ofRat ((m : ℚ) * pow2 e) = finite ((m : ℚ) * pow2 e) := by
  have hbound : |(m : ℚ) * pow2 e| < overflowThreshold := by
    rw [abs_mul, abs_of_pos (pow2_pos e)]
    have h1 : |(m : ℚ)| ≤ 16777215 := by
      have : |m| ≤ 16777215 := by omega
      exact_mod_cast this
    have h2 : pow2 e ≤ pow2 104 := pow2_le_pow2 hmax
    have h3 : pow2 104 = 20282409603651670423947251286016 := by
      rw [pow2_eq_zpow]; norm_num
    calc |(m : ℚ)| * pow2 e ≤ 16777215 * pow2 104 :=
          mul_le_mul h1 h2 (le_of_lt (pow2_pos e)) (by norm_num)
      _ < overflowThreshold := by rw [h3]; unfold overflowThreshold; norm_num
  have hm' : (m.natAbs : Int) < 16777216 := by rw [← Int.abs_eq_natAbs]; exact hm
  unfold ofRat
  rcases lt_trichotomy m 0 with hneg | hzero | hpos
  · have hq : (m : ℚ) * pow2 e < 0 := mul_neg_of_neg_of_pos (by exact_mod_cast hneg) (pow2_pos e)
    rw [if_neg (ne_of_lt hq), if_neg (not_le.mpr hbound), if_neg (not_lt.mpr (le_of_lt hq))]
    have hn : -((m : ℚ) * pow2 e) = ((m.natAbs : Nat) : ℚ) * pow2 e := by
      have : ((m.natAbs : Nat) : Int) = -m := by omega
      rw [← Int.cast_natCast, this]; push_cast; ring
    rw [hn, roundMagnitude_dyadic m.natAbs e (by omega) (by omega) he, ← hn, neg_neg]
  · subst hzero; simp
  · have hq : 0 < (m : ℚ) * pow2 e := mul_pos (by exact_mod_cast hpos) (pow2_pos e)
    rw [if_neg (ne_of_gt hq), if_neg (not_le.mpr hbound), if_pos hq]
    have hn : (m : ℚ) * pow2 e = ((m.natAbs : Nat) : ℚ) * pow2 e := by
      have : ((m.natAbs : Nat) : Int) = m := by omega
      rw [← Int.cast_natCast, this]
    rw [hn, roundMagnitude_dyadic m.natAbs e (by omega) (by omega) he]

/-- Every integer of magnitude below `2^24` is a single-precision number. -/
theorem ofRat_intCast (z : Int) (hz : |z| < 16777216) : ofRat (z : ℚ) = finite (z : ℚ) := by
  have := ofRat_dyadic z 0 hz (by norm_num) (by norm_num)
  have h0 : pow2 0 = 1 := by rw [pow2_eq_zpow]; simp
  rwa [h0, mul_one] at this

/-- A 16-bit quantity over `65536` is a single-precision number. -/
theorem ofRat_div_65536 (z : Int) (hz : |z| < 16777216) :
    ofRat ((z : ℚ) / 65536) = finite ((z : ℚ) / 65536) := by
  have := ofRat_dyadic z (-16) hz (by norm_num) (by norm_num)
  have h0 : pow2 (-16) = 1 / 65536 := by rw [pow2_eq_zpow]; norm_num
  rw [h0] at this
  rwa [show (z : ℚ) * (1 / 65536) = (z : ℚ) / 65536 by ring] at this

theorem intCast_small (z : Int) (hz : |z| < 16777216) : ((z : Int) : Flt32) = finite (z : ℚ) :=
  ofRat_intCast z hz

theorem natCast_small (n : Nat) (hn : n < 16777216) : ((n : Nat) : Flt32) = finite (n : ℚ) := by
  rw [natCast_eq]
  have := ofRat_intCast (n : Int) (by rw [abs_of_nonneg (by omega)]; omega)
  simpa using this

end Flt32
/-! ## Counted loops -/

theorem forLoop_zero {m : Type → Type} [Monad m] {σ : Type} (body : Nat → σ → m σ)
    (i : Nat) (s : σ) : forLoop body 0 i s = pure s := rfl

theorem forLoop_succ {m : Type → Type} [Monad m] {σ : Type} (body : Nat → σ → m σ)
    (k i : Nat) (s : σ) : forLoop body (k + 1) i s = body i s >>= forLoop body k (i + 1) := rfl

/-- Invariant rule for a loop whose body may fail: when every iteration in
range keeps the invariant and succeeds, the loop succeeds and the invariant
holds at the end. -/
theorem forLoop_except {σ : Type} (body : Nat → σ → Except TerragenError σ)
    (P : Nat → σ → Prop) :
    ∀ count start s, P start s →
      (∀ i s, start ≤ i → i < start + count → P i s →
        ∃ s', body i s = .ok s' ∧ P (i + 1) s') →
      ∃ s', forLoop body count start s = .ok s' ∧ P (start + count) s' := by
  intro count
  induction count with
  | zero => intro start s h0 _; exact ⟨s, rfl, h0⟩
  | succ k ih =>
    intro start s h0 hstep
    obtain ⟨s1, hb, h1⟩ := hstep start s (le_refl _) (by omega) h0
    obtain ⟨s2, hl, h2⟩ := ih (start + 1) s1 h1
      (fun i t hi1 hi2 hP => hstep i t (by omega) (by omega) hP)
    refine ⟨s2, ?_, ?_⟩
    · rw [forLoop_succ, hb]
      exact hl
    · have : start + (k + 1) = start + 1 + k := by omega
      rw [this]
      exact h2

/-- Invariant rule for two nested loops, the invariant indexed by the number
`y * w + x` of inner iterations done. -/
theorem forLoop2_except {σ : Type} (body : Nat → Nat → σ → Except TerragenError σ)
    (P : Nat → σ → Prop) (w d : Nat) (s : σ) (h0 : P 0 s)
    (hstep : ∀ y x s, y < d → x < w → P (y * w + x) s →
      ∃ s', body y x s = .ok s' ∧ P (y * w + x + 1) s') :
    ∃ s', forLoop (fun y st => forLoop (body y) w 0 st) d 0 s = .ok s' ∧ P (d * w) s' := by
  have h := forLoop_except (fun y st => forLoop (body y) w 0 st) (fun y st => P (y * w) st)
    d 0 s (by simpa using h0) (by
      intro y st _ hy hP
      have hin := forLoop_except (body y) (fun x st => P (y * w + x) st) w 0 st
        (by simpa using hP) (by
          intro x t _ hx hPx
          exact hstep y x t (by omega) (by omega) hPx)
      obtain ⟨s', hs', hP'⟩ := hin
      refine ⟨s', hs', ?_⟩
      have : (y + 1) * w = y * w + (0 + w) := by ring
      show P ((y + 1) * w) s'
      rw [this]
      exact hP')
  simpa using h

/-- A loop over a stream is a loop over pairs of a state and the unread
bytes. -/
theorem forLoop_run {σ : Type} (body : Nat → σ → IStream σ) :
    ∀ count start st s,
      (forLoop body count start st).run s =
        forLoop (m := Except TerragenError)
          (fun i (p : σ × List Byte) => (body i p.1).run p.2) count start (st, s) := by
  intro count
  induction count with
  | zero => intro start st s; rfl
  | succ k ih =>
    intro start st s
    rw [forLoop_succ, forLoop_succ, IStream.run_bind]
    cases hb : (body start st).run s with
    | error e => rfl
    | ok p =>
      obtain ⟨a, s'⟩ := p
      exact ih (start + 1) a s'

/-- Invariant rule for two nested loops over a stream. -/
theorem forLoop2_stream {σ : Type} (body : Nat → Nat → σ → IStream σ)
    (P : Nat → σ → List Byte → Prop) (w d : Nat) (st : σ) (s : List Byte) (h0 : P 0 st s)
    (hstep : ∀ y x st s, y < d → x < w → P (y * w + x) st s →
      ∃ st' s', (body y x st).run s = .ok (st', s') ∧ P (y * w + x + 1) st' s') :
    ∃ st' s', (forLoop (fun y st => forLoop (body y) w 0 st) d 0 st).run s = .ok (st', s') ∧
      P (d * w) st' s' := by
  rw [forLoop_run]
  have hfun : (fun i (p : σ × List Byte) =>
      (forLoop (body i) w 0 p.1).run p.2) =
      fun i p => forLoop (m := Except TerragenError)
        (fun x (q : σ × List Byte) => (body i x q.1).run q.2) w 0 p := by
    funext i p
    exact forLoop_run (body i) w 0 p.1 p.2
  rw [hfun]
  obtain ⟨p, hp, hP⟩ := forLoop2_except
    (fun y x (q : σ × List Byte) => (body y x q.1).run q.2)
    (fun k q => P k q.1 q.2) w d (st, s) h0 (by
      intro y x q hy hx hq
      obtain ⟨st', s', h1, h2⟩ := hstep y x q.1 q.2 hy hx hq
      exact ⟨(st', s'), h1, h2⟩)
  exact ⟨p.1, p.2, hp, hP⟩

/-! ## Checked arithmetic and element access -/

theorem ckInt_ok (v : Int) (h1 : INT_MIN ≤ v) (h2 : v ≤ INT_MAX) : ckInt v = .ok v := by
  simp [ckInt, h1, h2]

theorem ok_bind {α β : Type} (a : α) (f : α → Except TerragenError β) :
    (Except.ok a >>= f) = f a := rfl

theorem ckInt_range (v : Int) (h1 : -1 ≤ v) (h2 : v ≤ 2147483647) : ckInt v = .ok v :=
  ckInt_ok v (by unfold INT_MIN; omega) (by unfold INT_MAX; omega)

theorem ckInt_nat (n : Nat) (h : (n : Int) ≤ INT_MAX) : ckInt (n : Int) = .ok (n : Int) :=
  ckInt_ok _ (by unfold INT_MIN; omega) h

namespace TerragenFile

/-- The element index is defined as soon as it is an `int` and lies in the
block. -/
theorem index_ok_le (f : TerragenFile) (W x z : Nat) (hw : f.m_header_data.width = (W : Int))
    (hlen : z * W + x < f.m_height_data.length)
    (hmax : ((z * W + x : Nat) : Int) ≤ INT_MAX) :
    f.index (x : Int) (z : Int) = .ok (z * W + x) := by
  have h1 : ((z * W : Nat) : Int) ≤ INT_MAX := by
    have : ((z * W : Nat) : Int) ≤ ((z * W + x : Nat) : Int) := by omega
    omega
  have e1 : (z : Int) * f.m_header_data.width = ((z * W : Nat) : Int) := by
    rw [hw]; push_cast; ring
  have e2 : ((z * W : Nat) : Int) + (x : Int) = ((z * W + x : Nat) : Int) := by push_cast; ring
  unfold index
  rw [e1, ckInt_nat _ h1]
  simp only [bind, Except.bind]
  rw [e2, ckInt_nat _ hmax]
  simp only [Int.toNat_ofNat]
  rw [if_pos ⟨by omega, by omega⟩]
  rfl

theorem get_ok_le (f : TerragenFile) (W x z : Nat) (hw : f.m_header_data.width = (W : Int))
    (hlen : z * W + x < f.m_height_data.length)
    (hmax : ((z * W + x : Nat) : Int) ≤ INT_MAX) :
    f.get (x : Int) (z : Int) = .ok (f.m_height_data.getD (z * W + x) 0) := by
  unfold get
  rw [index_ok_le f W x z hw hlen hmax]
  rfl

theorem index_ok (f : TerragenFile) (W x z : Nat) (hw : f.m_header_data.width = (W : Int))
    (hlen : z * W + x < f.m_height_data.length)
    (hmax : (f.m_height_data.length : Int) ≤ INT_MAX) :
    f.index (x : Int) (z : Int) = .ok (z * W + x) :=
  index_ok_le f W x z hw hlen (by omega)

theorem get_ok (f : TerragenFile) (W x z : Nat) (hw : f.m_header_data.width = (W : Int))
    (hlen : z * W + x < f.m_height_data.length)
    (hmax : (f.m_height_data.length : Int) ≤ INT_MAX) :
    f.get (x : Int) (z : Int) = .ok (f.m_height_data.getD (z * W + x) 0) :=
  get_ok_le f W x z hw hlen (by omega)

theorem set_ok (f : TerragenFile) (W x z : Nat) (v : Flt32)
    (hw : f.m_header_data.width = (W : Int))
    (hlen : z * W + x < f.m_height_data.length)
    (hmax : (f.m_height_data.length : Int) ≤ INT_MAX) :
    f.set (x : Int) (z : Int) v =
      .ok { f with m_height_data := f.m_height_data.set (z * W + x) v } := by
  unfold set
  rw [index_ok f W x z hw hlen hmax]
  rfl

end TerragenFile

theorem getD_set_eq (l : List Flt32) (i : Nat) (v : Flt32) (h : i < l.length) :
    (l.set i v).getD i 0 = v := by
  simp [List.getD_eq_getElem?_getD, List.getElem?_set, h]

theorem getD_set_ne (l : List Flt32) (i j : Nat) (v : Flt32) (h : i ≠ j) :
    (l.set i v).getD j 0 = l.getD j 0 := by
  simp [List.getD_eq_getElem?_getD, List.getElem?_set, h]

theorem list_eq_map_range (l : List Flt32) (n : Nat) (f : Nat → Flt32) (hlen : l.length = n)
    (h : ∀ k, k < n → l.getD k 0 = f k) : l = (List.range n).map f := by
  apply List.ext_getElem
  · simp [hlen]
  · intro k h1 h2
    have := h k (by omega)
    simp [List.getD_eq_getElem?_getD, List.getElem?_eq_getElem h1] at this
    simp [this]

/-! ## Decoding the samples of an `ALTW` chunk -/

theorem readInt16_drop (s : List Byte) (k : Nat) (h : 2 * k + 2 ≤ s.length) :
    readInt16.run (s.drop (2 * k)) = .ok (rawSample s k, s.drop (2 * (k + 1))) := by
  have hlen : ¬ (s.length - 2 * k < 2) := by omega
  have h0 : 2 * k < s.length := by omega
  have h1 : 2 * k + 1 < s.length := by omega
  simp [readInt16, readUint16, IStream.run_read, hlen, rawSample, List.getD_eq_getElem?_getD,
    List.getElem?_take, List.getElem?_drop, h0, h1, Nat.mul_add]

theorem flat_index_lt (W D y x : Nat) (hy : y < D) (hx : x < W) : y * W + x < D * W := by
  have h1 : (y + 1) * W ≤ D * W := Nat.mul_le_mul_right W (by omega)
  have h2 : (y + 1) * W = y * W + W := by ring
  omega

/-- One iteration of the sample loops, on sample number `y * W + x`. -/
theorem readSample_run (W x y : Nat) (st : AltwState) (s : List Byte)
    (hw : st.ret.m_header_data.width = (W : Int))
    (hlen : y * W + x < st.ret.m_height_data.length)
    (hmax : (st.ret.m_height_data.length : Int) ≤ INT_MAX)
    (hs : 2 * (y * W + x) + 2 ≤ s.length) :
    (readSample y x st).run (s.drop (2 * (y * W + x))) =
      .ok (st.store (y * W + x) (rawSample s (y * W + x)), s.drop (2 * (y * W + x + 1))) := by
  have hread := readInt16_drop s (y * W + x) hs
  have hset := TerragenFile.set_ok st.ret W x y
    (st.ret.m_header_data.base_height +
      st.ret.m_header_data.height_scale * (rawSample s (y * W + x) : Flt32)) hw hlen hmax
  unfold readSample
  rw [IStream.run_bind, hread]
  simp only [IStream.run_bind]
  rw [hset]
  rfl

/-- The sample loops of the `ALTW` branch on a stream that holds all the
samples: they leave the decoded heights in the block, consume two bytes a
sample and track the running extremes. -/
theorem readSamples_ok (W D : Nat) (st0 : AltwState) (s : List Byte)
    (hw : st0.ret.m_header_data.width = (W : Int))
    (hlen : st0.ret.m_height_data.length = D * W)
    (hmax : ((D * W : Nat) : Int) ≤ INT_MAX)
    (hs : 2 * (D * W) ≤ s.length) :
    ∃ st', (forLoop (fun y st => forLoop (readSample y) W 0 st) D 0 st0).run s =
        .ok (st', s.drop (2 * (D * W))) ∧
      st'.ret.m_header_data = st0.ret.m_header_data ∧
      st'.ret.m_height_data = (List.range (D * W)).map (fun k =>
        st0.ret.m_header_data.base_height +
          st0.ret.m_header_data.height_scale * (rawSample s k : Flt32)) ∧
      st'.min_height = runMin st0.min_height (fun k =>
        st0.ret.m_header_data.base_height +
          st0.ret.m_header_data.height_scale * (rawSample s k : Flt32)) (D * W) ∧
      st'.max_height = runMax st0.max_height (fun k =>
        st0.ret.m_header_data.base_height +
          st0.ret.m_header_data.height_scale * (rawSample s k : Flt32)) (D * W) := by
  obtain ⟨st', s', hrun, hP⟩ := forLoop2_stream readSample
    (fun k st s' => s' = s.drop (2 * k) ∧
      st.ret.m_header_data = st0.ret.m_header_data ∧
      st.ret.m_height_data.length = D * W ∧
      (∀ j, j < k → st.ret.m_height_data.getD j 0 =
        st0.ret.m_header_data.base_height +
          st0.ret.m_header_data.height_scale * (rawSample s j : Flt32)) ∧
      st.min_height = runMin st0.min_height (fun k =>
        st0.ret.m_header_data.base_height +
          st0.ret.m_header_data.height_scale * (rawSample s k : Flt32)) k ∧
      st.max_height = runMax st0.max_height (fun k =>
        st0.ret.m_header_data.base_height +
          st0.ret.m_header_data.height_scale * (rawSample s k : Flt32)) k)
    W D st0 s
    ⟨by simp, rfl, hlen, by intro j hj; omega, rfl, rfl⟩
    (by
      intro y x st s' hy hx ⟨hs', hhdr, hl, hvals, hmin, hmaxv⟩
      have hk := flat_index_lt W D y x hy hx
      subst hs'
      refine ⟨_, _, readSample_run W x y st s (by rw [hhdr]; exact hw) (by omega) (by omega)
        (by omega), ?_⟩
      · refine ⟨rfl, hhdr, by simpa [AltwState.store] using hl, ?_, ?_, ?_⟩
        · intro j hj
          by_cases hjk : j = y * W + x
          · subst hjk
            simp only [AltwState.store]
            rw [getD_set_eq _ _ _ (by omega), hhdr]
          · simp only [AltwState.store]
            rw [getD_set_ne _ _ _ _ (Ne.symm hjk)]
            exact hvals j (by omega)
        · simp only [AltwState.store, runMin, hmin, hhdr]
        · simp only [AltwState.store, runMax, hmaxv, hhdr])
  obtain ⟨hs', hhdr, hl, hvals, hmin, hmaxv⟩ := hP
  subst hs'
  exact ⟨st', hrun, hhdr, list_eq_map_range _ _ _ hl hvals, hmin, hmaxv⟩

/-! ## The `ALTW` branch -/

theorem rawSample_drop (s : List Byte) (j k : Nat) :
    rawSample (s.drop (2 * j)) k = rawSample s (k + j) := by
  simp [rawSample, List.getD_eq_getElem?_getD, List.getElem?_drop, Nat.mul_add, Nat.add_comm,
    Nat.add_left_comm]

theorem allocBytes_nat (W D : Nat) (h : ((D * W : Nat) : Int) ≤ INT_MAX) (hD : 0 < D)
    (hW : 0 < W) : allocBytes (W : Int) (D : Int) = 4 * (D * W) := by
  have hW' : W ≤ D * W := Nat.le_mul_of_pos_left W hD
  have hD' : D ≤ D * W := Nat.le_mul_of_pos_right D hW
  unfold INT_MAX at h
  have e1 : toSizeT (W : Int) = W := by
    unfold toSizeT; omega
  have e2 : toSizeT (D : Int) = D := by
    unfold toSizeT; omega
  have a1 : 4 * W % 18446744073709551616 = 4 * W := Nat.mod_eq_of_lt (by omega)
  have a2 : 4 * W * D = 4 * (D * W) := by ring
  unfold allocBytes
  rw [e1, e2, a1, a2]
  exact Nat.mod_eq_of_lt (by omega)

theorem malloc_length (env : Indeterminate) (bytes : Nat) :
    (malloc env bytes).length = bytes / 4 := by
  simp [malloc]

theorem readAltwPadding_ok (ret : TerragenFile) (W D : Nat) (s : List Byte)
    (hw : ret.m_header_data.width = (W : Int)) (hd : ret.m_header_data.depth = (D : Int))
    (hmax : ((D * W : Nat) : Int) ≤ INT_MAX) (hs : altwPadding (D * W) ≤ s.length) :
    (readAltwPadding ret).run s = .ok (ret, s.drop (altwPadding (D * W))) := by
  have hprod : ckInt (ret.m_header_data.depth * ret.m_header_data.width)
      = .ok ((D * W : Nat) : Int) := by
    have : ret.m_header_data.depth * ret.m_header_data.width = ((D * W : Nat) : Int) := by
      rw [hw, hd]; push_cast; ring
    rw [this]
    exact ckInt_nat _ hmax
  unfold readAltwPadding
  rw [IStream.run_bind, hprod]
  simp only [IStream.run_lift_ok]
  have ht : ((D * W : Nat) : Int).tmod 2 = ((D * W % 2 : Nat) : Int) := by
    rw [Int.tmod_eq_emod (by omega) (by norm_num)]
    omega
  rw [ht]
  by_cases hodd : D * W % 2 = 1
  · have hne : ((D * W % 2 : Nat) : Int) ≠ 0 := by omega
    have hlen : ¬ s.length < 2 := by
      simp [altwPadding, hodd] at hs; omega
    simp [hne, altwPadding, hodd, IStream.run_ignore, hlen]
  · have hz : ((D * W % 2 : Nat) : Int) = 0 := by omega
    simp [hz, altwPadding, hodd]

/-- The `ALTW` branch with positive dimensions `W` and `D`, on a stream that
holds the two header words, the `D * W` samples and the padding: it returns
`decodeAltw` and leaves what follows the padding. -/
theorem readAltw_ok (env : Indeterminate) (ret : TerragenFile) (W D : Nat) (s : List Byte)
    (hw : ret.m_header_data.width = (W : Int)) (hd : ret.m_header_data.depth = (D : Int))
    (hW : 0 < W) (hD : 0 < D) (hmax : ((D * W : Nat) : Int) ≤ INT_MAX)
    (hs : 4 + 2 * (D * W) + altwPadding (D * W) ≤ s.length) :
    (readAltw env ret).run s =
      .ok (decodeAltw ret s, s.drop (4 + 2 * (D * W) + altwPadding (D * W))) := by
  have hcond : ¬ (ret.m_header_data.width ≤ 0 ∨ ret.m_header_data.depth ≤ 0) := by
    rw [hw, hd]; omega
  have h0 : readInt16.run s = .ok (rawSample s 0, s.drop 2) := by
    have := readInt16_drop s 0 (by omega)
    simpa using this
  have h1 : readInt16.run (s.drop 2) = .ok (rawSample s 1, s.drop 4) := by
    have := readInt16_drop s 1 (by omega)
    simpa using this
  have hblock : (altwBegin env ret (rawSample s 0) (rawSample s 1)).m_height_data.length
      = D * W := by
    simp only [altwBegin, hw, hd]
    rw [malloc_length, allocBytes_nat W D hmax hD hW]
    omega
  obtain ⟨st', hrun, hhdr, hdata, hmin, hmaxv⟩ := readSamples_ok W D
    { ret := altwBegin env ret (rawSample s 0) (rawSample s 1)
      min_height := FLT_MAX
      max_height := FLT_MIN }
    (s.drop 4) hw hblock hmax (by simp; omega)
  have hsamples : (readAltwSamples (altwBegin env ret (rawSample s 0) (rawSample s 1))).run
      (s.drop 4) = .ok (st', List.drop (2 * (D * W)) (s.drop 4)) := by
    unfold readAltwSamples
    have e1 : (altwBegin env ret (rawSample s 0) (rawSample s 1)).m_header_data.width.toNat
        = W := by
      simp [altwBegin, hw]
    have e2 : (altwBegin env ret (rawSample s 0) (rawSample s 1)).m_header_data.depth.toNat
        = D := by
      simp [altwBegin, hd]
    rw [e1, e2]
    exact hrun
  have hpad := readAltwPadding_ok (altwEnd st') W D (List.drop (2 * (D * W)) (s.drop 4))
    (by simp [altwEnd, hhdr, altwBegin, hw]) (by simp [altwEnd, hhdr, altwBegin, hd]) hmax
    (by simp; omega)
  have hres : altwEnd st' = decodeAltw ret s := by
    have hr : ∀ k, rawSample (s.drop 4) k = rawSample s (k + 2) := fun k =>
      rawSample_drop s 2 k
    simp only [altwEnd, decodeAltw, hhdr, hdata, hmin, hmaxv, hw, hd, Int.toNat_ofNat, hr,
      altwBegin]
  rw [hres] at hpad
  simp only [List.drop_drop] at hpad
  unfold readAltw
  rw [if_neg hcond]
  simp only [IStream.run_bind, h0, h1, hsamples, List.drop_drop, hres, hpad]
/-! ## Reading back what the write helpers produce -/

theorem run_read_append (l rest : List Byte) (n : Nat) (h : l.length = n) :
    (IStream.read n).run (l ++ rest) = .ok (l, rest) := by
  subst h
  simp [IStream.run_read]

theorem run_ignore_append (l rest : List Byte) (n : Nat) (h : l.length = n) :
    (IStream.ignore n).run (l ++ rest) = .ok ((), rest) := by
  subst h
  simp [IStream.run_ignore]

theorem writeUint16_length (v : Nat) : (writeUint16 v).length = 2 := rfl

theorem writeInt16_length (v : Int) : (writeInt16 v).length = 2 := rfl

theorem writeFloat_length (f : F32) : (writeFloat f).length = 4 := rfl

theorem sampleBytes_length (q : Nat → Int) (n : Nat) : (sampleBytes q n).length = 2 * n := by
  induction n with
  | zero => rfl
  | succ k ih => simp [sampleBytes, ih, writeInt16_length]; omega

theorem readUint16_write (v : Nat) (rest : List Byte) :
    readUint16.run (writeUint16 v ++ rest) = .ok (v % 65536, rest) := by
  unfold readUint16
  rw [IStream.run_bind, run_read_append _ _ 2 (writeUint16_length v)]
  simp only [IStream.run_pure, writeUint16, List.getD_cons_zero, List.getD_cons_succ, Fin.ofNat,
    Except.ok.injEq, Prod.mk.injEq, and_true]
  omega

theorem uint16ToInt16_toUint16 (v : Int) (h1 : -32768 ≤ v) (h2 : v ≤ 32767) :
    uint16ToInt16 (toUint16 v % 65536) = v := by
  unfold uint16ToInt16 toUint16
  split <;> omega

theorem readInt16_write (v : Int) (rest : List Byte) (h1 : -32768 ≤ v) (h2 : v ≤ 32767) :
    readInt16.run (writeInt16 v ++ rest) = .ok (v, rest) := by
  unfold readInt16 writeInt16
  rw [IStream.run_bind, readUint16_write]
  simp only [IStream.run_pure, uint16ToInt16_toUint16 v h1 h2]

theorem readFloat_write (f : F32) (rest : List Byte) :
    readFloat.run (writeFloat f ++ rest) = .ok (f, rest) := by
  unfold readFloat
  rw [IStream.run_bind, run_read_append _ _ 4 (writeFloat_length f)]
  simp only [IStream.run_pure, writeFloat, List.getD_cons_zero, List.getD_cons_succ, Fin.ofNat,
    Except.ok.injEq, Prod.mk.injEq, and_true]
  apply Fin.ext
  simp only
  have := f.isLt
  omega

theorem rawSample_write_zero (v : Int) (t : List Byte) (h1 : -32768 ≤ v) (h2 : v ≤ 32767) :
    rawSample (writeInt16 v ++ t) 0 = v := by
  have hv := uint16ToInt16_toUint16 v h1 h2
  have e : toUint16 v % 256 % (255 + 1) + 256 * (toUint16 v / 256 % 256 % (255 + 1))
      = toUint16 v % 65536 := by omega
  unfold rawSample
  simp only [writeInt16, writeUint16, Fin.ofNat, List.cons_append, List.nil_append,
    Nat.mul_zero, Nat.zero_add, List.getD_cons_zero, List.getD_cons_succ]
  rw [e]
  exact hv

theorem rawSample_write_succ (v : Int) (t : List Byte) (k : Nat) :
    rawSample (writeInt16 v ++ t) (k + 1) = rawSample t k := by
  unfold rawSample
  have e1 : 2 * (k + 1) = (2 * k) + 1 + 1 := by ring
  have e2 : 2 * (k + 1) + 1 = (2 * k + 1) + 1 + 1 := by ring
  rw [e2, e1]
  simp only [writeInt16, writeUint16, List.cons_append, List.nil_append, List.getD_cons_succ]

theorem rawSample_append_left (a t : List Byte) (k : Nat) (h : 2 * k + 2 ≤ a.length) :
    rawSample (a ++ t) k = rawSample a k := by
  unfold rawSample
  rw [List.getD_append _ _ _ _ (by omega), List.getD_append _ _ _ _ (by omega)]

theorem rawSample_append_right (a t : List Byte) (n k : Nat) (h : a.length = 2 * n) :
    rawSample (a ++ t) (n + k) = rawSample t k := by
  unfold rawSample
  rw [List.getD_append_right _ _ _ _ (by omega), List.getD_append_right _ _ _ _ (by omega)]
  have e1 : 2 * (n + k) - a.length = 2 * k := by omega
  have e2 : 2 * (n + k) + 1 - a.length = 2 * k + 1 := by omega
  rw [e1, e2]

/-- The word number `k` of the bytes of a sequence of samples is sample `k`. -/
theorem rawSample_sampleBytes (q : Nat → Int) (n : Nat) (t : List Byte)
    (hq : ∀ k, k < n → -32768 ≤ q k ∧ q k ≤ 32767) :
    ∀ k, k < n → rawSample (sampleBytes q n ++ t) k = q k := by
  induction n generalizing t with
  | zero => intro k hk; omega
  | succ m ih =>
    intro k hk
    simp only [sampleBytes, List.append_assoc]
    by_cases hkm : k < m
    · exact ih _ (fun j hj => hq j (by omega)) k hkm
    · have hkm' : k = m := by omega
      subst hkm'
      have := rawSample_append_right (sampleBytes q k) (writeInt16 (q k) ++ t) k 0
        (sampleBytes_length q k)
      rw [Nat.add_zero] at this
      rw [this]
      exact rawSample_write_zero _ _ (hq k (by omega)).1 (hq k (by omega)).2
/-! ## The output of `writeTerragen` -/

theorem uint16ToInt16_range (v : Nat) : -32768 ≤ uint16ToInt16 v ∧ uint16ToInt16 v ≤ 32767 := by
  unfold uint16ToInt16
  split <;> omega

/-- Every conversion to `int16_t` gives a 16-bit value. -/
theorem floatToInt16_range (x : Flt32) : -32768 ≤ floatToInt16 x ∧ floatToInt16 x ≤ 32767 := by
  unfold floatToInt16
  split
  · split
    · exact uint16ToInt16_range _
    · omega
  · omega

theorem writeSample_ok_le (g : TerragenFile) (W x y : Nat) (out : List Byte)
    (hw : g.m_header_data.width = (W : Int))
    (hlen : y * W + x < g.m_height_data.length)
    (hmax : ((y * W + x : Nat) : Int) ≤ INT_MAX) :
    writeSample g y x out = .ok (out ++ writeInt16 (quantized g (y * W + x))) := by
  unfold writeSample
  rw [TerragenFile.get_ok_le g W x y hw hlen hmax]
  rfl

theorem writeSample_ok (g : TerragenFile) (W D x y : Nat) (out : List Byte)
    (hg : IsGrid g W D) (hy : y < D) (hx : x < W) :
    writeSample g y x out = .ok (out ++ writeInt16 (quantized g (y * W + x))) := by
  have hk := flat_index_lt W D y x hy hx
  have hle := hg.size_le
  exact writeSample_ok_le g W x y out hg.width_eq (by rw [hg.size_eq]; exact hk) (by omega)

theorem writeSamples_ok (g : TerragenFile) (W D : Nat) (out : List Byte)
    (hg : IsGrid g W D) :
    forLoop (fun y o => forLoop (writeSample g y) W 0 o) D 0 out =
      .ok (out ++ sampleBytes (quantized g) (D * W)) := by
  obtain ⟨out', hrun, hP⟩ := forLoop2_except (writeSample g)
    (fun k o => o = out ++ sampleBytes (quantized g) k) W D out (by simp [sampleBytes])
    (by
      intro y x o hy hx ho
      refine ⟨_, writeSample_ok g W D x y o hg hy hx, ?_⟩
      rw [ho]
      simp [sampleBytes])
  rw [hrun, hP]

/-- The bytes `writeTerragen` writes for a grid whose dimensions fit the
format. -/
theorem writeTerragen_ok (g : TerragenFile) (W D : Nat) (hg : IsGrid g W D)
    (hW : W < 65536) (hD : D < 65536) : writeTerragen g = .ok (encoded g) := by
  have hw := hg.width_eq
  have hd := hg.depth_eq
  have hWp := hg.width_pos
  have hDp := hg.depth_pos
  have h1 : ¬ (g.m_header_data.width ≥ 65536 ∨ g.m_header_data.depth ≥ 65536) := by
    rw [hw, hd]; omega
  have h2 : ¬ (g.m_header_data.width = 0 ∨ g.m_header_data.depth = 0) := by
    rw [hw, hd]; omega
  have hm : ckInt (min g.m_header_data.width g.m_header_data.depth - 1)
      = .ok (min g.m_header_data.width g.m_header_data.depth - 1) := by
    apply ckInt_ok <;> rw [hw, hd] <;> simp only [INT_MIN, INT_MAX] <;> omega
  have hp : ckInt (g.m_header_data.depth * g.m_header_data.width) = .ok ((D * W : Nat) : Int) := by
    have : g.m_header_data.depth * g.m_header_data.width = ((D * W : Nat) : Int) := by
      rw [hw, hd]; push_cast; ring
    rw [this]
    exact ckInt_nat _ hg.size_le
  have ht : ((D * W : Nat) : Int).tmod 2 = ((D * W % 2 : Nat) : Int) := by
    rw [Int.tmod_eq_emod (by omega) (by norm_num)]
    omega
  have hloop := fun out => writeSamples_ok g W D out hg
  unfold writeTerragen
  rw [if_neg h1, if_neg h2]
  unfold writeTerragenStream
  rw [hw, hd] at hm hp
  simp only [hm, hw, hd, Int.toNat_ofNat, hloop, hp, ht, bind, Except.bind, pure, Except.pure]
  have hpad : writeUint16 0 = List.replicate 2 0 := rfl
  by_cases hodd : D * W % 2 = 1
  · simp [encoded, chunkBytes, altwBytes, hg.size_eq, hw, hd, altwPadding, hodd, hpad]
  · have hz : D * W % 2 = 0 := by omega
    simp [encoded, chunkBytes, altwBytes, hg.size_eq, hw, hd, altwPadding, hz, hpad]
/-! ## Reading the chunks `writeTerragen` produces -/

theorem readChunks_step (env : Indeterminate) (fuel : Nat) (ret ret' : TerragenFile)
    (s rest : List Byte) (h : (readChunk env ret).run s = .ok ((false, ret'), rest)) :
    (readChunks env (fuel + 1) ret).run s = (readChunks env fuel ret').run rest := by
  simp only [readChunks, IStream.run_bind, h]
  rfl

theorem readChunks_stop (env : Indeterminate) (fuel : Nat) (ret ret' : TerragenFile)
    (s rest : List Byte) (h : (readChunk env ret).run s = .ok ((true, ret'), rest)) :
    (readChunks env (fuel + 1) ret).run s = .ok (ret', rest) := by
  simp only [readChunks, IStream.run_bind, h]
  rfl

theorem readChunk_marker (env : Indeterminate) (ret : TerragenFile) (marker rest : List Byte)
    (h : marker.length = 4) :
    (readChunk env ret).run (marker ++ rest) = (readChunkBody env ret marker).run rest := by
  unfold readChunk
  rw [IStream.run_bind, run_read_append _ _ 4 h]

theorem readChunk_SIZE (env : Indeterminate) (ret : TerragenFile) (v : Nat)
    (rest : List Byte) :
    (readChunk env ret).run (Markers.SIZE ++ (writeUint16 v ++ (writeUint16 0 ++ rest))) =
      .ok ((false, { ret with m_header_data := { ret.m_header_data with
          width := ((v % 65536 : Nat) : Int) + 1, depth := ((v % 65536 : Nat) : Int) + 1 } }),
        rest) := by
  rw [readChunk_marker env ret Markers.SIZE _ (by decide)]
  unfold readChunkBody
  rw [if_neg (by decide), if_neg (by decide), if_pos rfl]
  simp only [IStream.run_bind, readUint16_write, run_ignore_append _ _ 2 (writeUint16_length 0),
    IStream.run_pure]

theorem readChunk_XPTS (env : Indeterminate) (ret : TerragenFile) (v : Nat)
    (rest : List Byte) :
    (readChunk env ret).run (Markers.XPTS ++ (writeUint16 v ++ (writeUint16 0 ++ rest))) =
      .ok ((false, { ret with m_header_data := { ret.m_header_data with
          width := ((v % 65536 : Nat) : Int) } }), rest) := by
  rw [readChunk_marker env ret Markers.XPTS _ (by decide)]
  unfold readChunkBody
  rw [if_pos rfl]
  simp only [IStream.run_bind, readUint16_write, run_ignore_append _ _ 2 (writeUint16_length 0),
    IStream.run_pure]

theorem readChunk_YPTS (env : Indeterminate) (ret : TerragenFile) (v : Nat)
    (rest : List Byte) :
    (readChunk env ret).run (Markers.YPTS ++ (writeUint16 v ++ (writeUint16 0 ++ rest))) =
      .ok ((false, { ret with m_header_data := { ret.m_header_data with
          depth := ((v % 65536 : Nat) : Int) } }), rest) := by
  rw [readChunk_marker env ret Markers.YPTS _ (by decide)]
  unfold readChunkBody
  rw [if_neg (by decide), if_pos rfl]
  simp only [IStream.run_bind, readUint16_write, run_ignore_append _ _ 2 (writeUint16_length 0),
    IStream.run_pure]

theorem readChunk_CRVM (env : Indeterminate) (ret : TerragenFile) (v : Nat)
    (rest : List Byte) :
    (readChunk env ret).run (Markers.CRVM ++ (writeUint16 v ++ (writeUint16 0 ++ rest))) =
      .ok ((false, { ret with m_header_data := { ret.m_header_data with
          mode := ((v % 65536 : Nat) : Int) } }), rest) := by
  rw [readChunk_marker env ret Markers.CRVM _ (by decide)]
  unfold readChunkBody
  rw [if_neg (by decide), if_neg (by decide), if_neg (by decide), if_neg (by decide),
    if_neg (by decide), if_pos rfl]
  simp only [IStream.run_bind, readUint16_write, run_ignore_append _ _ 2 (writeUint16_length 0),
    IStream.run_pure]

theorem readChunk_CRAD (env : Indeterminate) (ret : TerragenFile) (f : F32)
    (rest : List Byte) :
    (readChunk env ret).run (Markers.CRAD ++ (writeFloat f ++ rest)) =
      .ok ((false, { ret with m_header_data := { ret.m_header_data with
          planet_radius := f } }), rest) := by
  rw [readChunk_marker env ret Markers.CRAD _ (by decide)]
  unfold readChunkBody
  rw [if_neg (by decide), if_neg (by decide), if_neg (by decide), if_neg (by decide),
    if_pos rfl]
  simp only [IStream.run_bind, readFloat_write, IStream.run_pure]

theorem F32.ne_self (f : F32) (h : f.pos = true) : F32.ne f f = false := by
  simp only [F32.pos, Bool.and_eq_true, Bool.not_eq_true'] at h
  simp [F32.ne, h.1.1]

theorem F32.leZero_of_pos (f : F32) (h : f.pos = true) : f.leZero = false := by
  simp only [F32.pos, Bool.and_eq_true, Bool.not_eq_true'] at h
  simp [F32.leZero, h.1.2, h.2]

theorem readChunk_SCAL (env : Indeterminate) (ret : TerragenFile) (f : F32)
    (rest : List Byte) (hf : f.pos = true) :
    (readChunk env ret).run
        (Markers.SCAL ++ (writeFloat f ++ (writeFloat f ++ (writeFloat f ++ rest)))) =
      .ok ((false, { ret with m_header_data := { ret.m_header_data with scale := f } }),
        rest) := by
  rw [readChunk_marker env ret Markers.SCAL _ (by decide)]
  unfold readChunkBody
  rw [if_neg (by decide), if_neg (by decide), if_neg (by decide), if_pos rfl]
  simp only [IStream.run_bind, readFloat_write, F32.ne_self f hf, F32.leZero_of_pos f hf,
    Bool.or_self, Bool.false_eq_true, if_false, IStream.run_pure]

/-- A `SCAL` chunk written with a value that is not positive is rejected. -/
theorem readChunk_SCAL_leZero (env : Indeterminate) (ret : TerragenFile) (f : F32)
    (rest : List Byte) (hn : F32.ne f f = false) (hf : f.leZero = true) :
    (readChunk env ret).run
        (Markers.SCAL ++ (writeFloat f ++ (writeFloat f ++ (writeFloat f ++ rest)))) =
      .error .scalNegative := by
  rw [readChunk_marker env ret Markers.SCAL _ (by decide)]
  unfold readChunkBody
  rw [if_neg (by decide), if_neg (by decide), if_neg (by decide), if_pos rfl]
  simp only [IStream.run_bind, readFloat_write, hn, hf, Bool.or_self, Bool.false_eq_true,
    if_false, if_true, IStream.run_raise]

theorem readChunk_EOF (env : Indeterminate) (ret : TerragenFile) (rest : List Byte) :
    (readChunk env ret).run (Markers.EOF_ ++ rest) = .ok ((true, ret), rest) := by
  rw [readChunk_marker env ret Markers.EOF_ _ (by decide)]
  unfold readChunkBody
  rw [if_neg (by decide), if_neg (by decide), if_neg (by decide), if_neg (by decide),
    if_neg (by decide), if_neg (by decide), if_neg (by decide), if_pos rfl]
  rfl

theorem readChunk_ALTW (env : Indeterminate) (ret : TerragenFile) (rest : List Byte) :
    (readChunk env ret).run (Markers.ALTW ++ rest) =
      match (readAltw env ret).run rest with
      | .ok (r, s) => .ok ((false, r), s)
      | .error e => .error e := by
  rw [readChunk_marker env ret Markers.ALTW _ (by decide)]
  unfold readChunkBody
  rw [if_neg (by decide), if_neg (by decide), if_neg (by decide), if_neg (by decide),
    if_neg (by decide), if_neg (by decide), if_pos rfl]
  rw [IStream.run_bind]
  cases (readAltw env ret).run rest with
  | error e => rfl
  | ok p => rfl

theorem runMin_congr (init : Flt32) (v v' : Nat → Flt32) (n : Nat) (h : ∀ k, k < n → v k = v' k) :
    runMin init v n = runMin init v' n := by
  induction n with
  | zero => rfl
  | succ m ih =>
    simp only [runMin, ih (fun k hk => h k (by omega)), h m (by omega)]

theorem runMax_congr (init : Flt32) (v v' : Nat → Flt32) (n : Nat) (h : ∀ k, k < n → v k = v' k) :
    runMax init v n = runMax init v' n := by
  induction n with
  | zero => rfl
  | succ m ih =>
    simp only [runMax, ih (fun k hk => h k (by omega)), h m (by omega)]

theorem altwBytes_length (g : TerragenFile) :
    (altwBytes g).length =
      4 + 2 * g.m_height_data.length + altwPadding g.m_height_data.length := by
  simp [altwBytes, writeInt16_length, sampleBytes_length]
  omega

/-- The `ALTW` payload of a written grid decodes to `reread`, whatever the
header held before apart from the fields the other chunks set. -/
theorem decodeAltw_altwBytes (g ret : TerragenFile) (W D : Nat) (t : List Byte)
    (hg : IsGrid g W D)
    (hw : ret.m_header_data.width = g.m_header_data.width)
    (hd : ret.m_header_data.depth = g.m_header_data.depth)
    (hmode : ret.m_header_data.mode = (toUint16 g.m_header_data.mode : Int))
    (hscale : ret.m_header_data.scale = g.m_header_data.scale)
    (hrad : ret.m_header_data.planet_radius = g.m_header_data.planet_radius) :
    decodeAltw ret (altwBytes g ++ t) = reread g := by
  have h0 : rawSample (altwBytes g ++ t) 0
      = floatToInt16 (g.m_header_data.height_scale * 65536) := by
    simp only [altwBytes, List.append_assoc]
    exact rawSample_write_zero _ _ (floatToInt16_range _).1 (floatToInt16_range _).2
  have h1 : rawSample (altwBytes g ++ t) 1 = floatToInt16 g.m_header_data.base_height := by
    simp only [altwBytes, List.append_assoc]
    rw [rawSample_write_succ]
    exact rawSample_write_zero _ _ (floatToInt16_range _).1 (floatToInt16_range _).2
  have hk : ∀ k, k < g.m_height_data.length →
      rawSample (altwBytes g ++ t) (k + 2) = quantized g k := by
    intro k hk
    simp only [altwBytes, List.append_assoc]
    rw [rawSample_write_succ, rawSample_write_succ]
    exact rawSample_sampleBytes _ _ _ (fun j _ => floatToInt16_range _) k hk
  have hn : g.m_header_data.depth.toNat * g.m_header_data.width.toNat
      = g.m_height_data.length := by
    rw [hg.width_eq, hg.depth_eq, hg.size_eq]
    simp
  unfold decodeAltw reread
  simp only [hn, hw, hd, hmode, hscale, hrad, h0, h1]
  congr 1
  · congr 1
    · exact runMin_congr _ _ _ _ (fun k hlt => by simp only [hk k hlt])
    · exact runMax_congr _ _ _ _ (fun k hlt => by simp only [hk k hlt])
  · apply List.map_congr_left
    intro k hmem
    simp only [hk k (List.mem_range.mp hmem)]

/-- The end of a written file, the `ALTW` chunk and the `EOF ` marker, once
the header holds the dimensions of the grid. -/
theorem readChunks_altw_eof (env : Indeterminate) (fuel : Nat) (g ret : TerragenFile)
    (W D : Nat) (hg : IsGrid g W D)
    (hw : ret.m_header_data.width = g.m_header_data.width)
    (hd : ret.m_header_data.depth = g.m_header_data.depth)
    (hmode : ret.m_header_data.mode = (toUint16 g.m_header_data.mode : Int))
    (hscale : ret.m_header_data.scale = g.m_header_data.scale)
    (hrad : ret.m_header_data.planet_radius = g.m_header_data.planet_radius) :
    (readChunks env (fuel + 2) ret).run (Markers.ALTW ++ (altwBytes g ++ Markers.EOF_)) =
      .ok (reread g, []) := by
  have hlen := altwBytes_length g
  rw [hg.size_eq] at hlen
  have haltw := readAltw_ok env ret W D (altwBytes g ++ Markers.EOF_)
    (by rw [hw, hg.width_eq]) (by rw [hd, hg.depth_eq]) hg.width_pos hg.depth_pos hg.size_le
    (by simp only [List.length_append, hlen]; omega)
  rw [← hlen, List.drop_left, decodeAltw_altwBytes g ret W D _ hg hw hd hmode hscale hrad]
    at haltw
  have hchunk : (readChunk env ret).run (Markers.ALTW ++ (altwBytes g ++ Markers.EOF_)) =
      .ok ((false, reread g), Markers.EOF_ ++ []) := by
    rw [readChunk_ALTW, haltw, List.append_nil]
  rw [readChunks_step env (fuel + 1) _ _ _ _ hchunk]
  exact readChunks_stop env fuel _ _ _ _ (readChunk_EOF env _ _)

/-- Reading back the file written for a grid with a positive `scale`: the
whole file is consumed and the grid returned is `reread`. -/
theorem readTerragenRest_encoded (env : Indeterminate) (g : TerragenFile) (W D : Nat)
    (hg : IsGrid g W D) (hW : W < 65536) (hD : D < 65536)
    (hpos : g.m_header_data.scale.pos = true) :
    readTerragenRest env (encoded g) = .ok (reread g, []) := by
  have hw := hg.width_eq
  have hd := hg.depth_eq
  have hWp := hg.width_pos
  have hDp := hg.depth_pos
  obtain ⟨n, hn⟩ : ∃ n, (encoded g).length = n + 8 := by
    refine ⟨(encoded g).length - 8, ?_⟩
    have : 16 ≤ (encoded g).length := by
      simp only [encoded, chunkBytes, List.length_append,
        show Markers.SIGNATURE.length = 16 by decide]
      omega
    omega
  have hwv : ((toUint16 g.m_header_data.width % 65536 : Nat) : Int) = g.m_header_data.width := by
    rw [hw]; unfold toUint16; omega
  have hdv : ((toUint16 g.m_header_data.depth % 65536 : Nat) : Int) = g.m_header_data.depth := by
    rw [hd]; unfold toUint16; omega
  have hmv : ((toUint16 g.m_header_data.mode % 65536 : Nat) : Int)
      = (toUint16 g.m_header_data.mode : Int) := by
    unfold toUint16; omega
  unfold readTerragenRest readTerragenStream
  rw [hn]
  unfold encoded chunkBytes
  simp only [List.append_assoc]
  rw [IStream.run_bind, run_read_append _ _ 16 (by decide)]
  simp only [ne_eq, not_true_eq_false, if_false]
  rw [readChunks_step _ _ _ _ _ _ (readChunk_SIZE env _ _ _)]
  rw [readChunks_step _ _ _ _ _ _ (readChunk_XPTS env _ _ _)]
  rw [readChunks_step _ _ _ _ _ _ (readChunk_YPTS env _ _ _)]
  rw [readChunks_step _ _ _ _ _ _ (readChunk_SCAL env _ _ _ hpos)]
  rw [readChunks_step _ _ _ _ _ _ (readChunk_CRAD env _ _ _)]
  rw [readChunks_step _ _ _ _ _ _ (readChunk_CRVM env _ _ _)]
  exact readChunks_altw_eof env n g _ W D hg hwv hdv hmv rfl rfl

/-! ## Element indices beyond `INT_MAX` -/

theorem ckInt_error (v : Int) (e : TerragenError) (h : ckInt v = .error e) :
    e = .undefinedBehaviour := by
  unfold ckInt at h
  split at h
  · cases h
  · cases h; rfl

theorem except_bind_error {α β : Type} (x : Except TerragenError α)
    (f : α → Except TerragenError β) (e : TerragenError)
    (h : (x >>= f) = .error e) :
    x = .error e ∨ ∃ a, x = .ok a ∧ f a = .error e := by
  cases x with
  | error e' =>
    left
    cases h
    rfl
  | ok a => right; exact ⟨a, rfl, h⟩

/-- A loop whose body raises nothing but `e` raises nothing but `e`. -/
theorem forLoop_error_only {σ : Type} (body : Nat → σ → Except TerragenError σ)
    (e : TerragenError) (honly : ∀ i s e', body i s = .error e' → e' = e) :
    ∀ count start s e', forLoop body count start s = .error e' → e' = e := by
  intro count
  induction count with
  | zero => intro start s e' h; cases h
  | succ k ih =>
    intro start s e' h
    rw [forLoop_succ] at h
    rcases except_bind_error _ _ _ h with h1 | ⟨a, -, h2⟩
    · exact honly _ _ _ h1
    · exact ih _ _ _ h2

/-- A loop fails when one of its iterations fails in every state and its body
raises nothing but `e`. -/
theorem forLoop_fails {σ : Type} (body : Nat → σ → Except TerragenError σ)
    (e : TerragenError) (honly : ∀ i s e', body i s = .error e' → e' = e) (k : Nat)
    (hfail : ∀ s, body k s = .error e) :
    ∀ count start s, start ≤ k → k < start + count → forLoop body count start s = .error e := by
  intro count
  induction count with
  | zero => intro start s h1 h2; omega
  | succ c ih =>
    intro start s h1 h2
    rw [forLoop_succ]
    cases hb : body start s with
    | error e' => rw [honly _ _ _ hb]; rfl
    | ok a =>
      by_cases hk : start = k
      · rw [hk, hfail s] at hb; cases hb
      · exact ih (start + 1) a (by omega) (by omega)

/-- Two nested loops fail when one inner iteration fails in every state. -/
theorem forLoop2_fails {σ : Type} (body : Nat → Nat → σ → Except TerragenError σ)
    (e : TerragenError) (honly : ∀ y x s e', body y x s = .error e' → e' = e)
    (w d y0 x0 : Nat) (hy : y0 < d) (hx : x0 < w) (hfail : ∀ s, body y0 x0 s = .error e)
    (s : σ) :
    forLoop (fun y st => forLoop (body y) w 0 st) d 0 s = .error e := by
  apply forLoop_fails (fun y st => forLoop (body y) w 0 st) e _ y0 _ d 0 s (Nat.zero_le _)
    (by omega)
  · intro y st e' h
    exact forLoop_error_only (body y) e (honly y) w 0 st e' h
  · intro st
    exact forLoop_fails (body y0) e (honly y0) x0 hfail w 0 st (Nat.zero_le _) (by omega)

theorem TerragenFile.index_error (f : TerragenFile) (x z : Int) (e : TerragenError)
    (h : f.index x z = .error e) : e = .undefinedBehaviour := by
  unfold TerragenFile.index at h
  rcases except_bind_error _ _ _ h with h1 | ⟨a, -, h2⟩
  · exact ckInt_error _ _ h1
  · rcases except_bind_error _ _ _ h2 with h3 | ⟨b, -, h4⟩
    · exact ckInt_error _ _ h3
    · split at h4
      · cases h4
      · cases h4; rfl

theorem TerragenFile.get_error (f : TerragenFile) (x z : Int) (e : TerragenError)
    (h : f.get x z = .error e) : e = .undefinedBehaviour := by
  unfold TerragenFile.get at h
  rcases except_bind_error _ _ _ h with h1 | ⟨a, -, h2⟩
  · exact TerragenFile.index_error f x z e h1
  · cases h2

/-- The index of an element beyond `INT_MAX` is not an `int`: the access is
undefined. -/
theorem TerragenFile.index_overflow (f : TerragenFile) (W x z : Nat)
    (hw : f.m_header_data.width = (W : Int)) (h : 2147483647 < z * W + x) :
    f.index (x : Int) (z : Int) = .error .undefinedBehaviour := by
  unfold TerragenFile.index
  rw [hw]
  by_cases h1 : ((z : Int) * (W : Int)) ≤ INT_MAX
  · have e1 : ckInt ((z : Int) * (W : Int)) = .ok ((z : Int) * (W : Int)) := by
      apply ckInt_ok
      · have : (0 : Int) ≤ (z : Int) * (W : Int) := by positivity
        simp only [INT_MIN]; omega
      · exact h1
    rw [e1, ok_bind]
    have e2 : ckInt ((z : Int) * (W : Int) + (x : Int)) = .error .undefinedBehaviour := by
      unfold ckInt
      rw [if_neg]
      intro hc
      have : ((z * W + x : Nat) : Int) = (z : Int) * (W : Int) + (x : Int) := by push_cast; ring
      have h2 := hc.2
      simp only [INT_MAX] at h2
      omega
    rw [e2]
    rfl
  · have e1 : ckInt ((z : Int) * (W : Int)) = .error .undefinedBehaviour := by
      unfold ckInt
      rw [if_neg]
      intro hc
      exact h1 hc.2
    rw [e1]
    rfl

theorem TerragenFile.get_overflow (f : TerragenFile) (W x z : Nat)
    (hw : f.m_header_data.width = (W : Int)) (h : 2147483647 < z * W + x) :
    f.get (x : Int) (z : Int) = .error .undefinedBehaviour := by
  unfold TerragenFile.get
  rw [TerragenFile.index_overflow f W x z hw h]
  rfl

theorem writeSample_error (g : TerragenFile) (y x : Nat) (out : List Byte) (e : TerragenError)
    (h : writeSample g y x out = .error e) : e = .undefinedBehaviour := by
  unfold writeSample at h
  rcases except_bind_error _ _ _ h with h1 | ⟨a, -, h2⟩
  · exact TerragenFile.get_error g _ _ e h1
  · cases h2

/-- The writer on a grid that has an element beyond `INT_MAX`: the loops over
the samples reach that element, and its index is not an `int`. -/
theorem writeTerragen_index_overflow (g : TerragenFile) (W D x0 y0 : Nat)
    (hw : g.m_header_data.width = (W : Int)) (hd : g.m_header_data.depth = (D : Int))
    (hWp : 0 < W) (hDp : 0 < D) (hW : W < 65536) (hD : D < 65536)
    (hx0 : x0 < W) (hy0 : y0 < D) (hidx : 2147483647 < y0 * W + x0) :
    writeTerragen g = .error .undefinedBehaviour := by
  have h1 : ¬ (g.m_header_data.width ≥ 65536 ∨ g.m_header_data.depth ≥ 65536) := by
    rw [hw, hd]; omega
  have h2 : ¬ (g.m_header_data.width = 0 ∨ g.m_header_data.depth = 0) := by
    rw [hw, hd]; omega
  have hm : ckInt (min g.m_header_data.width g.m_header_data.depth - 1)
      = .ok (min g.m_header_data.width g.m_header_data.depth - 1) := by
    apply ckInt_ok <;> rw [hw, hd] <;> simp only [INT_MIN, INT_MAX] <;> omega
  have hloop : ∀ out, forLoop (fun y o => forLoop (writeSample g y) W 0 o) D 0 out
      = .error .undefinedBehaviour := fun out =>
    forLoop2_fails (writeSample g) .undefinedBehaviour (writeSample_error g) W D y0 x0 hy0 hx0
      (fun s => by
        unfold writeSample
        rw [TerragenFile.get_overflow g W x0 y0 hw hidx]
        rfl) out
  unfold writeTerragen
  rw [if_neg h1, if_neg h2]
  unfold writeTerragenStream
  rw [hw, hd] at hm
  simp only [hm, hw, hd, Int.toNat_ofNat, hloop, bind, Except.bind]
/-! ## The signature check -/

theorem readTerragenRest_short (env : Indeterminate) (input : List Byte)
    (h : input.length < 16) : readTerragenRest env input = .error .ioFailure := by
  simp [readTerragenRest, readTerragenStream, IStream.run_read, h]

theorem readTerragenRest_badSignature (env : Indeterminate) (input : List Byte)
    (hlen : 16 ≤ input.length) (h : input.take 16 ≠ Markers.SIGNATURE) :
    readTerragenRest env input = .error .signatureMismatch := by
  have : ¬ input.length < 16 := by omega
  simp [readTerragenRest, readTerragenStream, IStream.run_read, this, h]

/-- Claim C5: on a stream whose first 16 bytes are not the signature
`readTerragen` raises and returns no grid, whatever follows: the stream
failure when fewer than 16 bytes exist, "signature did not match" otherwise. -/
theorem readTerragen_rejects_bad_signature (env : Indeterminate) (input : List Byte)
    (h : input.take 16 ≠ Markers.SIGNATURE) :
    readTerragen env input =
      .error (if input.length < 16 then .ioFailure else .signatureMismatch) := by
  by_cases hlen : input.length < 16
  · simp [readTerragen, readTerragenRest_short env input hlen, hlen]
  · simp [readTerragen, readTerragenRest_badSignature env input (by omega) h, hlen]

theorem readTerragen_rejects_bad_signature_witness :
    (Markers.ALTW ++ Markers.SIGNATURE).take 16 ≠ Markers.SIGNATURE ∧
    readTerragen zeroEnv (Markers.ALTW ++ Markers.SIGNATURE) =
      .error (if (Markers.ALTW ++ Markers.SIGNATURE).length < 16 then .ioFailure
        else .signatureMismatch) :=
  ⟨by decide, readTerragen_rejects_bad_signature zeroEnv _ (by decide)⟩

/-! ## The dimension checks of `writeTerragen` -/

/-- Claim C7: `writeTerragen` raises before the output stream is opened, so
no byte is written, when a dimension is 65536 or more ("too large") and when
a dimension is zero ("empty region"). -/
theorem writeTerragen_rejects_bad_dimensions (g : TerragenFile)
    (h : 65536 ≤ g.m_header_data.width ∨ 65536 ≤ g.m_header_data.depth ∨
      g.m_header_data.width = 0 ∨ g.m_header_data.depth = 0) :
    writeTerragen g =
      .error (if 65536 ≤ g.m_header_data.width ∨ 65536 ≤ g.m_header_data.depth then .tooLarge
        else .emptyRegion) := by
  unfold writeTerragen
  by_cases h1 : 65536 ≤ g.m_header_data.width ∨ 65536 ≤ g.m_header_data.depth
  · simp [h1]
  · have h2 : g.m_header_data.width = 0 ∨ g.m_header_data.depth = 0 := by tauto
    simp [h1, h2]

theorem writeTerragen_rejects_bad_dimensions_witness :
    (65536 ≤ tooWideGrid.m_header_data.width ∨ 65536 ≤ tooWideGrid.m_header_data.depth ∨
      tooWideGrid.m_header_data.width = 0 ∨ tooWideGrid.m_header_data.depth = 0) ∧
    writeTerragen tooWideGrid =
      .error (if 65536 ≤ tooWideGrid.m_header_data.width ∨
          65536 ≤ tooWideGrid.m_header_data.depth then .tooLarge else .emptyRegion) :=
  ⟨by decide, writeTerragen_rejects_bad_dimensions tooWideGrid (by decide)⟩

/-- Claim C8, the code at the failing input: a grid with `width = -1` passes
both dimension checks and `writeTerragen` writes 86 bytes for it. -/
theorem writeTerragen_accepts_negative_width :
    writeTerragen negativeWidthGrid = .ok negativeWidthOutput := by
  decide!

/-- Claim C6, the code at the failing input: with no dimension chunk before
`ALTW` the check reads `width` and `depth` as the constructor left them; when
both happen to hold 1 the stream is decoded. -/
theorem readTerragen_altw_without_dimensions :
    readTerragen oneByOneEnv altwOnlyStream = .ok altwOnlyGrid := by
  decide!

/-! ## Reading a truncated stream -/

theorem sequential_pure {α : Type} (a : α) : Sequential (pure a : IStream α) := by
  intro s b rest h
  simp only [IStream.run_pure, Except.ok.injEq, Prod.mk.injEq] at h
  obtain ⟨rfl, rfl⟩ := h
  exact ⟨[], by simp, by simp, by simp⟩

theorem sequential_raise {α : Type} (e : TerragenError) :
    Sequential (IStream.raise e : IStream α) := by
  intro s b rest h
  simp at h

theorem sequential_lift {α : Type} (r : Except TerragenError α) :
    Sequential (IStream.lift r) := by
  intro s b rest h
  cases r with
  | error e => simp at h
  | ok a =>
    simp only [IStream.run_lift_ok, Except.ok.injEq, Prod.mk.injEq] at h
    obtain ⟨rfl, rfl⟩ := h
    exact ⟨[], by simp, by simp, by simp⟩

theorem sequential_read (n : Nat) : Sequential (IStream.read n) := by
  intro s b rest h
  rw [IStream.run_read] at h
  split at h
  · simp at h
  · rename_i hlen
    simp only [Except.ok.injEq, Prod.mk.injEq] at h
    obtain ⟨rfl, rfl⟩ := h
    refine ⟨s.take n, (List.take_append_drop n s).symm, ?_, ?_⟩
    · intro t
      have hl : (s.take n).length = n := by simp; omega
      rw [IStream.run_read]
      simp [hl, List.take_append_eq_append_take, List.drop_append_eq_append_drop]
    · intro k hk
      have hshort : (List.take k (List.take n s)).length < n := by
        simp at hk ⊢; omega
      rw [IStream.run_read, if_pos hshort]

theorem sequential_ignore (n : Nat) : Sequential (IStream.ignore n) := by
  intro s b rest h
  rw [IStream.run_ignore] at h
  split at h
  · simp at h
  · rename_i hlen
    simp only [Except.ok.injEq, Prod.mk.injEq] at h
    obtain ⟨-, rfl⟩ := h
    refine ⟨s.take n, (List.take_append_drop n s).symm, ?_, ?_⟩
    · intro t
      have hl : (s.take n).length = n := by simp; omega
      rw [IStream.run_ignore]
      simp [hl, List.drop_append_eq_append_drop]
    · intro k hk
      have hshort : (List.take k (List.take n s)).length < n := by
        simp at hk ⊢; omega
      rw [IStream.run_ignore, if_pos hshort]

theorem run_bind_ok {α β : Type} (m : IStream α) (f : α → IStream β) (s : List Byte)
    (b : β) (rest : List Byte) (h : (m >>= f).run s = .ok (b, rest)) :
    ∃ a s', m.run s = .ok (a, s') ∧ (f a).run s' = .ok (b, rest) := by
  rw [IStream.run_bind] at h
  cases hm : m.run s with
  | error e => rw [hm] at h; simp at h
  | ok p =>
    obtain ⟨a, s'⟩ := p
    rw [hm] at h
    exact ⟨a, s', rfl, h⟩

theorem sequential_bind {α β : Type} (m : IStream α) (f : α → IStream β)
    (hm : Sequential m) (hf : ∀ a, Sequential (f a)) : Sequential (m >>= f) := by
  intro s b rest h
  obtain ⟨a, s', h1, h2⟩ := run_bind_ok m f s b rest h
  obtain ⟨c1, rfl, hc1, hp1⟩ := hm s a s' h1
  obtain ⟨c2, rfl, hc2, hp2⟩ := hf a s' b rest h2
  refine ⟨c1 ++ c2, by simp, ?_, ?_⟩
  · intro t
    rw [IStream.run_bind, List.append_assoc, hc1]
    exact hc2 t
  · intro k hk
    rw [IStream.run_bind]
    by_cases hk1 : k < c1.length
    · have : (c1 ++ c2).take k = c1.take k := by
        rw [List.take_append_eq_append_take]
        simp [show k - c1.length = 0 by omega]
      rw [this, hp1 k hk1]
    · have : (c1 ++ c2).take k = c1 ++ c2.take (k - c1.length) := by
        rw [List.take_append_eq_append_take]
        simp [List.take_of_length_le (show c1.length ≤ k by omega)]
      rw [this, hc1]
      simp only
      apply hp2
      simp at hk
      omega

theorem sequential_forLoop {σ : Type} (body : Nat → σ → IStream σ)
    (hb : ∀ i st, Sequential (body i st)) :
    ∀ count start st, Sequential (forLoop body count start st) := by
  intro count
  induction count with
  | zero => intro start st; exact sequential_pure st
  | succ k ih =>
    intro start st
    exact sequential_bind _ _ (hb start st) (fun a => ih (start + 1) a)

theorem sequential_readUint16 : Sequential readUint16 :=
  sequential_bind _ _ (sequential_read 2) (fun _ => sequential_pure _)

theorem sequential_readInt16 : Sequential readInt16 :=
  sequential_bind _ _ sequential_readUint16 (fun _ => sequential_pure _)

theorem sequential_readFloat : Sequential readFloat :=
  sequential_bind _ _ (sequential_read 4) (fun _ => sequential_pure _)

theorem sequential_readSample (y x : Nat) (st : AltwState) : Sequential (readSample y x st) :=
  sequential_bind _ _ sequential_readInt16 (fun _ =>
    sequential_bind _ _ (sequential_lift _) (fun _ => sequential_pure _))

theorem sequential_readAltw (env : Indeterminate) (ret : TerragenFile) :
    Sequential (readAltw env ret) := by
  unfold readAltw
  split
  · exact sequential_raise _
  · refine sequential_bind _ _ sequential_readInt16 (fun hs => ?_)
    refine sequential_bind _ _ sequential_readInt16 (fun bh => ?_)
    refine sequential_bind _ _ (sequential_forLoop _ (fun y st =>
      sequential_forLoop _ (fun x st => sequential_readSample y x st) _ _ _) _ _ _) (fun st => ?_)
    refine sequential_bind _ _ (sequential_lift _) (fun p => ?_)
    split
    · exact sequential_bind _ _ (sequential_ignore 2) (fun _ => sequential_pure _)
    · exact sequential_pure _

theorem sequential_readChunkBody (env : Indeterminate) (ret : TerragenFile)
    (marker : List Byte) : Sequential (readChunkBody env ret marker) := by
  unfold readChunkBody
  have hu16 : ∀ f : Nat → Bool × TerragenFile,
      Sequential (readUint16 >>= fun v => IStream.ignore 2 >>= fun _ => pure (f v)) :=
    fun f => sequential_bind _ _ sequential_readUint16 (fun _ =>
      sequential_bind _ _ (sequential_ignore 2) (fun _ => sequential_pure _))
  split
  · exact hu16 _
  split
  · exact hu16 _
  split
  · exact hu16 _
  split
  · refine sequential_bind _ _ sequential_readFloat (fun stepX => ?_)
    refine sequential_bind _ _ sequential_readFloat (fun stepY => ?_)
    refine sequential_bind _ _ sequential_readFloat (fun stepZ => ?_)
    split
    · exact sequential_raise _
    split
    · exact sequential_raise _
    · exact sequential_pure _
  split
  · exact sequential_bind _ _ sequential_readFloat (fun _ => sequential_pure _)
  split
  · exact hu16 _
  split
  · exact sequential_bind _ _ (sequential_readAltw env ret) (fun _ => sequential_pure _)
  split
  · exact sequential_pure _
  · exact sequential_raise _

/-- An iteration of the chunk loop that completes has read at least the four
bytes of its marker. -/
theorem readChunk_consumes (env : Indeterminate) (ret : TerragenFile) (s : List Byte)
    (r : Bool × TerragenFile) (rest : List Byte)
    (h : (readChunk env ret).run s = .ok (r, rest)) : rest.length + 4 ≤ s.length := by
  unfold readChunk at h
  obtain ⟨marker, s', h1, h2⟩ := run_bind_ok _ _ s r rest h
  obtain ⟨c, hc, -, -⟩ := sequential_readChunkBody env ret marker s' r rest h2
  rw [IStream.run_read] at h1
  split at h1
  · simp at h1
  · rename_i hlen
    simp only [Except.ok.injEq, Prod.mk.injEq] at h1
    obtain ⟨-, rfl⟩ := h1
    have := congrArg List.length hc
    simp at this
    omega

/-- The fuel of the chunk loop does not matter once it covers the stream. -/
theorem readChunks_fuel (env : Indeterminate) :
    ∀ fuel fuel' ret s, s.length ≤ fuel → fuel ≤ fuel' →
      (readChunks env fuel ret).run s = (readChunks env fuel' ret).run s := by
  intro fuel
  induction fuel with
  | zero =>
    intro fuel' ret s hs _
    have hnil : s = [] := List.length_eq_zero.mp (by omega)
    subst hnil
    cases fuel' with
    | zero => rfl
    | succ n =>
      simp [readChunks, readChunk, IStream.run_read]
  | succ n ih =>
    intro fuel' ret s hs hle
    obtain ⟨m, rfl⟩ : ∃ m, fuel' = m + 1 := ⟨fuel' - 1, by omega⟩
    simp only [readChunks, IStream.run_bind]
    cases hr : (readChunk env ret).run s with
    | error e => rfl
    | ok p =>
      obtain ⟨r, rest⟩ := p
      have hcons := readChunk_consumes env ret s r rest hr
      simp only
      split
      · rfl
      · exact ih m r.2 rest (by omega) (by omega)

theorem sequential_readChunk (env : Indeterminate) (ret : TerragenFile) :
    Sequential (readChunk env ret) :=
  sequential_bind _ _ (sequential_read 4) (fun marker => sequential_readChunkBody env ret marker)


theorem sequential_readChunks (env : Indeterminate) :
    ∀ fuel ret, Sequential (readChunks env fuel ret) := by
  intro fuel
  induction fuel with
  | zero => intro ret; exact sequential_raise _
  | succ n ih =>
    intro ret
    unfold readChunks
    refine sequential_bind _ _ (sequential_readChunk env ret) (fun r => ?_)
    split
    · exact sequential_pure _
    · exact ih _

theorem sequential_readTerragenStream (env : Indeterminate) (fuel : Nat) :
    Sequential (readTerragenStream env fuel) := by
  unfold readTerragenStream
  refine sequential_bind _ _ (sequential_read 16) (fun signature => ?_)
  split
  · exact sequential_raise _
  · exact sequential_readChunks env fuel _

theorem readTerragenStream_fuel (env : Indeterminate) (fuel fuel' : Nat) (s : List Byte)
    (hs : s.length ≤ fuel) (hle : fuel ≤ fuel') :
    (readTerragenStream env fuel).run s = (readTerragenStream env fuel').run s := by
  simp only [readTerragenStream, IStream.run_bind, IStream.run_read]
  by_cases hlen : s.length < 16
  · simp [hlen]
  · simp only [hlen, if_false]
    by_cases hsig : List.take 16 s ≠ Markers.SIGNATURE
    · simp [hsig]
    · simp only [hsig, if_false]
      exact readChunks_fuel env fuel fuel' _ _ (by simp; omega) hle

/-- When `readTerragen` decodes a stream and leaves `rest` unread after the
`EOF ` marker, and the fields the constructor leaves unset hold the same
values in the second call, it raises the stream failure on every proper cut
of the part it has read. -/
theorem readTerragen_cut_same_memory (env : Indeterminate) (input : List Byte)
    (g : TerragenFile) (rest : List Byte)
    (h : readTerragenRest env input = .ok (g, rest))
    (k : Nat) (hk : k < input.length - rest.length) :
    readTerragen env (input.take k) = .error .ioFailure := by
  unfold readTerragenRest at h
  obtain ⟨c, hc, -, hcut⟩ := sequential_readTerragenStream env input.length input g rest h
  have hlen : input.length = c.length + rest.length := by
    have := congrArg List.length hc
    simpa using this
  have htake : input.take k = c.take k := by
    rw [hc, List.take_append_eq_append_take]
    simp [show k - c.length = 0 by omega]
  have hrun : readTerragenRest env (input.take k) = .error .ioFailure := by
    unfold readTerragenRest
    rw [readTerragenStream_fuel env (input.take k).length input.length _ (le_refl _)
      (by simp), htake]
    exact hcut k (by omega)
  simp [readTerragen, hrun]


theorem smallStream_decodes :
    readTerragenRest zeroEnv smallStream = .ok (altwOnlyGrid, []) := by
  decide!

/-! ## Round trip through `writeTerragen` and `readTerragen` -/

theorem readTerragen_encoded (env : Indeterminate) (g : TerragenFile) (W D : Nat)
    (hg : IsGrid g W D) (hW : W < 65536) (hD : D < 65536)
    (hpos : g.m_header_data.scale.pos = true) :
    readTerragen env (encoded g) = .ok (reread g) := by
  simp only [readTerragen, readTerragenRest_encoded env g W D hg hW hD hpos]

theorem stripGrid_isGrid : IsGrid stripGrid 3 1 :=
  ⟨rfl, rfl, by decide, by decide, rfl, by decide⟩

/-! ### Quantization error -/

/-- Every element index of a grid is the index of a column and a row. -/
theorem index_split (W D k : Nat) (hW : 0 < W) (hk : k < D * W) :
    k % W < W ∧ k / W < D ∧ k / W * W + k % W = k := by
  refine ⟨Nat.mod_lt _ hW, ?_, ?_⟩
  · rw [Nat.div_lt_iff_lt_mul hW]
    exact hk
  · have := Nat.div_add_mod k W
    rw [Nat.mul_comm] at this
    exact this

/-- Claim C9, as amended: for a grid with `0 < width < 65536` and
`0 < depth < 65536`, a block of `width * depth` elements with
`width * depth <= INT_MAX`, and a positive `scale`, `writeTerragen` writes
the chunks, the samples, then two zero bytes when `width * depth` is odd and
none when it is even, then the `EOF ` marker; `readTerragen` decodes that
file and leaves no byte unread. -/
theorem writeTerragen_padding (env : Indeterminate) (g : TerragenFile) (W D : Nat)
    (hg : IsGrid g W D) (hW : W < 65536) (hD : D < 65536)
    (hpos : g.m_header_data.scale.pos = true) :
    writeTerragen g =
      .ok (chunkBytes g ++ (Markers.ALTW ++
        ((writeInt16 (floatToInt16 (g.m_header_data.height_scale * 65536)) ++
          (writeInt16 (floatToInt16 g.m_header_data.base_height) ++
          (sampleBytes (quantized g) (D * W) ++
          List.replicate (if D * W % 2 = 1 then 2 else 0) 0))) ++ Markers.EOF_))) ∧
    readTerragenRest env (encoded g) = .ok (reread g, []) := by
  refine ⟨?_, readTerragenRest_encoded env g W D hg hW hD hpos⟩
  rw [writeTerragen_ok g W D hg hW hD]
  simp only [encoded, altwBytes, altwPadding, hg.size_eq]

theorem writeTerragen_padding_witness :
    IsGrid stripGrid 3 1 ∧ 3 < 65536 ∧ 1 < 65536 ∧
    stripGrid.m_header_data.scale.pos = true ∧
    (writeTerragen stripGrid =
      .ok (chunkBytes stripGrid ++ (Markers.ALTW ++
        ((writeInt16 (floatToInt16 (stripGrid.m_header_data.height_scale * 65536)) ++
          (writeInt16 (floatToInt16 stripGrid.m_header_data.base_height) ++
          (sampleBytes (quantized stripGrid) (1 * 3) ++
          List.replicate (if 1 * 3 % 2 = 1 then 2 else 0) 0))) ++ Markers.EOF_))) ∧
    readTerragenRest zeroEnv (encoded stripGrid) = .ok (reread stripGrid, [])) :=
  ⟨stripGrid_isGrid, by decide, by decide, by decide,
    writeTerragen_padding zeroEnv stripGrid 3 1 stripGrid_isGrid (by decide) (by decide)
      (by decide)⟩

/-- Claim C9 as stated fails: the grid of 65535 columns and 32769 rows has
`0 < width < 65536`, `0 < depth < 65536`, a block of `width * depth`
elements and a non-zero `height_scale`, and `writeTerragen` does not finish
the file for it: the index `y * width + x` of the sample `(32768, 32768)` is
`2^31`, not an `int`. -/
theorem writeTerragen_huge_grid_undefined :
    hugeGrid.m_header_data.width = 65535 ∧ hugeGrid.m_header_data.depth = 32769 ∧
    hugeGrid.m_height_data.length = 65535 * 32769 ∧
    hugeGrid.m_header_data.height_scale ≠ 0 ∧
    hugeGrid.m_header_data.scale.pos = true ∧
    writeTerragen hugeGrid = .error .undefinedBehaviour :=
  ⟨rfl, rfl, (List.length_replicate 2147516415 (0 : Flt32)).trans (by norm_num), by decide!,
    by decide,
    writeTerragen_index_overflow hugeGrid 65535 32769 32768 32768 rfl rfl (by norm_num)
      (by norm_num) (by norm_num) (by norm_num) (by norm_num) (by norm_num) (by norm_num)⟩

/-- Claim C13, as amended: for a `W` by `D` grid with `W, D < 65536`, a block
of `W * D` elements with `W * D <= INT_MAX`, `0 <= mode < 65536` and a
positive `scale`, `writeTerragen` writes a file that starts with the
signature and a `SIZE` chunk holding `min(width, depth) - 1`, and
`readTerragen` returns from that file a grid with the same width, the same
depth and the same mode, also when `width != depth`. -/
theorem round_trip_integer_fields (env : Indeterminate) (g : TerragenFile) (W D : Nat)
    (hg : IsGrid g W D) (hW : W < 65536) (hD : D < 65536)
    (hm0 : 0 ≤ g.m_header_data.mode) (hm1 : g.m_header_data.mode < 65536)
    (hpos : g.m_header_data.scale.pos = true) :
    ∃ out g', writeTerragen g = .ok out ∧
      (∃ tail, out = Markers.SIGNATURE ++ (Markers.SIZE ++
        (writeUint16 (min W D - 1) ++ ([0, 0] ++ tail)))) ∧
      readTerragen env out = .ok g' ∧
      g'.m_header_data.width = g.m_header_data.width ∧
      g'.m_header_data.depth = g.m_header_data.depth ∧
      g'.m_header_data.mode = g.m_header_data.mode := by
  refine ⟨encoded g, reread g, writeTerragen_ok g W D hg hW hD, ?_,
    readTerragen_encoded env g W D hg hW hD hpos, rfl, rfl, ?_⟩
  · have hWp := hg.width_pos
    have hDp := hg.depth_pos
    have e : toUint16 (min g.m_header_data.width g.m_header_data.depth - 1) = min W D - 1 := by
      rw [hg.width_eq, hg.depth_eq]
      unfold toUint16
      omega
    have hc : ∃ tail, chunkBytes g = Markers.SIGNATURE ++ (Markers.SIZE ++
        (writeUint16 (min W D - 1) ++ ([0, 0] ++ tail))) := by
      unfold chunkBytes
      rw [e]
      exact ⟨_, rfl⟩
    obtain ⟨tail, ht⟩ := hc
    refine ⟨tail ++ (Markers.ALTW ++ (altwBytes g ++ Markers.EOF_)), ?_⟩
    unfold encoded
    rw [ht]
    simp only [List.append_assoc]
  · show ((toUint16 g.m_header_data.mode : Nat) : Int) = g.m_header_data.mode
    unfold toUint16
    omega

theorem round_trip_integer_fields_witness :
    IsGrid stripGrid 3 1 ∧ 3 < 65536 ∧ 1 < 65536 ∧
    0 ≤ stripGrid.m_header_data.mode ∧ stripGrid.m_header_data.mode < 65536 ∧
    stripGrid.m_header_data.scale.pos = true ∧
    ∃ out g', writeTerragen stripGrid = .ok out ∧
      (∃ tail, out = Markers.SIGNATURE ++ (Markers.SIZE ++
        (writeUint16 (min 3 1 - 1) ++ ([0, 0] ++ tail)))) ∧
      readTerragen zeroEnv out = .ok g' ∧
      g'.m_header_data.width = stripGrid.m_header_data.width ∧
      g'.m_header_data.depth = stripGrid.m_header_data.depth ∧
      g'.m_header_data.mode = stripGrid.m_header_data.mode :=
  ⟨stripGrid_isGrid, by decide, by decide, by decide, by decide, by decide,
    round_trip_integer_fields zeroEnv stripGrid 3 1 stripGrid_isGrid
      (by decide) (by decide) (by decide) (by decide) (by decide)⟩

/-- Claim C13 as stated fails: the grid of 32769 columns and 65535 rows has
`0 < width < 65536`, `0 < depth < 65536`, mode 0, scale 30 and a non-zero
`height_scale`, and `writeTerragen` writes no complete file for it to read
back: the index of the sample `(2, 65534)` is `2^31`, not an `int`. -/
theorem round_trip_integer_fields_overflow :
    tallGrid.m_header_data.width = 32769 ∧ tallGrid.m_header_data.depth = 65535 ∧
    tallGrid.m_height_data.length = 32769 * 65535 ∧
    tallGrid.m_header_data.mode = 0 ∧
    tallGrid.m_header_data.scale.pos = true ∧
    tallGrid.m_header_data.height_scale ≠ 0 ∧
    (65534 : Int) * tallGrid.m_header_data.width + 2 = 2147483648 ∧
    writeTerragen tallGrid = .error .undefinedBehaviour :=
  ⟨rfl, rfl, (List.length_replicate 2147516415 (0 : Flt32)).trans (by norm_num), rfl,
    by decide, by decide!, by decide,
    writeTerragen_index_overflow tallGrid 32769 65535 2 65534 rfl rfl (by norm_num)
      (by norm_num) (by norm_num) (by norm_num) (by norm_num) (by norm_num) (by norm_num)⟩

/-! ## Quantization of values that are not rounded -/

theorem rawSample_range (s : List Byte) (k : Nat) :
    -32768 ≤ rawSample s k ∧ rawSample s k ≤ 32767 := by
  unfold rawSample uint16ToInt16
  split <;> omega

theorem Flt32.lit_65536 : (65536 : Flt32) = Flt32.finite 65536 := by
  have := Flt32.ofRat_intCast 65536 (by norm_num)
  rw [Flt32.ofNat_eq]
  simpa using this

/-- A 16-bit word as a float. -/
theorem Flt32.int16_cast (z : Int) (h1 : -32768 ≤ z) (h2 : z ≤ 32767) :
    ((z : Int) : Flt32) = Flt32.finite (z : ℚ) :=
  Flt32.intCast_small z (by rw [abs_lt]; constructor <;> omega)

/-- A 16-bit word over 65536, the scale of an `ALTW` chunk. -/
theorem Flt32.int16_div (z : Int) (h1 : -32768 ≤ z) (h2 : z ≤ 32767) :
    ((z : Int) : Flt32) / 65536 = Flt32.finite ((z : ℚ) / 65536) := by
  rw [Flt32.int16_cast z h1 h2, Flt32.lit_65536, Flt32.finite_div _ _ (by norm_num)]
  exact Flt32.ofRat_div_65536 z (by rw [abs_lt]; constructor <;> omega)

theorem flat_inj (W X X' Y Y' : Nat) (hX : X < W) (hX' : X' < W)
    (h : Y * W + X = Y' * W + X') : Y = Y' ∧ X = X' := by
  have hY : Y = Y' := by
    rcases Nat.lt_trichotomy Y Y' with hlt | heq | hgt
    · have h1 : (Y + 1) * W ≤ Y' * W := Nat.mul_le_mul_right W hlt
      have h2 : (Y + 1) * W = Y * W + W := by ring
      omega
    · exact heq
    · have h1 : (Y' + 1) * W ≤ Y * W := Nat.mul_le_mul_right W hgt
      have h2 : (Y' + 1) * W = Y' * W + W := by ring
      omega
  subst hY
  exact ⟨rfl, by omega⟩

/-- The element index of column `X` of the new row `y * N + j`. -/
theorem cell_index_lt (N W d y j X : Nat) (hy : y < d) (hj : j < N) (hX : X < W) :
    (y * N + j) * W + X < d * N * W :=
  flat_index_lt W (d * N) (y * N + j) X (flat_index_lt N d y j hy hj) hX

theorem cell_index_inj (N W y j X y' j' X' : Nat) (hj : j < N) (hj' : j' < N)
    (hX : X < W) (hX' : X' < W)
    (h : (y * N + j) * W + X = (y' * N + j') * W + X') : y = y' ∧ j = j' ∧ X = X' := by
  obtain ⟨h1, h2⟩ := flat_inj W X X' _ _ hX hX' h
  obtain ⟨h3, h4⟩ := flat_inj N j j' _ _ hj hj' h1
  exact ⟨h3, h4, h2⟩

theorem scaleStore_ok (N W y x i : Nat) (v : Flt32) (hd : List Flt32) (hW : 0 < W)
    (hidx : y * N * W + x * N + i < hd.length) (hmax : (hd.length : Int) ≤ INT_MAX) :
    scaleStore (N : Int) (W : Int) y x i v hd = .ok (hd.set (y * N * W + x * N + i) v) := by
  have e1 : (y : Int) * (N : Int) = ((y * N : Nat) : Int) := by push_cast; ring
  have e2 : ((y * N : Nat) : Int) * (W : Int) = ((y * N * W : Nat) : Int) := by push_cast; ring
  have e3 : (x : Int) * (N : Int) = ((x * N : Nat) : Int) := by push_cast; ring
  have e4 : ((y * N * W : Nat) : Int) + ((x * N : Nat) : Int)
      = ((y * N * W + x * N : Nat) : Int) := by push_cast; ring
  have e5 : ((y * N * W + x * N : Nat) : Int) + (i : Int)
      = ((y * N * W + x * N + i : Nat) : Int) := by push_cast; ring
  have b1 : y * N ≤ y * N * W + x * N + i := by
    have := Nat.le_mul_of_pos_right (y * N) hW
    omega
  unfold scaleStore
  rw [e1, ckInt_nat _ (by omega)]
  simp only [bind, Except.bind]
  rw [e2, ckInt_nat _ (by omega)]
  simp only
  rw [e3, ckInt_nat _ (by omega)]
  simp only
  rw [e4, ckInt_nat _ (by omega)]
  simp only
  rw [e5, ckInt_nat _ (by omega)]
  simp only [Int.toNat_ofNat]
  rw [if_pos ⟨by omega, by omega⟩]
  rfl

theorem scaleRow_at (file : TerragenFile) (w d N x i y : Nat) (hg : IsGrid file w d)
    (hi : i < N) :
    scaleRow file N (x * N + i) y =
      file.m_header_data.base_height +
        ((file.m_height_data.getD (y * w + x) 0 - file.m_header_data.base_height) * (N : Flt32) +
          (i : Flt32) *
            (((file.m_height_data.getD (y * w + min (x + 1) (w - 1)) 0
                - file.m_header_data.base_height) * (N : Flt32)
              - (file.m_height_data.getD (y * w + x) 0 - file.m_header_data.base_height)
                * (N : Flt32)) / (N : Flt32))) := by
  have hN : 0 < N := by omega
  have e1 : (x * N + i) / N = x := by
    rw [Nat.add_comm, Nat.add_mul_div_right _ _ hN, Nat.div_eq_of_lt hi, Nat.zero_add]
  have e2 : (x * N + i) % N = i := by
    rw [Nat.add_comm, Nat.add_mul_mod_self_right, Nat.mod_eq_of_lt hi]
  unfold scaleRow TerragenFile.height
  simp only [e1, e2, hg.width_eq, Int.toNat_ofNat]

/-- One iteration of the loop over `x` of the first pass. -/
theorem scaleX_ok (env : Indeterminate) (file : TerragenFile) (w d N : Nat)
    (hg : IsGrid file w d) (hN : 0 < N)
    (hmax : ((d * N * (w * N) : Nat) : Int) ≤ INT_MAX) (y x : Nat) (hy : y < d) (hx : x < w)
    (hd : List Flt32) (hP : Pass1Inv env file w d N (y * (w * N) + x * N) hd) :
    ∃ hd', scaleX file (N : Int) ((w * N : Nat) : Int) file.m_header_data.base_height y x hd
        = .ok hd' ∧ Pass1Inv env file w d N (y * (w * N) + x * N + N) hd' := by
  have hw := hg.width_pos
  have hsz : d * w ≤ d * N * (w * N) := by
    have h1 : d ≤ d * N := Nat.le_mul_of_pos_right d hN
    have h2 : w ≤ w * N := Nat.le_mul_of_pos_right w hN
    exact Nat.mul_le_mul h1 h2
  have hlen0 : (file.m_height_data.length : Int) ≤ INT_MAX := by
    rw [hg.size_eq]; omega
  have hget1 := TerragenFile.get_ok file w x y hg.width_eq
    (by rw [hg.size_eq]; exact flat_index_lt w d y x hy hx) hlen0
  have hget2 := TerragenFile.get_ok file w (min (x + 1) (w - 1)) y hg.width_eq
    (by rw [hg.size_eq]; exact flat_index_lt w d y _ hy (by omega)) hlen0
  have hmin : min ((x : Int) + 1) ((w : Int) - 1) = ((min (x + 1) (w - 1) : Nat) : Int) := by
    omega
  have hwle : (w : Int) ≤ 2147483647 := by
    have : w ≤ d * w := Nat.le_mul_of_pos_left w hg.depth_pos
    unfold INT_MAX at hmax
    omega
  have hloop := forLoop_except
    (fun i hd => scaleStore (N : Int) ((w * N : Nat) : Int) y x i
      (scaleXValue file.m_header_data.base_height (file.m_height_data.getD (y * w + x) 0)
        (file.m_height_data.getD (y * w + min (x + 1) (w - 1)) 0) (N : Int) i) hd)
    (fun i hd => Pass1Inv env file w d N (y * (w * N) + x * N + i) hd)
    N 0 hd hP (by
      intro i hd1 _ hi ⟨hlen, hcells⟩
      have hi' : i < N := by omega
      have hX : x * N + i < w * N := flat_index_lt N w x i hx hi'
      have hidx : y * N * (w * N) + x * N + i < d * N * (w * N) := by
        have := cell_index_lt N (w * N) d y 0 (x * N + i) hy hN hX
        simpa [Nat.add_assoc] using this
      refine ⟨_, scaleStore_ok N (w * N) y x i _ hd1 (Nat.mul_pos hw hN) (by omega) (by omega),
        ?_, ?_⟩
      · simpa using hlen
      · intro y' j X hy' hj hX'
        by_cases hsame : (y' * N + j) * (w * N) + X = y * N * (w * N) + x * N + i
        · have hsame' : (y' * N + j) * (w * N) + X = (y * N + 0) * (w * N) + (x * N + i) := by
            rw [hsame]; ring
          obtain ⟨rfl, rfl, rfl⟩ := cell_index_inj N (w * N) _ _ _ _ _ _ hj hN hX' hX hsame'
          rw [hsame, getD_set_eq _ _ _ (by omega)]
          rw [if_pos ⟨rfl, by omega⟩, scaleRow_at file w d N x i y' hg hi']
          simp only [scaleXValue, Flt32.intCast_natCast]
        · rw [getD_set_ne _ _ _ _ (Ne.symm hsame), hcells y' j X hy' hj hX']
          have hiff : (j = 0 ∧ y' * (w * N) + X < y * (w * N) + x * N + i) ↔
              (j = 0 ∧ y' * (w * N) + X < y * (w * N) + x * N + (i + 1)) := by
            constructor
            · rintro ⟨h1, h2⟩; exact ⟨h1, by omega⟩
            · rintro ⟨h1, h2⟩
              refine ⟨h1, ?_⟩
              by_contra hnot
              have heq : y' * (w * N) + X = y * (w * N) + (x * N + i) := by omega
              obtain ⟨rfl, rfl⟩ := flat_inj (w * N) _ _ _ _ hX' hX heq
              apply hsame
              subst h1
              ring
          simp only [hiff])
  obtain ⟨hd', hrun, hP'⟩ := hloop
  refine ⟨hd', ?_, by simpa using hP'⟩
  have c1 : ckInt ((x : Int) + 1) = .ok ((x : Int) + 1) :=
    ckInt_range _ (by omega) (by omega)
  have c2 : ckInt ((w : Int) - 1) = .ok ((w : Int) - 1) :=
    ckInt_range _ (by omega) (by omega)
  unfold scaleX
  simp only [hget1, hg.width_eq, c1, c2, hmin, hget2, ok_bind, Int.toNat_ofNat]
  exact hrun

theorem malloc_getD (env : Indeterminate) (bytes k : Nat) (h : k < bytes / 4) :
    (malloc env bytes).getD k 0 = env.heap k := by
  simp [malloc, List.getD_eq_getElem?_getD, List.getElem?_map, List.getElem?_range h]

/-- The first pass as a whole: every cell of the rows `y * N` holds its
`scaleRow` value, every other cell is as allocated. -/
theorem scalePass1_ok (env : Indeterminate) (file : TerragenFile) (w d N : Nat)
    (hg : IsGrid file w d) (hN : 0 < N)
    (hmax : ((d * N * (w * N) : Nat) : Int) ≤ INT_MAX) :
    ∃ hd, forLoop (fun y hd => forLoop
          (scaleX file (N : Int) ((w * N : Nat) : Int) file.m_header_data.base_height y) w 0 hd)
          d 0 (malloc env (allocBytes ((w * N : Nat) : Int) ((d * N : Nat) : Int))) = .ok hd ∧
      Pass1Inv env file w d N (d * w * N) hd := by
  have hbytes := allocBytes_nat (w * N) (d * N) hmax (Nat.mul_pos hg.depth_pos hN)
    (Nat.mul_pos hg.width_pos hN)
  have h := forLoop2_except
    (scaleX file (N : Int) ((w * N : Nat) : Int) file.m_header_data.base_height)
    (fun k hd => Pass1Inv env file w d N (k * N) hd) w d
    (malloc env (allocBytes ((w * N : Nat) : Int) ((d * N : Nat) : Int)))
    (by
      refine ⟨by rw [malloc_length, hbytes]; omega, ?_⟩
      intro y j X hy hj hX
      have hidx := cell_index_lt N (w * N) d y j X hy hj hX
      rw [malloc_getD env _ _ (by rw [hbytes]; omega)]
      simp)
    (by
      intro y x hd hy hx hP
      have e1 : (y * w + x) * N = y * (w * N) + x * N := by ring
      have e2 : (y * w + x + 1) * N = y * (w * N) + x * N + N := by ring
      rw [e1] at hP
      obtain ⟨hd', h1, h2⟩ := scaleX_ok env file w d N hg hN hmax y x hy hx hd hP
      refine ⟨hd', h1, ?_⟩
      show Pass1Inv env file w d N ((y * w + x + 1) * N) hd'
      rw [e2]
      exact h2)
  exact h
/-! ## The second pass of `scale` -/

theorem scaleYStore_ok (N W y X i : Nat) (v : Flt32) (f : TerragenFile)
    (hw : f.m_header_data.width = (W : Int))
    (hidx : (y * N + i) * W + X < f.m_height_data.length)
    (hmax : (f.m_height_data.length : Int) ≤ INT_MAX) (hW : 0 < W) :
    scaleYStore (N : Int) y X i v f =
      .ok { f with m_height_data := f.m_height_data.set ((y * N + i) * W + X) v } := by
  have hmax' : (f.m_height_data.length : Int) ≤ 2147483647 := by
    unfold INT_MAX at hmax; exact hmax
  have b1 : y * N + i ≤ (y * N + i) * W + X := by
    have := Nat.le_mul_of_pos_right (y * N + i) hW
    omega
  have e1 : (y : Int) * (N : Int) = ((y * N : Nat) : Int) := by push_cast; ring
  have e2 : ((y * N : Nat) : Int) + (i : Int) = ((y * N + i : Nat) : Int) := by push_cast; ring
  have c1 : ckInt ((y : Int) * (N : Int)) = .ok ((y * N : Nat) : Int) := by
    rw [e1]; exact ckInt_range _ (by omega) (by omega)
  have c2 : ckInt (((y * N : Nat) : Int) + (i : Int)) = .ok ((y * N + i : Nat) : Int) := by
    rw [e2]; exact ckInt_range _ (by omega) (by omega)
  unfold scaleYStore
  simp only [c1, c2, ok_bind]
  exact TerragenFile.set_ok f W X (y * N + i) v hw hidx hmax

theorem scaleCell_eq (env : Indeterminate) (file : TerragenFile) (N X y i : Nat) :
    scaleYValue file.m_header_data.base_height (scaleRow file N X y)
      (scaleBelow env file N X y) (N : Int) i = scaleCell env file N X y i := by
  simp only [scaleYValue, scaleCell, Flt32.intCast_natCast]

/-- One iteration of the loop over `x` of the second pass. -/
theorem scaleY_ok (env : Indeterminate) (file : TerragenFile) (hdr : TerragenFileHeaderData)
    (w d N : Nat) (hg : IsGrid file w d) (hN : 0 < N)
    (hmax : ((d * N * (w * N) : Nat) : Int) ≤ INT_MAX)
    (hhdr : hdr.width = ((w * N : Nat) : Int)) (y X : Nat) (hy : y < d) (hX : X < w * N)
    (f : TerragenFile) (hP : Pass2Inv env file hdr w d N ((y * (w * N) + X) * N) f) :
    ∃ f', scaleY (N : Int) ((d * N : Nat) : Int) file.m_header_data.base_height y X f = .ok f' ∧
      Pass2Inv env file hdr w d N ((y * (w * N) + X) * N + N) f' := by
  obtain ⟨hfh, hlen, hcells⟩ := hP
  have hW : 0 < w * N := Nat.mul_pos hg.width_pos hN
  have hD : 0 < d * N := Nat.mul_pos hg.depth_pos hN
  have hmax' : d * N * (w * N) ≤ 2147483647 := by unfold INT_MAX at hmax; omega
  have hDle : d * N ≤ d * N * (w * N) := Nat.le_mul_of_pos_right _ hW
  have hfw : f.m_header_data.width = ((w * N : Nat) : Int) := by rw [hfh]; exact hhdr
  have hflen : (f.m_height_data.length : Int) ≤ INT_MAX := by rw [hlen]; exact hmax
  have hyN : y * N + N ≤ d * N := by
    have : (y + 1) * N ≤ d * N := Nat.mul_le_mul_right N hy
    have e : (y + 1) * N = y * N + N := by ring
    omega
  -- the two rows read
  have hrow : f.m_height_data.getD (y * N * (w * N) + X) 0 = scaleRow file N X y := by
    have := hcells y 0 X hy hN hX
    rw [Nat.add_zero, if_neg (by omega), if_pos rfl] at this
    exact this
  have hbelow : f.m_height_data.getD (min ((y + 1) * N) (d * N - 1) * (w * N) + X) 0
      = scaleBelow env file N X y := by
    unfold scaleBelow
    rw [hg.depth_eq, hg.width_eq]
    simp only [Int.toNat_ofNat]
    by_cases hlast : y + 1 < d
    · rw [if_pos hlast]
      have hle : (y + 1) * N + N ≤ d * N := by
        have : (y + 1 + 1) * N ≤ d * N := Nat.mul_le_mul_right N hlast
        have e : (y + 1 + 1) * N = (y + 1) * N + N := by ring
        omega
      have hmin : min ((y + 1) * N) (d * N - 1) = (y + 1) * N + 0 := by omega
      rw [hmin]
      have := hcells (y + 1) 0 X hlast hN hX
      have hnot : ¬ ((y + 1) * (w * N) + X) * N + 0 < (y * (w * N) + X) * N := by
        have : (y * (w * N) + X) * N ≤ ((y + 1) * (w * N) + X) * N :=
          Nat.mul_le_mul_right N (by
            have : y * (w * N) ≤ (y + 1) * (w * N) := Nat.mul_le_mul_right _ (by omega)
            omega)
        omega
      rw [if_neg hnot, if_pos rfl] at this
      exact this
    · rw [if_neg hlast]
      have hd : d = y + 1 := by omega
      have e : (y + 1) * N = y * N + N := by ring
      have hmin : min ((y + 1) * N) (d * N - 1) = y * N + (N - 1) := by
        rw [hd, e]; omega
      have hidx : d * N - 1 = y * N + (N - 1) := by rw [hd, e]; omega
      rw [hmin, hidx]
      have := hcells y (N - 1) X hy (by omega) hX
      rw [if_neg (by omega)] at this
      rw [this]
      by_cases h1 : N = 1
      · subst h1
        simp
      · rw [if_neg (by omega), if_neg h1]
  have hget1 := TerragenFile.get_ok f (w * N) X (y * N) hfw
    (by rw [hlen]
        have := cell_index_lt N (w * N) d y 0 X hy hN hX
        simpa using this) hflen
  have hmincast : min (((y + 1) * N : Nat) : Int) (((d * N : Nat) : Int) - 1)
      = ((min ((y + 1) * N) (d * N - 1) : Nat) : Int) := by omega
  have hget2 := TerragenFile.get_ok f (w * N) X (min ((y + 1) * N) (d * N - 1)) hfw
    (by rw [hlen]
        exact flat_index_lt (w * N) (d * N) _ X (by omega) hX) hflen
  rw [hrow] at hget1
  rw [hbelow] at hget2
  have e1 : (y : Int) * (N : Int) = ((y * N : Nat) : Int) := by push_cast; ring
  have e3 : ((y : Int) + 1) * (N : Int) = (((y + 1) * N : Nat) : Int) := by push_cast; ring
  have hy1N : (y + 1) * N = y * N + N := by ring
  have c1 : ckInt ((y : Int) * (N : Int)) = .ok ((y * N : Nat) : Int) := by
    rw [e1]; exact ckInt_range _ (by omega) (by omega)
  have c2 : ckInt ((y : Int) + 1) = .ok ((y : Int) + 1) := by
    have : y < d * N := by
      have := Nat.le_mul_of_pos_right d hN
      omega
    exact ckInt_range _ (by omega) (by omega)
  have c3 : ckInt (((y : Int) + 1) * (N : Int)) = .ok (((y + 1) * N : Nat) : Int) := by
    rw [e3]; exact ckInt_range _ (by omega) (by omega)
  have c4 : ckInt (((d * N : Nat) : Int) - 1) = .ok (((d * N : Nat) : Int) - 1) :=
    ckInt_range _ (by omega) (by omega)
  have hloop := forLoop_except
    (fun i f => scaleYStore (N : Int) y X i
      (scaleYValue file.m_header_data.base_height (scaleRow file N X y)
        (scaleBelow env file N X y) (N : Int) i) f)
    (fun i f => Pass2Inv env file hdr w d N ((y * (w * N) + X) * N + i) f)
    N 0 f ⟨hfh, hlen, hcells⟩ (by
      intro i f1 _ hi ⟨hfh1, hlen1, hcells1⟩
      have hi' : i < N := by omega
      have hidx := cell_index_lt N (w * N) d y i X hy hi' hX
      refine ⟨_, scaleYStore_ok N (w * N) y X i _ f1 (by rw [hfh1]; exact hhdr)
        (by omega) (by rw [hlen1]; exact hmax) hW, hfh1, by simpa using hlen1, ?_⟩
      intro y' j X' hy' hj hX'
      by_cases hsame : (y' * N + j) * (w * N) + X' = (y * N + i) * (w * N) + X
      · obtain ⟨rfl, rfl, rfl⟩ := cell_index_inj N (w * N) _ _ _ _ _ _ hj hi' hX' hX hsame
        simp only
        rw [getD_set_eq _ _ _ (by omega), if_pos (by omega), scaleCell_eq]
      · simp only
        rw [getD_set_ne _ _ _ _ (Ne.symm hsame), hcells1 y' j X' hy' hj hX']
        have hiff : ((y' * (w * N) + X') * N + j < (y * (w * N) + X) * N + i) ↔
            ((y' * (w * N) + X') * N + j < (y * (w * N) + X) * N + (i + 1)) := by
          constructor
          · intro h; omega
          · intro h
            by_contra hnot
            have heq : (y' * (w * N) + X') * N + j = (y * (w * N) + X) * N + i := by omega
            obtain ⟨h1, rfl⟩ := flat_inj N j i _ _ hj hi' heq
            obtain ⟨rfl, rfl⟩ := flat_inj (w * N) X' X _ _ hX' hX h1
            exact hsame rfl
        simp only [hiff])
  obtain ⟨f', hrun, hP'⟩ := hloop
  refine ⟨f', ?_, by simpa using hP'⟩
  unfold scaleY
  simp only [c1, c2, c3, c4, hmincast, hget1, hget2, ok_bind, Int.toNat_ofNat]
  exact hrun
/-! ## `scale` as a whole -/

/-- The result of `scale` on a `w` by `d` grid with a factor `N >= 1`, when
the new element count `(d * N) * (w * N)` fits `int`: the call returns, the
header is `scaledHeader`, the block has `(d * N) * (w * N)` elements and
column `X` of row `y * N + j` holds `scaleCell`. -/
theorem scale_ok (env : Indeterminate) (file : TerragenFile) (w d N : Nat)
    (hg : IsGrid file w d) (hN : 0 < N)
    (hmax : ((d * N * (w * N) : Nat) : Int) ≤ INT_MAX) :
    ∃ g', scale env file (N : Int) = .ok g' ∧
      g'.m_header_data = scaledHeader file N ∧
      g'.m_height_data.length = d * N * (w * N) ∧
      ∀ y j X, y < d → j < N → X < w * N →
        g'.m_height_data.getD ((y * N + j) * (w * N) + X) 0 = scaleCell env file N X y j := by
  have hW : 0 < w * N := Nat.mul_pos hg.width_pos hN
  have hD : 0 < d * N := Nat.mul_pos hg.depth_pos hN
  have hmax' : d * N * (w * N) ≤ 2147483647 := by unfold INT_MAX at hmax; omega
  have hDle : d * N ≤ d * N * (w * N) := Nat.le_mul_of_pos_right _ hW
  have hWle : w * N ≤ d * N * (w * N) := Nat.le_mul_of_pos_left _ hD
  have e1 : file.m_header_data.width * (N : Int) = ((w * N : Nat) : Int) := by
    rw [hg.width_eq]; push_cast; ring
  have e2 : file.m_header_data.depth * (N : Int) = ((d * N : Nat) : Int) := by
    rw [hg.depth_eq]; push_cast; ring
  rw [hg.width_eq] at e1
  rw [hg.depth_eq] at e2
  have c1 : ckInt ((w : Int) * (N : Int)) = .ok ((w * N : Nat) : Int) := by
    rw [e1]; exact ckInt_range _ (by omega) (by omega)
  have c2 : ckInt ((d : Int) * (N : Int)) = .ok ((d * N : Nat) : Int) := by
    rw [e2]; exact ckInt_range _ (by omega) (by omega)
  obtain ⟨hd1, hpass1, hlen1, hcells1⟩ := scalePass1_ok env file w d N hg hN hmax
  have hhdr : scaledHeader file N =
      { file.m_header_data with
        depth := ((d * N : Nat) : Int)
        width := ((w * N : Nat) : Int)
        max_height := file.m_header_data.base_height
          + (file.m_header_data.max_height - file.m_header_data.base_height)
            * (((N : Nat) : Int) : Flt32)
        min_height := file.m_header_data.base_height
          + (file.m_header_data.min_height - file.m_header_data.base_height)
            * (((N : Nat) : Int) : Flt32) } := by
    simp only [scaledHeader, hg.width_eq, hg.depth_eq, Int.toNat_ofNat, Flt32.intCast_natCast]
  have hpass2 := forLoop2_except
    (scaleY (N : Int) ((d * N : Nat) : Int) file.m_header_data.base_height)
    (fun k f => Pass2Inv env file (scaledHeader file N) w d N (k * N) f) (w * N) d
    { m_height_data := hd1, m_header_data := scaledHeader file N }
    (by
      refine ⟨rfl, hlen1, ?_⟩
      intro y j X hy hj hX
      have h := hcells1 y j X hy hj hX
      have hdone : y * (w * N) + X < d * w * N := by
        have := flat_index_lt (w * N) d y X hy hX
        have e : d * (w * N) = d * w * N := by ring
        omega
      simp only [Nat.zero_mul, Nat.not_lt_zero, if_false]
      rw [h]
      by_cases hj0 : j = 0
      · rw [if_pos ⟨hj0, hdone⟩, if_pos hj0]
      · rw [if_neg (fun hc => hj0 hc.1), if_neg hj0])
    (by
      intro y X f hy hX hP
      obtain ⟨f', h1, h2⟩ := scaleY_ok env file (scaledHeader file N) w d N hg hN hmax
        (by rw [hhdr]) y X hy hX f hP
      refine ⟨f', h1, ?_⟩
      show Pass2Inv env file (scaledHeader file N) w d N ((y * (w * N) + X + 1) * N) f'
      have e : (y * (w * N) + X + 1) * N = (y * (w * N) + X) * N + N := by ring
      rw [e]
      exact h2)
  obtain ⟨g', hrun, hfh, hlen, hcells⟩ := hpass2
  refine ⟨g', ?_, hfh, hlen, ?_⟩
  · unfold scale
    simp only [hg.width_eq, hg.depth_eq, c1, c2, ok_bind, Int.toNat_ofNat, hpass1]
    simp only [hhdr] at hrun
    exact hrun
  · intro y j X hy hj hX
    rw [hcells y j X hy hj hX, if_pos]
    have h1 : y * (w * N) + X < d * (w * N) := flat_index_lt (w * N) d y X hy hX
    exact flat_index_lt N (d * (w * N)) _ j h1 hj
/-! ## Dimensions and anchor points after `scale` -/

theorem scaledHeader_width (file : TerragenFile) (w d N : Nat) (hg : IsGrid file w d) :
    (scaledHeader file N).width = ((w * N : Nat) : Int) := by
  simp only [scaledHeader, hg.width_eq, Int.toNat_ofNat]

theorem scaledHeader_depth (file : TerragenFile) (w d N : Nat) (hg : IsGrid file w d) :
    (scaledHeader file N).depth = ((d * N : Nat) : Int) := by
  simp only [scaledHeader, hg.depth_eq, Int.toNat_ofNat]

theorem squareGrid_isGrid : IsGrid squareGrid 2 2 :=
  ⟨rfl, rfl, by decide, by decide, rfl, by decide⟩

theorem pairGrid_isGrid : IsGrid pairGrid 2 1 :=
  ⟨rfl, rfl, by decide, by decide, rfl, by decide⟩

/-- Claim C4, as amended: for a `w` by `d` grid and a factor `n >= 1` whose
new element count `(d * n) * (w * n)` fits `int`, `scale` returns a grid with
`width' = width * n`, `depth' = depth * n` and a block of exactly
`width' * depth'` elements, so the result is again a grid. -/
theorem scale_dimensions (env : Indeterminate) (file : TerragenFile) (w d N : Nat)
    (hg : IsGrid file w d) (hN : 1 ≤ N)
    (hmax : ((d * N * (w * N) : Nat) : Int) ≤ INT_MAX) :
    ∃ g', scale env file (N : Int) = .ok g' ∧
      g'.m_header_data.width = file.m_header_data.width * (N : Int) ∧
      g'.m_header_data.depth = file.m_header_data.depth * (N : Int) ∧
      (g'.m_height_data.length : Int) = g'.m_header_data.width * g'.m_header_data.depth ∧
      IsGrid g' (w * N) (d * N) := by
  obtain ⟨g', hrun, hhdr, hlen, -⟩ := scale_ok env file w d N hg hN hmax
  have hw' : g'.m_header_data.width = ((w * N : Nat) : Int) := by
    rw [hhdr]; exact scaledHeader_width file w d N hg
  have hd' : g'.m_header_data.depth = ((d * N : Nat) : Int) := by
    rw [hhdr]; exact scaledHeader_depth file w d N hg
  refine ⟨g', hrun, ?_, ?_, ?_, ?_⟩
  · rw [hw', hg.width_eq]; push_cast; ring
  · rw [hd', hg.depth_eq]; push_cast; ring
  · rw [hw', hd', hlen]; push_cast; ring
  · exact ⟨hw', hd', Nat.mul_pos hg.width_pos hN, Nat.mul_pos hg.depth_pos hN, hlen, hmax⟩

theorem scale_dimensions_witness :
    IsGrid squareGrid 2 2 ∧ 1 ≤ 2 ∧ ((2 * 2 * (2 * 2) : Nat) : Int) ≤ INT_MAX ∧
    ∃ g', scale zeroEnv squareGrid ((2 : Nat) : Int) = .ok g' ∧
      g'.m_header_data.width = squareGrid.m_header_data.width * ((2 : Nat) : Int) ∧
      g'.m_header_data.depth = squareGrid.m_header_data.depth * ((2 : Nat) : Int) ∧
      (g'.m_height_data.length : Int) = g'.m_header_data.width * g'.m_header_data.depth ∧
      IsGrid g' (2 * 2) (2 * 2) :=
  ⟨squareGrid_isGrid, by decide, by decide,
    scale_dimensions zeroEnv squareGrid 2 2 2 squareGrid_isGrid (by decide) (by decide)⟩

/-- Claim C4 as stated fails: for the 2 by 1 grid and the factor `2^30` the
product `width * scale_factor` is `2^31`, which no `int` holds; the call
leaves defined behaviour and no grid with `width' = width * n` results. -/
theorem scale_overflow :
    scale zeroEnv pairGrid 1073741824 = .error .undefinedBehaviour := by
  decide!

/-- The height of the result of `scale` at column `X` of row `y * N + j`. -/
theorem scale_height (env : Indeterminate) (file : TerragenFile) (w d N : Nat)
    (hg : IsGrid file w d) (hN : 1 ≤ N)
    (hmax : ((d * N * (w * N) : Nat) : Int) ≤ INT_MAX) :
    ∃ g', scale env file (N : Int) = .ok g' ∧
      g'.m_header_data = scaledHeader file N ∧
      ∀ y j X, y < d → j < N → X < w * N →
        g'.height X (y * N + j) = scaleCell env file N X y j := by
  obtain ⟨g', hrun, hhdr, -, hcells⟩ := scale_ok env file w d N hg hN hmax
  refine ⟨g', hrun, hhdr, ?_⟩
  intro y j X hy hj hX
  unfold TerragenFile.height
  rw [hhdr, scaledHeader_width file w d N hg, Int.toNat_ofNat]
  exact hcells y j X hy hj hX

/-! ## Header, reference values and access safety of `scale` -/

/-- Claim C11, as amended: for a `w` by `d` grid and a factor `n >= 1` whose
new element count fits `int`, after `scale(g, n)` the header holds
`max_height' = base_height + (max_height - base_height) * n` and
`min_height' = base_height + (min_height - base_height) * n`, from the
extremes stored before the call, and `base_height`, `height_scale`, `scale`,
`mode` and `planet_radius` are unchanged. -/
theorem scale_header (env : Indeterminate) (file : TerragenFile) (w d N : Nat)
    (hg : IsGrid file w d) (hN : 1 ≤ N)
    (hmax : ((d * N * (w * N) : Nat) : Int) ≤ INT_MAX) :
    ∃ g', scale env file (N : Int) = .ok g' ∧
      g'.m_header_data.max_height = file.m_header_data.base_height
        + (file.m_header_data.max_height - file.m_header_data.base_height) * (N : Flt32) ∧
      g'.m_header_data.min_height = file.m_header_data.base_height
        + (file.m_header_data.min_height - file.m_header_data.base_height) * (N : Flt32) ∧
      g'.m_header_data.base_height = file.m_header_data.base_height ∧
      g'.m_header_data.height_scale = file.m_header_data.height_scale ∧
      g'.m_header_data.scale = file.m_header_data.scale ∧
      g'.m_header_data.mode = file.m_header_data.mode ∧
      g'.m_header_data.planet_radius = file.m_header_data.planet_radius := by
  obtain ⟨g', hrun, hhdr, -, -⟩ := scale_ok env file w d N hg hN hmax
  refine ⟨g', hrun, ?_⟩
  rw [hhdr]
  exact ⟨rfl, rfl, rfl, rfl, rfl, rfl, rfl⟩

theorem scale_header_witness :
    IsGrid squareGrid 2 2 ∧ 1 ≤ 3 ∧ ((2 * 3 * (2 * 3) : Nat) : Int) ≤ INT_MAX ∧
    ∃ g', scale zeroEnv squareGrid ((3 : Nat) : Int) = .ok g' ∧
      g'.m_header_data.max_height = squareGrid.m_header_data.base_height
        + (squareGrid.m_header_data.max_height - squareGrid.m_header_data.base_height)
          * ((3 : Nat) : Flt32) ∧
      g'.m_header_data.min_height = squareGrid.m_header_data.base_height
        + (squareGrid.m_header_data.min_height - squareGrid.m_header_data.base_height)
          * ((3 : Nat) : Flt32) ∧
      g'.m_header_data.base_height = squareGrid.m_header_data.base_height ∧
      g'.m_header_data.height_scale = squareGrid.m_header_data.height_scale ∧
      g'.m_header_data.scale = squareGrid.m_header_data.scale ∧
      g'.m_header_data.mode = squareGrid.m_header_data.mode ∧
      g'.m_header_data.planet_radius = squareGrid.m_header_data.planet_radius :=
  ⟨squareGrid_isGrid, by decide, by decide,
    scale_header zeroEnv squareGrid 2 2 3 squareGrid_isGrid (by decide) (by decide)⟩

/-- Claim C11 as stated fails: for the 3 by 1 grid and the factor `2^30` the
new width `3 * 2^30` is no `int`; the call leaves defined behaviour before
the header is touched. -/
theorem scale_header_overflow :
    scale zeroEnv stripGrid 1073741824 = .error .undefinedBehaviour := by
  decide!

/-- Claim C16 fails in the code: scaling the 2 by 2 grid with samples 0, 100,
200, 300 by 2 leaves 400 at `(0, 2)`, the first row derived from the last
original row, and in the row below it 200 when the fresh block held zeros
but 700 when it held 1000: the rows differ and depend on the prior content
of the block, because line 247 reads row `depth - 1` before it is written. -/
theorem scale_bottom_edge_unclamped :
    (scale zeroEnv squareGrid 2).map (fun g => [g.height 0 2, g.height 0 3]) = .ok [400, 200] ∧
    (scale thousandEnv squareGrid 2).map (fun g => [g.height 0 2, g.height 0 3])
      = .ok [400, 700] := by
  decide!

/-- A successful bind of `Except` has a successful first part. -/
theorem except_bind_ok {ε α β : Type} (e : Except ε α) (f : α → Except ε β) (b : β)
    (h : (e >>= f) = .ok b) : ∃ a, e = .ok a ∧ f a = .ok b := by
  cases e with
  | error err => cases h
  | ok a => exact ⟨a, rfl, h⟩

theorem ckInt_eq_ok (v a : Int) (h : ckInt v = .ok a) : a = v := by
  unfold ckInt at h
  split at h
  · cases h; rfl
  · cases h

/-- An element index that `operator()` computes without leaving defined
behaviour is `z * width + x` and lies inside the block. -/
theorem TerragenFile.index_inside (f : TerragenFile) (x z : Int) (k : Nat)
    (h : f.index x z = .ok k) :
    (k : Int) = z * f.m_header_data.width + x ∧ k < f.m_height_data.length := by
  unfold TerragenFile.index at h
  obtain ⟨a, ha, h⟩ := except_bind_ok _ _ _ h
  obtain ⟨i, hi, h⟩ := except_bind_ok _ _ _ h
  have ea := ckInt_eq_ok _ _ ha
  have ei := ckInt_eq_ok _ _ hi
  split at h
  · rename_i hin
    cases h
    subst ea
    subst ei
    constructor
    · exact Int.toNat_of_nonneg hin.1
    · have := hin.2
      omega
  · cases h

/-- A store of the first pass that stays in defined behaviour writes the
element `y * scale_factor * width + x * scale_factor + i` inside the block. -/
theorem scaleStore_inside (scale_factor width : Int) (y x i : Nat) (v : Flt32) (hd hd' : List Flt32)
    (h : scaleStore scale_factor width y x i v hd = .ok hd') :
    ∃ k : Nat, (k : Int) = (y : Int) * scale_factor * width + (x : Int) * scale_factor + (i : Int)
      ∧ k < hd.length ∧ hd' = hd.set k v := by
  unfold scaleStore at h
  obtain ⟨a, ha, h⟩ := except_bind_ok _ _ _ h
  obtain ⟨a', ha', h⟩ := except_bind_ok _ _ _ h
  obtain ⟨b, hb, h⟩ := except_bind_ok _ _ _ h
  obtain ⟨c, hc, h⟩ := except_bind_ok _ _ _ h
  obtain ⟨idx, hidx, h⟩ := except_bind_ok _ _ _ h
  have e1 := ckInt_eq_ok _ _ ha
  have e2 := ckInt_eq_ok _ _ ha'
  have e3 := ckInt_eq_ok _ _ hb
  have e4 := ckInt_eq_ok _ _ hc
  have e5 := ckInt_eq_ok _ _ hidx
  split at h
  · rename_i hin
    cases h
    refine ⟨idx.toNat, ?_, ?_, rfl⟩
    · rw [Int.toNat_of_nonneg hin.1, e5, e4, e3, e2, e1]
    · have := hin.2
      omega
  · cases h

/-- Claim C19, as amended: for a `w` by `d` grid and a factor `n >= 1` whose
new element count fits `int`, `scale` completes without an access outside a
block: every read `file(x, z)` and every store that completes uses the index
`z * width + x`, respectively `y*n*width' + x*n + i`, and that index lies
inside the block accessed. -/
theorem scale_index_safety (env : Indeterminate) (file : TerragenFile) (w d N : Nat)
    (hg : IsGrid file w d) (hN : 1 ≤ N)
    (hmax : ((d * N * (w * N) : Nat) : Int) ≤ INT_MAX) :
    (∃ g', scale env file (N : Int) = .ok g' ∧
      g'.m_height_data.length = (w * N) * (d * N)) ∧
    (∀ (f : TerragenFile) (x z : Int) (v : Flt32), f.get x z = .ok v →
      ∃ k : Nat, (k : Int) = z * f.m_header_data.width + x ∧ k < f.m_height_data.length) ∧
    (∀ (f f' : TerragenFile) (x z : Int) (v : Flt32), f.set x z v = .ok f' →
      ∃ k : Nat, (k : Int) = z * f.m_header_data.width + x ∧ k < f.m_height_data.length) ∧
    (∀ (width : Int) (y x i : Nat) (v : Flt32) (hd hd' : List Flt32),
      scaleStore (N : Int) width y x i v hd = .ok hd' →
      ∃ k : Nat, (k : Int) = (y : Int) * (N : Int) * width + (x : Int) * (N : Int) + (i : Int)
        ∧ k < hd.length) := by
  refine ⟨?_, ?_, ?_, ?_⟩
  · obtain ⟨g', hrun, -, hlen, -⟩ := scale_ok env file w d N hg hN hmax
    exact ⟨g', hrun, by rw [hlen, Nat.mul_comm]⟩
  · intro f x z v h
    unfold TerragenFile.get at h
    obtain ⟨k, hk, -⟩ := except_bind_ok _ _ _ h
    exact ⟨k, f.index_inside x z k hk⟩
  · intro f f' x z v h
    unfold TerragenFile.set at h
    obtain ⟨k, hk, -⟩ := except_bind_ok _ _ _ h
    exact ⟨k, f.index_inside x z k hk⟩
  · intro width y x i v hd hd' h
    obtain ⟨k, hk, hlt, -⟩ := scaleStore_inside _ _ _ _ _ _ _ _ h
    exact ⟨k, hk, hlt⟩

theorem scale_index_safety_witness :
    IsGrid stripGrid 3 1 ∧ 1 ≤ 2 ∧ ((1 * 2 * (3 * 2) : Nat) : Int) ≤ INT_MAX ∧
    ((∃ g', scale zeroEnv stripGrid ((2 : Nat) : Int) = .ok g' ∧
      g'.m_height_data.length = (3 * 2) * (1 * 2)) ∧
    (∀ (f : TerragenFile) (x z : Int) (v : Flt32), f.get x z = .ok v →
      ∃ k : Nat, (k : Int) = z * f.m_header_data.width + x ∧ k < f.m_height_data.length) ∧
    (∀ (f f' : TerragenFile) (x z : Int) (v : Flt32), f.set x z v = .ok f' →
      ∃ k : Nat, (k : Int) = z * f.m_header_data.width + x ∧ k < f.m_height_data.length) ∧
    (∀ (width : Int) (y x i : Nat) (v : Flt32) (hd hd' : List Flt32),
      scaleStore ((2 : Nat) : Int) width y x i v hd = .ok hd' →
      ∃ k : Nat, (k : Int) = (y : Int) * ((2 : Nat) : Int) * width + (x : Int) * ((2 : Nat) : Int)
          + (i : Int)
        ∧ k < hd.length)) :=
  ⟨stripGrid_isGrid, by decide, by decide,
    scale_index_safety zeroEnv stripGrid 3 1 2 stripGrid_isGrid (by decide) (by decide)⟩

/-- Claim C19 as stated fails: for the 2 by 2 grid and the factor
`1500000000` the new width `3000000000` is no `int`, so the sizes and
indices of the new block are not defined. -/
theorem scale_index_overflow :
    scale zeroEnv squareGrid 1500000000 = .error .undefinedBehaviour := by
  decide!

/-! ## The resampler on values that are not rounded -/

theorem Flt32.natCast_zero : ((0 : Nat) : Flt32) = Flt32.finite 0 := by
  have := Flt32.natCast_small 0 (by norm_num)
  simpa using this

/-- The first-pass value at an anchor column, when the height above the base,
its product with the factor and the sum with the base are not rounded and the
increment is finite. -/
theorem scaleRow_zero (file : TerragenFile) (N x y : Nat) (a b : ℚ) (hN : 0 < N)
    (hNs : N < 16777216)
    (ha : file.height x y = Flt32.finite a)
    (hb : file.m_header_data.base_height = Flt32.finite b)
    (h1 : Flt32.Representable (a - b)) (h2 : Flt32.Representable ((a - b) * (N : ℚ)))
    (h3 : Flt32.Representable (b + (a - b) * (N : ℚ)))
    (hinc : (scaleIncrementX file N x y).isFinite = true) :
    scaleRow file N (x * N) y = Flt32.finite (b + (a - b) * (N : ℚ)) := by
  have e1 : x * N / N = x := Nat.mul_div_cancel x hN
  have e2 : x * N % N = 0 := Nat.mul_mod_left x N
  unfold scaleIncrementX at hinc
  unfold scaleRow
  simp only [e1, e2] at hinc ⊢
  rw [Flt32.natCast_zero, Flt32.zero_mul_of_isFinite _ hinc, ha, hb, Flt32.finite_sub, h1,
    Flt32.natCast_small N hNs, Flt32.finite_mul, h2, Flt32.finite_add, add_zero, h2,
    Flt32.finite_add, h3]

/-- The second-pass value of the first row derived from an original row, when
the first-pass value and its height above the base are not rounded and the
increment is finite. -/
theorem scaleCell_zero (env : Indeterminate) (file : TerragenFile) (N X y : Nat) (r b : ℚ)
    (hr : scaleRow file N X y = Flt32.finite r)
    (hb : file.m_header_data.base_height = Flt32.finite b)
    (h1 : Flt32.Representable (r - b)) (h2 : Flt32.Representable r)
    (hinc : (scaleIncrementY env file N X y).isFinite = true) :
    scaleCell env file N X y 0 = Flt32.finite r := by
  unfold scaleIncrementY at hinc
  unfold scaleCell
  simp only at hinc ⊢
  rw [Flt32.natCast_zero, Flt32.zero_mul_of_isFinite _ hinc, hr, hb, Flt32.finite_sub, h1,
    Flt32.finite_add, show b + (r - b) = r by ring, h2, Flt32.finite_add, add_zero, h2]

theorem scaleRow_reference (file : TerragenFile) (N x i y : Nat) (hi : i < N) :
    scaleRow file N (x * N + i) y = referenceRow file N x i y := by
  have hN : 0 < N := by omega
  have e1 : (x * N + i) / N = x := by
    rw [Nat.add_comm, Nat.add_mul_div_right _ _ hN, Nat.div_eq_of_lt hi, Nat.zero_add]
  have e2 : (x * N + i) % N = i := by
    rw [Nat.add_comm, Nat.add_mul_mod_self_right, Nat.mod_eq_of_lt hi]
  unfold scaleRow referenceRow
  simp only [e1, e2]

/-- With both ends of the interpolation at the same finite height the
reference value does not depend on the step. -/
theorem referenceRow_last_column (file : TerragenFile) (w d N i y : Nat) (hg : IsGrid file w d)
    (hN : 0 < N) (hNs : N < 16777216) (hi : i < N)
    (hfin : ((file.height (w - 1) y - file.m_header_data.base_height)
      * (N : Flt32)).isFinite = true) :
    referenceRow file N (w - 1) i y = referenceRow file N (w - 1) 0 y := by
  have hw := hg.width_pos
  have hmin : min (w - 1 + 1) (file.m_header_data.width.toNat - 1) = w - 1 := by
    rw [hg.width_eq, Int.toNat_ofNat]
    omega
  obtain ⟨c, hc⟩ := (Flt32.isFinite_iff _).mp hfin
  have hNq : (N : ℚ) ≠ 0 := by exact_mod_cast (by omega : N ≠ 0)
  unfold referenceRow
  simp only [hmin]
  rw [hc, Flt32.finite_sub, sub_self, Flt32.ofRat_zero, Flt32.natCast_small N hNs,
    Flt32.finite_div _ _ hNq, zero_div, Flt32.ofRat_zero, Flt32.natCast_small i (by omega),
    Flt32.natCast_zero, Flt32.finite_mul, Flt32.finite_mul, mul_zero, zero_mul]

theorem scale_factor_small (w d N : Nat) (hw : 0 < w) (hd : 0 < d)
    (hmax : ((d * N * (w * N) : Nat) : Int) ≤ INT_MAX) : N < 16777216 := by
  by_contra hc
  have h1 : 16777216 * 16777216 ≤ N * N := Nat.mul_le_mul (by omega) (by omega)
  have h2 : N * N ≤ d * N * (w * N) :=
    Nat.mul_le_mul (Nat.le_mul_of_pos_left N hd) (Nat.le_mul_of_pos_left N hw)
  unfold INT_MAX at hmax
  omega

/-! ## `scale` on a grid with an element beyond `INT_MAX` -/

theorem scaleStore_error (scale_factor width : Int) (y x i : Nat) (v : Flt32)
    (hd : List Flt32) (e : TerragenError)
    (h : scaleStore scale_factor width y x i v hd = .error e) : e = .undefinedBehaviour := by
  unfold scaleStore at h
  rcases except_bind_error _ _ _ h with h1 | ⟨a1, -, h⟩
  · exact ckInt_error _ _ h1
  rcases except_bind_error _ _ _ h with h1 | ⟨a2, -, h⟩
  · exact ckInt_error _ _ h1
  rcases except_bind_error _ _ _ h with h1 | ⟨a3, -, h⟩
  · exact ckInt_error _ _ h1
  rcases except_bind_error _ _ _ h with h1 | ⟨a4, -, h⟩
  · exact ckInt_error _ _ h1
  rcases except_bind_error _ _ _ h with h1 | ⟨a5, -, h⟩
  · exact ckInt_error _ _ h1
  split at h
  · cases h
  · cases h; rfl

theorem scaleX_error (file : TerragenFile) (scale_factor width : Int) (base_height : Flt32)
    (y x : Nat) (hd : List Flt32) (e : TerragenError)
    (h : scaleX file scale_factor width base_height y x hd = .error e) :
    e = .undefinedBehaviour := by
  unfold scaleX at h
  rcases except_bind_error _ _ _ h with h1 | ⟨v, -, h⟩
  · exact TerragenFile.get_error _ _ _ _ h1
  rcases except_bind_error _ _ _ h with h1 | ⟨x1, -, h⟩
  · exact ckInt_error _ _ h1
  rcases except_bind_error _ _ _ h with h1 | ⟨w1, -, h⟩
  · exact ckInt_error _ _ h1
  rcases except_bind_error _ _ _ h with h1 | ⟨v2, -, h⟩
  · exact TerragenFile.get_error _ _ _ _ h1
  exact forLoop_error_only _ _ (fun i s e' he => scaleStore_error _ _ _ _ _ _ _ _ he) _ _ _ _ h

/-- The resampler with factor 1 on a grid that has an element beyond
`INT_MAX`: the first pass reaches that element, and its index is not an
`int`. -/
theorem scale_one_index_overflow (env : Indeterminate) (file : TerragenFile) (W D x0 y0 : Nat)
    (hw : file.m_header_data.width = (W : Int)) (hd : file.m_header_data.depth = (D : Int))
    (hW : W < 65536) (hD : D < 65536)
    (hx0 : x0 < W) (hy0 : y0 < D) (hidx : 2147483647 < y0 * W + x0) :
    scale env file 1 = .error .undefinedBehaviour := by
  have c1 : ckInt ((W : Int) * 1) = .ok (W : Int) := by
    rw [mul_one]; exact ckInt_range _ (by omega) (by omega)
  have c2 : ckInt ((D : Int) * 1) = .ok (D : Int) := by
    rw [mul_one]; exact ckInt_range _ (by omega) (by omega)
  have hloop : ∀ hd0, forLoop
      (fun y hd => forLoop (scaleX file 1 (W : Int) file.m_header_data.base_height y) W 0 hd)
      D 0 hd0 = .error .undefinedBehaviour := fun hd0 =>
    forLoop2_fails (scaleX file 1 (W : Int) file.m_header_data.base_height) .undefinedBehaviour
      (scaleX_error file 1 (W : Int) file.m_header_data.base_height) W D y0 x0 hy0 hx0
      (fun s => by
        unfold scaleX
        rw [TerragenFile.get_overflow file W x0 y0 hw hidx]
        rfl) hd0
  unfold scale
  rw [hw, hd]
  simp only [c1, c2, ok_bind, Int.toNat_ofNat, hloop]
  rfl

/-! ## Anchor points, the identity, the reference definition -/

/-- Claim C3, as amended: for a `w` by `d` grid with a block of `w * d`
elements and `w * d <= INT_MAX`, `scale(g, 1)` returns a grid with the width
and the depth of `g`, and `grid'(x, y) = grid(x, y)` at every coordinate
whose height is a finite number `a` such that `a - base_height` is computed
without rounding and whose two increments are finite. -/
theorem scale_one_identity (env : Indeterminate) (file : TerragenFile) (w d : Nat)
    (hg : IsGrid file w d) :
    ∃ g', scale env file 1 = .ok g' ∧
      g'.m_header_data.width = file.m_header_data.width ∧
      g'.m_header_data.depth = file.m_header_data.depth ∧
      ∀ (x y : Nat) (a b : ℚ), x < w → y < d →
        file.height x y = Flt32.finite a →
        file.m_header_data.base_height = Flt32.finite b →
        Flt32.Representable a → Flt32.Representable (a - b) →
        (scaleIncrementX file 1 x y).isFinite = true →
        (scaleIncrementY env file 1 x y).isFinite = true →
        g'.height x y = file.height x y := by
  have hmax : ((d * 1 * (w * 1) : Nat) : Int) ≤ INT_MAX := by
    simpa using hg.size_le
  obtain ⟨g', hrun, hhdr, hcells⟩ := scale_height env file w d 1 hg (le_refl 1) hmax
  rw [Nat.cast_one] at hrun
  refine ⟨g', hrun, ?_, ?_, ?_⟩
  · rw [hhdr, scaledHeader_width file w d 1 hg, hg.width_eq, Nat.mul_one]
  · rw [hhdr, scaledHeader_depth file w d 1 hg, hg.depth_eq, Nat.mul_one]
  · intro x y a b hx hy ha hb r1 r2 f1 f2
    have h := hcells y 0 x hy (by omega) (by omega)
    simp only [Nat.mul_one, Nat.add_zero] at h
    have e : b + (a - b) * ((1 : Nat) : ℚ) = a := by push_cast; ring
    have e2 : (a - b) * ((1 : Nat) : ℚ) = a - b := by push_cast; ring
    have hrow := scaleRow_zero file 1 x y a b (by norm_num) (by norm_num) ha hb r2
      (by rw [e2]; exact r2) (by rw [e]; exact r1) f1
    rw [e, Nat.mul_one] at hrow
    rw [h, ha]
    exact scaleCell_zero env file 1 x y a b hrow hb r2 r1 f2

theorem scale_one_identity_witness :
    IsGrid squareGrid 2 2 ∧
    ∃ g', scale zeroEnv squareGrid 1 = .ok g' ∧
      g'.m_header_data.width = squareGrid.m_header_data.width ∧
      g'.m_header_data.depth = squareGrid.m_header_data.depth ∧
      g'.height 1 1 = squareGrid.height 1 1 := by
  obtain ⟨g', h1, h2, h3, h4⟩ := scale_one_identity zeroEnv squareGrid 2 2 squareGrid_isGrid
  exact ⟨squareGrid_isGrid, g', h1, h2, h3,
    h4 1 1 300 0 (by decide) (by decide) (by decide!) (by decide!) (by decide!) (by decide!)
      (by decide!) (by decide!)⟩

/-- Claim C3 as stated fails: the grid of 65535 columns and 32769 rows has
`width >= 1`, `depth >= 1` and a block of `width * depth` elements, and
`scale(g, 1)` returns no grid: the index of the sample `(32768, 32768)` is
`2^31`, not an `int`.  And for the 1 by 1 grid with the base 1000 and the
height `0.1f` the result holds `819/8192`, the difference to the base having
been rounded. -/
theorem scale_one_huge_grid_undefined :
    (1 ≤ hugeGrid.m_header_data.width ∧ 1 ≤ hugeGrid.m_header_data.depth ∧
      (hugeGrid.m_height_data.length : Int)
        = hugeGrid.m_header_data.width * hugeGrid.m_header_data.depth ∧
      (32768 : Int) * hugeGrid.m_header_data.width + 32768 = 2147483648 ∧
      scale zeroEnv hugeGrid 1 = .error .undefinedBehaviour) ∧
    (tenthGrid.height 0 0 = Flt32.finite (13421773 / 134217728) ∧
      (scale zeroEnv tenthGrid 1).map (fun g => g.height 0 0)
        = .ok (Flt32.finite (819 / 8192))) :=
  ⟨⟨by decide, by decide,
    by
      rw [show hugeGrid.m_height_data.length = 2147516415 from
        List.length_replicate 2147516415 (0 : Flt32)]
      decide,
    by decide,
    scale_one_index_overflow zeroEnv hugeGrid 65535 32769 32768 32768 rfl rfl (by norm_num)
      (by norm_num) (by norm_num) (by norm_num) (by norm_num)⟩, by decide!⟩

/-- Claim C2, as amended: for a `w` by `d` grid and a factor `n > 1` whose new
element count fits `int`, the new grid holds at the anchor point of every
original sample above the last row the original height above the base
multiplied by `n`, `grid'(x*n, y*n) = base_height + (grid(x,y) - base_height) * n`,
when the height above the base, its product with `n` and the sum with the
base are computed without rounding and the two increments are finite. -/
theorem scale_anchor_points (env : Indeterminate) (file : TerragenFile) (w d N : Nat)
    (hg : IsGrid file w d) (hN : 1 < N)
    (hmax : ((d * N * (w * N) : Nat) : Int) ≤ INT_MAX) :
    ∃ g', scale env file (N : Int) = .ok g' ∧
      ∀ (x y : Nat) (a b : ℚ), x < w → y + 1 < d →
        file.height x y = Flt32.finite a →
        file.m_header_data.base_height = Flt32.finite b →
        Flt32.Representable (a - b) → Flt32.Representable ((a - b) * (N : ℚ)) →
        Flt32.Representable (b + (a - b) * (N : ℚ)) →
        (scaleIncrementX file N x y).isFinite = true →
        (scaleIncrementY env file N (x * N) y).isFinite = true →
        g'.height (x * N) (y * N) = Flt32.finite (b + (a - b) * (N : ℚ)) := by
  obtain ⟨g', hrun, -, hcells⟩ := scale_height env file w d N hg (by omega) hmax
  have hNs := scale_factor_small w d N hg.width_pos hg.depth_pos hmax
  refine ⟨g', hrun, ?_⟩
  intro x y a b hx hy ha hb r1 r2 r3 f1 f2
  have hX : x * N + 0 < w * N := flat_index_lt N w x 0 hx (by omega)
  have h := hcells y 0 (x * N + 0) (by omega) (by omega) hX
  simp only [Nat.add_zero] at h
  rw [h]
  have hrow := scaleRow_zero file N x y a b (by omega) hNs ha hb r1 r2 r3 f1
  exact scaleCell_zero env file N (x * N) y _ b hrow hb
    (by rw [show b + (a - b) * (N : ℚ) - b = (a - b) * (N : ℚ) by ring]; exact r2) r3 f2

theorem scale_anchor_points_witness :
    IsGrid squareGrid 2 2 ∧ 1 < 2 ∧ ((2 * 2 * (2 * 2) : Nat) : Int) ≤ INT_MAX ∧
    ∃ g', scale zeroEnv squareGrid ((2 : Nat) : Int) = .ok g' ∧
      g'.height (1 * 2) (0 * 2) = Flt32.finite (0 + (100 - 0) * ((2 : Nat) : ℚ)) := by
  obtain ⟨g', h1, h2⟩ :=
    scale_anchor_points zeroEnv squareGrid 2 2 2 squareGrid_isGrid (by decide) (by decide)
  exact ⟨squareGrid_isGrid, by decide, by decide, g', h1,
    h2 1 0 100 0 (by decide) (by decide) (by decide!) (by decide!) (by decide!) (by decide!)
      (by decide!) (by decide!) (by decide!)⟩

/-- Claim C2 as stated fails on its own example: scaling the 2 by 2 grid
with base 0 and samples 0, 100, 200, 300 by 2 leaves 0, 200, 400, 600 at
`(0,0)`, `(2,0)`, `(0,2)`, `(2,2)` when fresh memory holds zeros, not 0, 100,
200, 300; and with the factor `2^30` the new width `2^31` is no `int`. -/
theorem scale_example_corners :
    (scale zeroEnv squareGrid 2).map
        (fun g => [g.height 0 0, g.height 2 0, g.height 0 2, g.height 2 2]) =
      .ok [0, 200, 400, 600] ∧
    scale zeroEnv squareGrid 1073741824 = .error .undefinedBehaviour := by
  decide!

/-- Claim C15, as amended: for a `w` by `d` grid and a factor `n >= 1` whose
new element count fits `int`, with `R` the reference value `referenceRow`
and every operation rounded to single precision:
`grid'(X, y*n + j) = (b + (R(X, y) - b)) + j*(((R(X, y+1) - b) - (R(X, y) - b))/n)`
for every `y + 1 < d` and `j < n`; `grid'(X, y*n) = R(X, y)` there when
`R(X, y)` and `R(X, y) - b` are not rounded and the increment is finite; and
the `n` samples derived from the last original column are equal when the
heights of that column above the base, times `n`, are finite. -/
theorem scale_reference (env : Indeterminate) (file : TerragenFile) (w d N : Nat)
    (hg : IsGrid file w d) (hN : 1 ≤ N)
    (hmax : ((d * N * (w * N) : Nat) : Int) ≤ INT_MAX) :
    ∃ g', scale env file (N : Int) = .ok g' ∧
      (∀ x i y j, x < w → i < N → y + 1 < d → j < N →
        g'.height (x * N + i) (y * N + j) =
          file.m_header_data.base_height
            + (referenceRow file N x i y - file.m_header_data.base_height)
            + (j : Flt32) *
              (((referenceRow file N x i (y + 1) - file.m_header_data.base_height)
                - (referenceRow file N x i y - file.m_header_data.base_height))
                / (N : Flt32))) ∧
      (∀ (x i y : Nat) (r b : ℚ), x < w → i < N → y + 1 < d →
        referenceRow file N x i y = Flt32.finite r →
        file.m_header_data.base_height = Flt32.finite b →
        Flt32.Representable r → Flt32.Representable (r - b) →
        (scaleIncrementY env file N (x * N + i) y).isFinite = true →
        g'.height (x * N + i) (y * N) = referenceRow file N x i y) ∧
      (∀ i y j, i < N → y + 1 < d → j < N →
        ((file.height (w - 1) y - file.m_header_data.base_height)
          * (N : Flt32)).isFinite = true →
        ((file.height (w - 1) (y + 1) - file.m_header_data.base_height)
          * (N : Flt32)).isFinite = true →
        g'.height ((w - 1) * N + i) (y * N + j) = g'.height ((w - 1) * N) (y * N + j)) := by
  obtain ⟨g', hrun, -, hcells⟩ := scale_height env file w d N hg hN hmax
  have hw := hg.width_pos
  have hNs := scale_factor_small w d N hg.width_pos hg.depth_pos hmax
  have hbelow : ∀ X y, y + 1 < d → scaleBelow env file N X y = scaleRow file N X (y + 1) := by
    intro X y hy
    unfold scaleBelow
    rw [hg.depth_eq, Int.toNat_ofNat, if_pos hy]
  have hcell : ∀ x i y j, x < w → i < N → y + 1 < d → j < N →
      g'.height (x * N + i) (y * N + j) =
        file.m_header_data.base_height
          + (referenceRow file N x i y - file.m_header_data.base_height)
          + (j : Flt32) *
            (((referenceRow file N x i (y + 1) - file.m_header_data.base_height)
              - (referenceRow file N x i y - file.m_header_data.base_height))
              / (N : Flt32)) := by
    intro x i y j hx hi hy hj
    rw [hcells y j (x * N + i) (by omega) hj (flat_index_lt N w x i hx hi)]
    unfold scaleCell
    rw [hbelow _ _ hy, scaleRow_reference file N x i y hi,
      scaleRow_reference file N x i (y + 1) hi]
  refine ⟨g', hrun, hcell, ?_, ?_⟩
  · intro x i y r b hx hi hy hr hb r1 r2 f
    have h := hcells y 0 (x * N + i) (by omega) (by omega) (flat_index_lt N w x i hx hi)
    simp only [Nat.add_zero] at h
    rw [h, hr]
    exact scaleCell_zero env file N (x * N + i) y r b
      (by rw [scaleRow_reference file N x i y hi]; exact hr) hb r2 r1 f
  · intro i y j hi hy hj f1 f2
    have h0 := hcell (w - 1) 0 y j (by omega) (by omega) hy hj
    simp only [Nat.add_zero] at h0
    rw [hcell (w - 1) i y j (by omega) hi hy hj, h0,
      referenceRow_last_column file w d N i y hg (by omega) hNs hi f1,
      referenceRow_last_column file w d N i (y + 1) hg (by omega) hNs hi f2]

theorem scale_reference_witness :
    IsGrid squareGrid 2 2 ∧ 1 ≤ 4 ∧ ((2 * 4 * (2 * 4) : Nat) : Int) ≤ INT_MAX ∧
    ∃ g', scale zeroEnv squareGrid ((4 : Nat) : Int) = .ok g' ∧
      g'.height (0 * 4 + 1) (0 * 4 + 2) =
          squareGrid.m_header_data.base_height
            + (referenceRow squareGrid 4 0 1 0 - squareGrid.m_header_data.base_height)
            + ((2 : Nat) : Flt32) *
              (((referenceRow squareGrid 4 0 1 (0 + 1) - squareGrid.m_header_data.base_height)
                - (referenceRow squareGrid 4 0 1 0 - squareGrid.m_header_data.base_height))
                / ((4 : Nat) : Flt32)) ∧
      g'.height (0 * 4 + 1) (0 * 4) = referenceRow squareGrid 4 0 1 0 ∧
      g'.height ((2 - 1) * 4 + 3) (0 * 4 + 2) = g'.height ((2 - 1) * 4) (0 * 4 + 2) := by
  obtain ⟨g', h1, h2, h3, h4⟩ :=
    scale_reference zeroEnv squareGrid 2 2 4 squareGrid_isGrid (by decide) (by decide)
  exact ⟨squareGrid_isGrid, by decide, by decide, g', h1,
    h2 0 1 0 2 (by decide) (by decide) (by decide) (by decide),
    h3 0 1 0 100 0 (by decide) (by decide) (by decide) (by decide!) (by decide!) (by decide!)
      (by decide!) (by decide!),
    h4 3 0 2 (by decide) (by decide) (by decide) (by decide!) (by decide!)⟩

/-- Claim C15 as stated fails: for the 2 by 1 grid and the factor `2^31 - 1`
the product `width * scale_factor` is no `int`, and no resampled grid
results. -/
theorem scale_reference_overflow :
    scale zeroEnv pairGrid 2147483647 = .error .undefinedBehaviour := by
  decide!
/-! ## The extremes `readTerragen` keeps -/

/-- Claim C14 fails in the code: the file for a 1 by 1 grid with scale word
256, base 0 and the raw sample -3 decodes to the single height `-3/256`, and
the header returned holds `min_height = -3/256` but `max_height = FLT_MIN`,
the least positive normal float the running maximum starts from (line 172),
not the maximum `-3/256` of the decoded heights. -/
theorem readTerragen_max_of_negative_heights :
    (readTerragen zeroEnv negativeStream).map
        (fun g => (g.m_height_data, g.m_header_data.min_height, g.m_header_data.max_height))
      = .ok ([-3 / 256], -3 / 256, FLT_MIN) ∧
    (-3 / 256 : Flt32) < FLT_MIN := by
  decide!

/-! ## What a successful run of the reader tells -/

theorem ckInt_ok_range (v a : Int) (h : ckInt v = .ok a) : INT_MIN ≤ v ∧ v ≤ INT_MAX := by
  unfold ckInt at h
  split at h
  · assumption
  · cases h

theorem run_read_inv (n : Nat) (s a rest : List Byte) (h : (IStream.read n).run s = .ok (a, rest)) :
    n ≤ s.length ∧ a = s.take n ∧ rest = s.drop n := by
  rw [IStream.run_read] at h
  split at h
  · cases h
  · simp only [Except.ok.injEq, Prod.mk.injEq] at h
    exact ⟨by omega, h.1.symm, h.2.symm⟩

theorem run_ignore_inv (n : Nat) (s rest : List Byte) (u : Unit)
    (h : (IStream.ignore n).run s = .ok (u, rest)) : n ≤ s.length ∧ rest = s.drop n := by
  rw [IStream.run_ignore] at h
  split at h
  · cases h
  · simp only [Except.ok.injEq, Prod.mk.injEq] at h
    exact ⟨by omega, h.2.symm⟩

theorem run_lift_inv {α : Type} (r : Except TerragenError α) (s : List Byte) (a : α)
    (rest : List Byte) (h : (IStream.lift r).run s = .ok (a, rest)) : r = .ok a ∧ rest = s := by
  cases r with
  | error e => cases h
  | ok b =>
    rw [IStream.run_lift_ok] at h
    simp only [Except.ok.injEq, Prod.mk.injEq] at h
    exact ⟨by rw [h.1], h.2.symm⟩

theorem run_pure_inv {α : Type} (a b : α) (s rest : List Byte)
    (h : (pure a : IStream α).run s = .ok (b, rest)) : b = a ∧ rest = s := by
  rw [IStream.run_pure] at h
  simp only [Except.ok.injEq, Prod.mk.injEq] at h
  exact ⟨h.1.symm, h.2.symm⟩

theorem readUint16_inv (s rest : List Byte) (v : Nat) (h : readUint16.run s = .ok (v, rest)) :
    v < 65536 ∧ 2 ≤ s.length ∧ rest = s.drop 2 := by
  unfold readUint16 at h
  obtain ⟨data, s', h1, h2⟩ := run_bind_ok _ _ _ _ _ h
  obtain ⟨hlen, -, hrest⟩ := run_read_inv _ _ _ _ h1
  obtain ⟨hv, hr⟩ := run_pure_inv _ _ _ _ h2
  refine ⟨?_, hlen, by rw [hr, hrest]⟩
  have b0 := (data.getD 0 0).isLt
  have b1 := (data.getD 1 0).isLt
  omega

/-- A chunk of one 16-bit word and two bytes of padding. -/
theorem run_uint16_chunk {β : Type} (f : Nat → β) (s rest : List Byte) (r : β)
    (h : (readUint16 >>= fun v => IStream.ignore 2 >>= fun _ => pure (f v)).run s
      = .ok (r, rest)) :
    4 ≤ s.length ∧ rest = s.drop 4 ∧ ∃ v, v < 65536 ∧ r = f v := by
  obtain ⟨v, s1, h1, h2⟩ := run_bind_ok _ _ _ _ _ h
  obtain ⟨u, s2, h3, h4⟩ := run_bind_ok _ _ _ _ _ h2
  obtain ⟨hv, hl1, hs1⟩ := readUint16_inv _ _ _ h1
  obtain ⟨hl2, hs2⟩ := run_ignore_inv _ _ _ _ h3
  obtain ⟨hr, hs3⟩ := run_pure_inv _ _ _ _ h4
  subst hs1
  rw [List.length_drop] at hl2
  refine ⟨by omega, ?_, v, hv, hr⟩
  rw [hs3, hs2, List.drop_drop]

theorem readFloat_drop (s : List Byte) (k : Nat) (h : 4 * k + 4 ≤ s.length) :
    readFloat.run (s.drop (4 * k)) = .ok (floatAt s k, s.drop (4 * (k + 1))) := by
  have hlen : ¬ (s.length - 4 * k < 4) := by omega
  have h0 : 4 * k < s.length := by omega
  have h1 : 4 * k + 1 < s.length := by omega
  have h2 : 4 * k + 2 < s.length := by omega
  have h3 : 4 * k + 3 < s.length := by omega
  simp [readFloat, IStream.run_read, hlen, floatAt, List.getD_eq_getElem?_getD,
    List.getElem?_take, List.getElem?_drop, h0, h1, h2, h3, Nat.mul_add]

theorem readFloat_inv (s rest : List Byte) (f : F32) (h : readFloat.run s = .ok (f, rest)) :
    4 ≤ s.length ∧ f = floatAt s 0 ∧ rest = s.drop 4 := by
  have hlen : 4 ≤ s.length := by
    unfold readFloat at h
    obtain ⟨data, s', h1, -⟩ := run_bind_ok _ _ _ _ _ h
    exact (run_read_inv _ _ _ _ h1).1
  have := readFloat_drop s 0 (by omega)
  simp only [Nat.mul_zero, List.drop_zero, Nat.zero_add, Nat.mul_one] at this
  rw [this] at h
  simp only [Except.ok.injEq, Prod.mk.injEq] at h
  exact ⟨hlen, h.1.symm, h.2.symm⟩

/-- Partial-correctness rule for a loop over a stream: a property of the
state that every completed iteration keeps is kept by the completed loop. -/
theorem forLoop_stream_preserve {σ : Type} (body : Nat → σ → IStream σ) (Q : σ → Prop)
    (hbody : ∀ i st s st' s', (body i st).run s = .ok (st', s') → Q st → Q st') :
    ∀ count start st s st' s', (forLoop body count start st).run s = .ok (st', s') →
      Q st → Q st' := by
  intro count
  induction count with
  | zero =>
    intro start st s st' s' h hq
    rw [forLoop_zero] at h
    obtain ⟨e, -⟩ := run_pure_inv _ _ _ _ h
    rw [e]; exact hq
  | succ k ih =>
    intro start st s st' s' h hq
    rw [forLoop_succ] at h
    obtain ⟨st1, s1, h1, h2⟩ := run_bind_ok _ _ _ _ _ h
    exact ih (start + 1) st1 s1 st' s' h2 (hbody start st s st1 s1 h1 hq)

theorem TerragenFile.set_header (f f' : TerragenFile) (x z : Int) (v : Flt32)
    (h : f.set x z v = .ok f') : f'.m_header_data = f.m_header_data := by
  unfold TerragenFile.set at h
  obtain ⟨i, -, h2⟩ := except_bind_ok _ _ _ h
  cases h2
  rfl

theorem readSample_header (y x : Nat) (st st' : AltwState) (s s' : List Byte)
    (h : (readSample y x st).run s = .ok (st', s')) :
    st'.ret.m_header_data = st.ret.m_header_data := by
  unfold readSample at h
  obtain ⟨raw, s1, -, h2⟩ := run_bind_ok _ _ _ _ _ h
  obtain ⟨ret, s2, h3, h4⟩ := run_bind_ok _ _ _ _ _ h2
  obtain ⟨hset, -⟩ := run_lift_inv _ _ _ _ h3
  obtain ⟨e, -⟩ := run_pure_inv _ _ _ _ h4
  rw [e]
  exact TerragenFile.set_header _ _ _ _ _ hset

theorem readAltwSamples_header (ret : TerragenFile) (st : AltwState) (s s' : List Byte)
    (h : (readAltwSamples ret).run s = .ok (st, s')) :
    st.ret.m_header_data = ret.m_header_data := by
  unfold readAltwSamples at h
  refine forLoop_stream_preserve _ (fun st => st.ret.m_header_data = ret.m_header_data)
    (fun y st1 s1 st2 s2 hy hq => ?_) _ _ _ _ _ _ h rfl
  exact forLoop_stream_preserve _ (fun st => st.ret.m_header_data = ret.m_header_data)
    (fun x st3 s3 st4 s4 hx hq3 => by
      show st4.ret.m_header_data = ret.m_header_data
      rw [readSample_header y x st3 st4 s3 s4 hx]; exact hq3) _ _ _ _ _ _ hy hq

theorem readAltwPadding_inv (ret a : TerragenFile) (s rest : List Byte)
    (h : (readAltwPadding ret).run s = .ok (a, rest)) :
    ret.m_header_data.depth * ret.m_header_data.width ≤ INT_MAX := by
  unfold readAltwPadding at h
  obtain ⟨p, s1, h1, -⟩ := run_bind_ok _ _ _ _ _ h
  obtain ⟨hck, -⟩ := run_lift_inv _ _ _ _ h1
  exact (ckInt_ok_range _ _ hck).2

/-- The `ALTW` branch, read backwards: when it completes, the dimensions are
positive, their product is an `int`, the stream held the two header words,
all the samples and the padding, and the grid returned is `decodeAltw`. -/
theorem readAltw_inv (env : Indeterminate) (ret a : TerragenFile) (s rest : List Byte)
    (h : (readAltw env ret).run s = .ok (a, rest)) :
    ∃ W D : Nat, ret.m_header_data.width = (W : Int) ∧ ret.m_header_data.depth = (D : Int) ∧
      0 < W ∧ 0 < D ∧ ((D * W : Nat) : Int) ≤ INT_MAX ∧
      4 + 2 * (D * W) + altwPadding (D * W) ≤ s.length ∧
      a = decodeAltw ret s ∧ rest = s.drop (4 + 2 * (D * W) + altwPadding (D * W)) := by
  by_cases hcond : ret.m_header_data.width ≤ 0 ∨ ret.m_header_data.depth ≤ 0
  · unfold readAltw at h
    rw [if_pos hcond] at h
    cases h
  have hw : ret.m_header_data.width = (ret.m_header_data.width.toNat : Int) := by omega
  have hd : ret.m_header_data.depth = (ret.m_header_data.depth.toNat : Int) := by omega
  have hW : 0 < ret.m_header_data.width.toNat := by omega
  have hD : 0 < ret.m_header_data.depth.toNat := by omega
  have hmax : ((ret.m_header_data.depth.toNat * ret.m_header_data.width.toNat : Nat) : Int)
      ≤ INT_MAX := by
    have h' := h
    unfold readAltw at h'
    rw [if_neg hcond] at h'
    obtain ⟨hs, s1, -, h1⟩ := run_bind_ok _ _ _ _ _ h'
    obtain ⟨bh, s2, -, h2⟩ := run_bind_ok _ _ _ _ _ h1
    obtain ⟨st, s3, h3, h4⟩ := run_bind_ok _ _ _ _ _ h2
    have hhdr := readAltwSamples_header _ _ _ _ h3
    have hp := readAltwPadding_inv _ _ _ _ h4
    have e : (altwEnd st).m_header_data.depth * (altwEnd st).m_header_data.width
        = ret.m_header_data.depth * ret.m_header_data.width := by
      simp only [altwEnd, hhdr, altwBegin]
    rw [e] at hp
    rw [Nat.cast_mul, ← hw, ← hd]
    exact hp
  generalize hWn : ret.m_header_data.width.toNat = W at hw hW hmax
  generalize hDn : ret.m_header_data.depth.toNat = D at hd hD hmax
  have hlen : 4 + 2 * (D * W) + altwPadding (D * W) ≤ s.length := by
    obtain ⟨c, hc, hall, -⟩ := sequential_readAltw env ret s a rest h
    have ht := hall (List.replicate (4 + 2 * (D * W) + altwPadding (D * W)) 0)
    rw [readAltw_ok env ret W D _ hw hd hW hD hmax (by simp)] at ht
    simp only [Except.ok.injEq, Prod.mk.injEq] at ht
    have hl := congrArg List.length ht.2
    simp only [List.length_drop, List.length_append, List.length_replicate] at hl
    have hs := congrArg List.length hc
    simp only [List.length_append] at hs
    omega
  have hok := readAltw_ok env ret W D s hw hd hW hD hmax hlen
  rw [hok] at h
  simp only [Except.ok.injEq, Prod.mk.injEq] at h
  exact ⟨W, D, hw, hd, hW, hD, hmax, hlen, h.1.symm, h.2.symm⟩

theorem floatAt_drop (s : List Byte) (j k : Nat) :
    floatAt (s.drop (4 * j)) k = floatAt s (k + j) := by
  simp [floatAt, List.getD_eq_getElem?_getD, List.getElem?_drop, Nat.mul_add, Nat.add_comm,
    Nat.add_left_comm]

/-- One iteration of the chunk loop, read backwards: when it completes, the
marker read is one of the eight known, and the grid, the flag and the unread
bytes are those of its branch. -/
theorem readChunk_inv (env : Indeterminate) (ret ret' : TerragenFile) (b : Bool)
    (s rest : List Byte) (h : (readChunk env ret).run s = .ok ((b, ret'), rest)) :
    4 ≤ s.length ∧
    ((s.take 4 = Markers.XPTS ∧ b = false ∧ 8 ≤ s.length ∧ rest = s.drop 8 ∧
        ∃ v : Nat, v < 65536 ∧
          ret' = { ret with m_header_data := { ret.m_header_data with width := (v : Int) } }) ∨
     (s.take 4 = Markers.YPTS ∧ b = false ∧ 8 ≤ s.length ∧ rest = s.drop 8 ∧
        ∃ v : Nat, v < 65536 ∧
          ret' = { ret with m_header_data := { ret.m_header_data with depth := (v : Int) } }) ∨
     (s.take 4 = Markers.SIZE ∧ b = false ∧ 8 ≤ s.length ∧ rest = s.drop 8 ∧
        ∃ v : Nat, v < 65536 ∧
          ret' = { ret with m_header_data :=
            { ret.m_header_data with width := (v : Int) + 1, depth := (v : Int) + 1 } }) ∨
     (s.take 4 = Markers.SCAL ∧ b = false ∧ 16 ≤ s.length ∧ rest = s.drop 16 ∧
        F32.ne (floatAt (s.drop 4) 1) (floatAt (s.drop 4) 0) = false ∧
        F32.ne (floatAt (s.drop 4) 2) (floatAt (s.drop 4) 0) = false ∧
        F32.leZero (floatAt (s.drop 4) 0) = false ∧
        ret' = { ret with m_header_data :=
          { ret.m_header_data with scale := floatAt (s.drop 4) 0 } }) ∨
     (s.take 4 = Markers.CRAD ∧ b = false ∧ 8 ≤ s.length ∧ rest = s.drop 8 ∧
        ret' = { ret with m_header_data :=
          { ret.m_header_data with planet_radius := floatAt (s.drop 4) 0 } }) ∨
     (s.take 4 = Markers.CRVM ∧ b = false ∧ 8 ≤ s.length ∧ rest = s.drop 8 ∧
        ∃ v : Nat, v < 65536 ∧
          ret' = { ret with m_header_data := { ret.m_header_data with mode := (v : Int) } }) ∨
     (s.take 4 = Markers.ALTW ∧ b = false ∧
        ∃ W D : Nat, ret.m_header_data.width = (W : Int) ∧ ret.m_header_data.depth = (D : Int) ∧
          0 < W ∧ 0 < D ∧ ((D * W : Nat) : Int) ≤ INT_MAX ∧
          8 + 2 * (D * W) + altwPadding (D * W) ≤ s.length ∧
          ret' = decodeAltw ret (s.drop 4) ∧
          rest = s.drop (8 + 2 * (D * W) + altwPadding (D * W))) ∨
     (s.take 4 = Markers.EOF_ ∧ b = true ∧ ret' = ret ∧ rest = s.drop 4)) := by
  unfold readChunk at h
  obtain ⟨marker, s1, h1, h2⟩ := run_bind_ok _ _ _ _ _ h
  obtain ⟨hlen, hm, hs1⟩ := run_read_inv _ _ _ _ h1
  subst hs1
  subst hm
  refine ⟨hlen, ?_⟩
  unfold readChunkBody at h2
  split at h2
  · rename_i hmk
    obtain ⟨hl, hr, v, hv, he⟩ := run_uint16_chunk _ _ _ _ h2
    simp only [Prod.mk.injEq] at he
    rw [List.length_drop] at hl
    rw [List.drop_drop] at hr
    exact Or.inl ⟨hmk, he.1, by omega, hr, v, hv, he.2⟩
  split at h2
  · rename_i hmk
    obtain ⟨hl, hr, v, hv, he⟩ := run_uint16_chunk _ _ _ _ h2
    simp only [Prod.mk.injEq] at he
    rw [List.length_drop] at hl
    rw [List.drop_drop] at hr
    exact Or.inr (Or.inl ⟨hmk, he.1, by omega, hr, v, hv, he.2⟩)
  split at h2
  · rename_i hmk
    obtain ⟨hl, hr, v, hv, he⟩ := run_uint16_chunk _ _ _ _ h2
    simp only [Prod.mk.injEq] at he
    rw [List.length_drop] at hl
    rw [List.drop_drop] at hr
    exact Or.inr (Or.inr (Or.inl ⟨hmk, he.1, by omega, hr, v, hv, he.2⟩))
  split at h2
  · rename_i hmk
    obtain ⟨x, s2, hx, h3⟩ := run_bind_ok _ _ _ _ _ h2
    obtain ⟨y, s3, hy, h4⟩ := run_bind_ok _ _ _ _ _ h3
    obtain ⟨z, s4, hz, h5⟩ := run_bind_ok _ _ _ _ _ h4
    obtain ⟨lx, ex, rx⟩ := readFloat_inv _ _ _ hx
    subst rx
    obtain ⟨ly, ey, ry⟩ := readFloat_inv _ _ _ hy
    subst ry
    obtain ⟨lz, ez, rz⟩ := readFloat_inv _ _ _ hz
    subst rz
    have ey' : y = floatAt (s.drop 4) 1 := by
      rw [ey]
      exact floatAt_drop (s.drop 4) 1 0
    have ez' : z = floatAt (s.drop 4) 2 := by
      rw [ez, List.drop_drop]
      exact floatAt_drop (s.drop 4) 2 0
    simp only [List.length_drop] at lx ly lz
    split at h5
    · cases h5
    rename_i hne
    split at h5
    · cases h5
    rename_i hle
    obtain ⟨he, hr⟩ := run_pure_inv _ _ _ _ h5
    simp only [Prod.mk.injEq] at he
    simp only [Bool.or_eq_true, not_or, Bool.not_eq_true] at hne
    simp only [Bool.not_eq_true] at hle
    refine Or.inr (Or.inr (Or.inr (Or.inl ⟨hmk, he.1, by omega, ?_, ?_, ?_, ?_, ?_⟩)))
    · rw [hr]
      simp only [List.drop_drop]
    · rw [← ey', ← ex]; exact hne.1
    · rw [← ez', ← ex]; exact hne.2
    · rw [← ex]; exact hle
    · rw [← ex]; exact he.2
  split at h2
  · rename_i hmk
    obtain ⟨r, s2, hx, h3⟩ := run_bind_ok _ _ _ _ _ h2
    obtain ⟨lx, ex, rx⟩ := readFloat_inv _ _ _ hx
    obtain ⟨he, hr⟩ := run_pure_inv _ _ _ _ h3
    simp only [Prod.mk.injEq] at he
    simp only [List.length_drop] at lx
    refine Or.inr (Or.inr (Or.inr (Or.inr (Or.inl ⟨hmk, he.1, by omega, ?_, ?_⟩))))
    · rw [hr, rx, List.drop_drop]
    · rw [← ex]; exact he.2
  split at h2
  · rename_i hmk
    obtain ⟨hl, hr, v, hv, he⟩ := run_uint16_chunk _ _ _ _ h2
    simp only [Prod.mk.injEq] at he
    rw [List.length_drop] at hl
    rw [List.drop_drop] at hr
    exact Or.inr (Or.inr (Or.inr (Or.inr (Or.inr (Or.inl
      ⟨hmk, he.1, by omega, hr, v, hv, he.2⟩)))))
  split at h2
  · rename_i hmk
    obtain ⟨r, s2, ha, h3⟩ := run_bind_ok _ _ _ _ _ h2
    obtain ⟨he, hr⟩ := run_pure_inv _ _ _ _ h3
    simp only [Prod.mk.injEq] at he
    obtain ⟨W, D, hw, hd, hW, hD, hmax, hl, hres, hrest⟩ := readAltw_inv _ _ _ _ _ ha
    rw [List.length_drop] at hl
    refine Or.inr (Or.inr (Or.inr (Or.inr (Or.inr (Or.inr (Or.inl
      ⟨hmk, he.1, W, D, hw, hd, hW, hD, hmax, by omega, ?_, ?_⟩))))))
    · rw [he.2, hres]
    · rw [hr, hrest, List.drop_drop]
      congr 1
      omega
  split at h2
  · rename_i hmk
    obtain ⟨he, hr⟩ := run_pure_inv _ _ _ _ h2
    simp only [Prod.mk.injEq] at he
    exact Or.inr (Or.inr (Or.inr (Or.inr (Or.inr (Or.inr (Or.inr ⟨hmk, he.1, he.2, hr⟩))))))
  · cases h2

/-! ## What the chunk loop keeps true -/

theorem F32.pos_of_checks (a b : F32) (hne : F32.ne b a = false) (hle : a.leZero = false) :
    a.pos = true := by
  simp only [F32.ne, Bool.or_eq_false_iff] at hne
  simp only [F32.leZero, hne.1.2, Bool.not_false, Bool.true_and, Bool.or_eq_false_iff] at hle
  simp [F32.pos, hne.1.2, hle.1, hle.2]

theorem decoded_ctor (env : Indeterminate) (input : List Byte) :
    Decoded input (TerragenFile.ctor env) :=
  ⟨(by decide : F32.thirty.pos = true), (by decide : (0 : Int) ≤ 0),
    (by decide : (0 : Int) < 65536), Or.inl rfl⟩

theorem decodeAltw_fromPayload (ret : TerragenFile) (s : List Byte) (W D : Nat)
    (hw : ret.m_header_data.width = (W : Int)) (hd : ret.m_header_data.depth = (D : Int)) :
    FromPayload s (D * W) (decodeAltw ret s) := by
  constructor <;> simp only [decodeAltw, hw, hd, Int.toNat_ofNat] <;> rfl

/-- A change of header fields other than the four height fields keeps what
is known of the block. -/
theorem Decoded.of_header (input : List Byte) (g g' : TerragenFile) (h : Decoded input g)
    (hpos : g'.m_header_data.scale.pos = true)
    (hm0 : 0 ≤ g'.m_header_data.mode) (hm1 : g'.m_header_data.mode < 65536)
    (hw : 0 ≤ g.m_header_data.width → 0 ≤ g'.m_header_data.width)
    (hd : 0 ≤ g.m_header_data.depth → 0 ≤ g'.m_header_data.depth)
    (hdata : g'.m_height_data = g.m_height_data)
    (hs : g'.m_header_data.height_scale = g.m_header_data.height_scale)
    (hb : g'.m_header_data.base_height = g.m_header_data.base_height)
    (hmin : g'.m_header_data.min_height = g.m_header_data.min_height)
    (hmax : g'.m_header_data.max_height = g.m_header_data.max_height) :
    Decoded input g' := by
  refine ⟨hpos, hm0, hm1, ?_⟩
  rcases h.block with hnil | ⟨hw0, hd0, p, W, D, hW, hD, hle, hmk, hlen, fp⟩
  · exact Or.inl (by rw [hdata, hnil])
  · refine Or.inr ⟨hw hw0, hd hd0, p, W, D, hW, hD, hle, hmk, hlen, ?_⟩
    exact ⟨by rw [hs]; exact fp.height_scale_eq, by rw [hb]; exact fp.base_height_eq,
      by rw [hmin]; exact fp.min_eq, by rw [hmax]; exact fp.max_eq,
      by rw [hdata]; exact fp.data_eq⟩

/-- One iteration of the chunk loop keeps the invariant, and leaves a tail
of the input unread. -/
theorem readChunk_decoded (env : Indeterminate) (input : List Byte) (q : Nat)
    (ret ret' : TerragenFile) (b : Bool) (rest : List Byte) (hinv : Decoded input ret)
    (h : (readChunk env ret).run (input.drop q) = .ok ((b, ret'), rest)) :
    Decoded input ret' ∧ ∃ q', rest = input.drop q' := by
  obtain ⟨hlen, hcases⟩ := readChunk_inv env ret ret' b _ rest h
  rcases hcases with ⟨-, -, -, hr, v, hv, he⟩ | ⟨-, -, -, hr, v, hv, he⟩ |
    ⟨-, -, -, hr, v, hv, he⟩ | ⟨-, -, -, hr, hn1, -, hle, he⟩ | ⟨-, -, -, hr, he⟩ |
    ⟨-, -, -, hr, v, hv, he⟩ | ⟨hmk, -, W, D, hw, hd, hW, hD, hmax, hl, he, hr⟩ |
    ⟨-, -, he, hr⟩
  · refine ⟨?_, _, by rw [hr, List.drop_drop]⟩
    subst he
    exact hinv.of_header input _ _ hinv.scale_pos hinv.mode_lo hinv.mode_hi
      (fun _ => Int.natCast_nonneg v) id rfl rfl rfl rfl rfl
  · refine ⟨?_, _, by rw [hr, List.drop_drop]⟩
    subst he
    exact hinv.of_header input _ _ hinv.scale_pos hinv.mode_lo hinv.mode_hi
      id (fun _ => Int.natCast_nonneg v) rfl rfl rfl rfl rfl
  · refine ⟨?_, _, by rw [hr, List.drop_drop]⟩
    subst he
    have hv1 : (0 : Int) ≤ (v : Int) + 1 := by omega
    exact hinv.of_header input _ _ hinv.scale_pos hinv.mode_lo hinv.mode_hi
      (fun _ => hv1) (fun _ => hv1) rfl rfl rfl rfl rfl
  · refine ⟨?_, _, by rw [hr, List.drop_drop]⟩
    subst he
    exact hinv.of_header input _ _ (F32.pos_of_checks _ _ hn1 hle) hinv.mode_lo hinv.mode_hi
      id id rfl rfl rfl rfl rfl
  · refine ⟨?_, _, by rw [hr, List.drop_drop]⟩
    subst he
    exact hinv.of_header input _ _ hinv.scale_pos hinv.mode_lo hinv.mode_hi
      id id rfl rfl rfl rfl rfl
  · refine ⟨?_, _, by rw [hr, List.drop_drop]⟩
    subst he
    have hv1 : ((v : Nat) : Int) < 65536 := by omega
    exact hinv.of_header input _ _ hinv.scale_pos (Int.natCast_nonneg v) hv1
      id id rfl rfl rfl rfl rfl
  · refine ⟨?_, _, by rw [hr, List.drop_drop]⟩
    subst he
    rw [List.length_drop] at hl
    have e : List.drop 4 (List.drop q input) = List.drop (q + 4) input := by
      rw [List.drop_drop, Nat.add_comm]
    rw [e]
    have hfp := decodeAltw_fromPayload ret (List.drop (q + 4) input) W D hw hd
    refine ⟨hinv.scale_pos, hinv.mode_lo, hinv.mode_hi, Or.inr ⟨?_, ?_, q, W, D, hW, hD, hmax,
      hmk, by omega, hfp⟩⟩
    · show 0 ≤ ret.m_header_data.width
      omega
    · show 0 ≤ ret.m_header_data.depth
      omega
  · refine ⟨?_, _, by rw [hr, List.drop_drop]⟩
    rw [he]
    exact hinv

/-- The chunk loop keeps the invariant. -/
theorem readChunks_decoded (env : Indeterminate) (input : List Byte) :
    ∀ fuel ret q g rest, Decoded input ret →
      (readChunks env fuel ret).run (input.drop q) = .ok (g, rest) → Decoded input g := by
  intro fuel
  induction fuel with
  | zero =>
    intro ret q g rest _ h
    cases h
  | succ n ih =>
    intro ret q g rest hinv h
    unfold readChunks at h
    obtain ⟨r, s1, h1, h2⟩ := run_bind_ok _ _ _ _ _ h
    obtain ⟨b, ret'⟩ := r
    obtain ⟨hdec, q', hq'⟩ := readChunk_decoded env input q ret ret' b s1 hinv h1
    cases b with
    | true =>
      obtain ⟨e, -⟩ := run_pure_inv _ _ _ _ h2
      rw [e]
      exact hdec
    | false =>
      rw [hq'] at h2
      exact ih ret' q' g rest hdec h2

theorem readTerragenRest_inv (env : Indeterminate) (input : List Byte) (g : TerragenFile)
    (rest : List Byte) (h : readTerragenRest env input = .ok (g, rest)) :
    16 ≤ input.length ∧ input.take 16 = Markers.SIGNATURE ∧
      (readChunks env input.length (TerragenFile.ctor env)).run (input.drop 16)
        = .ok (g, rest) := by
  unfold readTerragenRest readTerragenStream at h
  obtain ⟨sig, s1, h1, h2⟩ := run_bind_ok _ _ _ _ _ h
  obtain ⟨hlen, hsig, hs1⟩ := run_read_inv _ _ _ _ h1
  subst hs1
  subst hsig
  split at h2
  · cases h2
  · rename_i hne
    exact ⟨hlen, not_not.mp hne, h2⟩

theorem readTerragen_inv (env : Indeterminate) (input : List Byte) (g : TerragenFile)
    (h : readTerragen env input = .ok g) : ∃ rest, readTerragenRest env input = .ok (g, rest) := by
  unfold readTerragen at h
  split at h
  · rename_i ret rest heq
    cases h
    exact ⟨rest, heq⟩
  · cases h

/-- Every grid `readTerragen` returns satisfies the invariant of the chunk
loop. -/
theorem readTerragen_decoded (env : Indeterminate) (input : List Byte) (g : TerragenFile)
    (h : readTerragen env input = .ok g) : Decoded input g := by
  obtain ⟨rest, hr⟩ := readTerragen_inv env input g h
  obtain ⟨-, -, hloop⟩ := readTerragenRest_inv env input g rest hr
  exact readChunks_decoded env input _ _ 16 g rest (decoded_ctor env input) hloop
/-! ## The `SCAL` chunks along the chunk loop -/

theorem chunkLoopAfter_succ (env : Indeterminate) (k : Nat) (ret ret1 : TerragenFile)
    (s s1 : List Byte) (h : (readChunk env ret).run s = .ok ((false, ret1), s1)) :
    chunkLoopAfter env (k + 1) ret s = chunkLoopAfter env k ret1 s1 := by
  simp only [chunkLoopAfter, h]

theorem chunkLoopAfter_stop (env : Indeterminate) (k : Nat) (ret ret1 : TerragenFile)
    (s s1 : List Byte) (h : (readChunk env ret).run s = .ok ((true, ret1), s1)) :
    chunkLoopAfter env (k + 1) ret s = none := by
  simp only [chunkLoopAfter, h]

/-- The chunk loop started in a state it reaches later has the same outcome. -/
theorem chunkLoopAfter_run (env : Indeterminate) :
    ∀ k ret s ret' s', chunkLoopAfter env k ret s = some (ret', s') →
      s'.length ≤ s.length ∧
      ∀ fuel, s.length ≤ fuel →
        (readChunks env fuel ret).run s = (readChunks env fuel ret').run s' := by
  intro k
  induction k with
  | zero =>
    intro ret s ret' s' h
    simp only [chunkLoopAfter, Option.some.injEq, Prod.mk.injEq] at h
    obtain ⟨rfl, rfl⟩ := h
    exact ⟨le_refl _, fun _ _ => rfl⟩
  | succ n ih =>
    intro ret s ret' s' h
    cases hr : (readChunk env ret).run s with
    | error e => simp only [chunkLoopAfter, hr] at h; cases h
    | ok p =>
      obtain ⟨⟨b, ret1⟩, s1⟩ := p
      cases b with
      | true => rw [chunkLoopAfter_stop env n ret ret1 s s1 hr] at h; cases h
      | false =>
        rw [chunkLoopAfter_succ env n ret ret1 s s1 hr] at h
        obtain ⟨hlen, hrun⟩ := ih ret1 s1 ret' s' h
        have hc := readChunk_consumes env ret s _ s1 hr
        refine ⟨by omega, ?_⟩
        intro fuel hfuel
        obtain ⟨f, rfl⟩ : ∃ f, fuel = f + 1 := ⟨fuel - 1, by omega⟩
        rw [readChunks_step env f ret ret1 s s1 hr, hrun f (by omega)]
        exact readChunks_fuel env f (f + 1) ret' s' (by omega) (by omega)

theorem readChunks_error (env : Indeterminate) (fuel : Nat) (ret : TerragenFile)
    (s : List Byte) (e : TerragenError) (h : (readChunk env ret).run s = .error e) :
    (readChunks env (fuel + 1) ret).run s = .error e := by
  simp only [readChunks, IStream.run_bind, h]

theorem readTerragenRest_eq (env : Indeterminate) (input : List Byte)
    (hlen : 16 ≤ input.length) (hsig : input.take 16 = Markers.SIGNATURE) :
    readTerragenRest env input =
      (readChunks env input.length (TerragenFile.ctor env)).run (input.drop 16) := by
  have hl : ¬ input.length < 16 := by omega
  simp only [readTerragenRest, readTerragenStream, IStream.run_bind, IStream.run_read, hl,
    if_false, hsig, ne_eq, not_true_eq_false]

theorem readTerragen_error (env : Indeterminate) (input : List Byte) (e : TerragenError)
    (h : readTerragenRest env input = .error e) : readTerragen env input = .error e := by
  simp only [readTerragen, h]

theorem F32.leZero_of_unequal (x y : F32) (hxy : y ≠ x) (hne : F32.ne y x = false) :
    x.leZero = true := by
  simp only [F32.ne, Bool.or_eq_false_iff, Bool.not_eq_false', Bool.or_eq_true,
    decide_eq_true_eq, Bool.and_eq_true] at hne
  obtain ⟨⟨-, hx⟩, h⟩ := hne
  rcases h with h | h
  · exact absurd h hxy
  · simp [F32.leZero, hx, h.2]

/-- A `SCAL` chunk whose components differ, or whose value is not positive,
makes the iteration raise. -/
theorem readChunk_SCAL_bad (env : Indeterminate) (ret : TerragenFile) (s : List Byte)
    (hmk : s.take 4 = Markers.SCAL) (hlen : 16 ≤ s.length)
    (hbad : floatAt (s.drop 4) 1 ≠ floatAt (s.drop 4) 0 ∨
      floatAt (s.drop 4) 2 ≠ floatAt (s.drop 4) 0 ∨
      F32.ne (floatAt (s.drop 4) 1) (floatAt (s.drop 4) 0) = true ∨
      F32.ne (floatAt (s.drop 4) 2) (floatAt (s.drop 4) 0) = true ∨
      F32.leZero (floatAt (s.drop 4) 0) = true) :
    (readChunk env ret).run s =
      .error (if F32.ne (floatAt (s.drop 4) 1) (floatAt (s.drop 4) 0) = true ∨
          F32.ne (floatAt (s.drop 4) 2) (floatAt (s.drop 4) 0) = true
        then .scalNotEqual else .scalNegative) := by
  have hs : s = Markers.SCAL ++ s.drop 4 := by
    rw [← hmk]; exact (List.take_append_drop 4 s).symm
  have hl : 12 ≤ (s.drop 4).length := by rw [List.length_drop]; omega
  generalize s.drop 4 = t at hs hl hbad ⊢
  have hf0 : readFloat.run t = .ok (floatAt t 0, t.drop 4) := by
    simpa using readFloat_drop t 0 (by omega)
  have hf1 : readFloat.run (t.drop 4) = .ok (floatAt t 1, t.drop 8) := by
    simpa using readFloat_drop t 1 (by omega)
  have hf2 : readFloat.run (t.drop 8) = .ok (floatAt t 2, t.drop 12) := by
    simpa using readFloat_drop t 2 (by omega)
  rw [hs, readChunk_marker env ret Markers.SCAL _ (by decide)]
  unfold readChunkBody
  rw [if_neg (by decide), if_neg (by decide), if_neg (by decide), if_pos rfl]
  simp only [IStream.run_bind, hf0, hf1, hf2]
  by_cases hne : F32.ne (floatAt t 1) (floatAt t 0) = true ∨
      F32.ne (floatAt t 2) (floatAt t 0) = true
  · have hor : (F32.ne (floatAt t 1) (floatAt t 0) || F32.ne (floatAt t 2) (floatAt t 0))
        = true := by
      simpa using hne
    rw [if_pos hor, if_pos hne]
    rfl
  · have hor : ¬ (F32.ne (floatAt t 1) (floatAt t 0) || F32.ne (floatAt t 2) (floatAt t 0))
        = true := by
      simpa using hne
    have hn1 : F32.ne (floatAt t 1) (floatAt t 0) = false := by
      simpa using fun h => hne (Or.inl h)
    have hn2 : F32.ne (floatAt t 2) (floatAt t 0) = false := by
      simpa using fun h => hne (Or.inr h)
    have hle : F32.leZero (floatAt t 0) = true := by
      rcases hbad with h | h | h | h | h
      · exact F32.leZero_of_unequal _ _ h hn1
      · exact F32.leZero_of_unequal _ _ h hn2
      · rw [hn1] at h; cases h
      · rw [hn2] at h; cases h
      · exact h
    rw [if_neg hor, if_pos hle, if_neg hne]
    rfl

/-- The effect of one completed iteration on `scale`: a `SCAL` chunk with
equal, positive components stores their value, every other chunk keeps the
field. -/
theorem readChunk_scale (env : Indeterminate) (ret ret' : TerragenFile) (b : Bool)
    (s rest : List Byte) (h : (readChunk env ret).run s = .ok ((b, ret'), rest)) :
    (s.take 4 = Markers.SCAL ∧ b = false ∧
      ret'.m_header_data.scale = floatAt (s.drop 4) 0 ∧
      F32.ne (floatAt (s.drop 4) 1) (floatAt (s.drop 4) 0) = false ∧
      F32.ne (floatAt (s.drop 4) 2) (floatAt (s.drop 4) 0) = false) ∨
    (s.take 4 ≠ Markers.SCAL ∧ ret'.m_header_data.scale = ret.m_header_data.scale) := by
  obtain ⟨-, hcases⟩ := readChunk_inv env ret ret' b s rest h
  rcases hcases with ⟨hmk, -, -, -, v, -, he⟩ | ⟨hmk, -, -, -, v, -, he⟩ |
    ⟨hmk, -, -, -, v, -, he⟩ | ⟨hmk, hb, -, -, hn1, hn2, -, he⟩ | ⟨hmk, -, -, -, he⟩ |
    ⟨hmk, -, -, -, v, -, he⟩ | ⟨hmk, -, W, D, -, -, -, -, -, -, he, -⟩ |
    ⟨hmk, -, he, -⟩
  · exact Or.inr ⟨by rw [hmk]; decide, by rw [he]⟩
  · exact Or.inr ⟨by rw [hmk]; decide, by rw [he]⟩
  · exact Or.inr ⟨by rw [hmk]; decide, by rw [he]⟩
  · exact Or.inl ⟨hmk, hb, by rw [he], hn1, hn2⟩
  · exact Or.inr ⟨by rw [hmk]; decide, by rw [he]⟩
  · exact Or.inr ⟨by rw [hmk]; decide, by rw [he]⟩
  · exact Or.inr ⟨by rw [hmk]; decide, by rw [he]; rfl⟩
  · exact Or.inr ⟨by rw [hmk]; decide, by rw [he]⟩

/-- Where the `scale` of the grid the chunk loop returns comes from: the
field it started with when no iteration met a `SCAL` chunk, else the value of
the last `SCAL` chunk met, whose components are equal. -/
theorem readChunks_scale (env : Indeterminate) :
    ∀ fuel ret s g rest, (readChunks env fuel ret).run s = .ok (g, rest) →
      (g.m_header_data.scale = ret.m_header_data.scale ∧
        ∀ k ret' s', chunkLoopAfter env k ret s = some (ret', s') →
          s'.take 4 ≠ Markers.SCAL) ∨
      (∃ k ret' s', chunkLoopAfter env k ret s = some (ret', s') ∧
        s'.take 4 = Markers.SCAL ∧
        g.m_header_data.scale = floatAt (s'.drop 4) 0 ∧
        F32.ne (floatAt (s'.drop 4) 1) (floatAt (s'.drop 4) 0) = false ∧
        F32.ne (floatAt (s'.drop 4) 2) (floatAt (s'.drop 4) 0) = false ∧
        ∀ k' ret'' s'', k < k' → chunkLoopAfter env k' ret s = some (ret'', s'') →
          s''.take 4 ≠ Markers.SCAL) := by
  intro fuel
  induction fuel with
  | zero =>
    intro ret s g rest h
    cases h
  | succ n ih =>
    intro ret s g rest h
    unfold readChunks at h
    obtain ⟨r, s1, h1, h2⟩ := run_bind_ok _ _ _ _ _ h
    obtain ⟨b, ret1⟩ := r
    have hsc := readChunk_scale env ret ret1 b s s1 h1
    cases b with
    | true =>
      obtain ⟨e, -⟩ := run_pure_inv _ _ _ _ h2
      rcases hsc with ⟨-, hb, -⟩ | ⟨hmk, hscale⟩
      · cases hb
      · refine Or.inl ⟨by rw [e]; exact hscale, ?_⟩
        intro k ret' s' hk
        cases k with
        | zero =>
          simp only [chunkLoopAfter, Option.some.injEq, Prod.mk.injEq] at hk
          rw [← hk.2]; exact hmk
        | succ j => rw [chunkLoopAfter_stop env j ret ret1 s s1 h1] at hk; cases hk
    | false =>
      have hstep : ∀ j, chunkLoopAfter env (j + 1) ret s = chunkLoopAfter env j ret1 s1 :=
        fun j => chunkLoopAfter_succ env j ret ret1 s s1 h1
      rcases ih ret1 s1 g rest h2 with ⟨hg, hno⟩ | ⟨k, ret', s', hk, hmk', hg, hn1, hn2, hlast⟩
      · rcases hsc with ⟨hmk, -, hscale, hn1, hn2⟩ | ⟨hmk, hscale⟩
        · refine Or.inr ⟨0, ret, s, rfl, hmk, by rw [hg, hscale], hn1, hn2, ?_⟩
          intro k' ret'' s'' hlt hk'
          obtain ⟨j, rfl⟩ : ∃ j, k' = j + 1 := ⟨k' - 1, by omega⟩
          rw [hstep j] at hk'
          exact hno j ret'' s'' hk'
        · refine Or.inl ⟨by rw [hg, hscale], ?_⟩
          intro k ret' s' hk
          cases k with
          | zero =>
            simp only [chunkLoopAfter, Option.some.injEq, Prod.mk.injEq] at hk
            rw [← hk.2]; exact hmk
          | succ j =>
            rw [hstep j] at hk
            exact hno j ret' s' hk
      · refine Or.inr ⟨k + 1, ret', s', by rw [hstep k]; exact hk, hmk', hg, hn1, hn2, ?_⟩
        intro k' ret'' s'' hlt hk'
        obtain ⟨j, rfl⟩ : ∃ j, k' = j + 1 := ⟨k' - 1, by omega⟩
        rw [hstep j] at hk'
        exact hlast j ret'' s'' (by omega) hk'
/-! ## The grid `readTerragen` returns -/

/-- Claim C12: when the chunk loop of `readTerragen` reaches a `SCAL` chunk
whose three components are not all equal, or whose value is not positive,
`readTerragen` raises the exception of that check; and every grid
`readTerragen` returns has a positive `scale`, which is the default `30.f`
when the loop met no `SCAL` chunk and else the common value of the three
components of the last `SCAL` chunk it met. -/
theorem readTerragen_scal_validation (env : Indeterminate) (input : List Byte) :
    (∀ k ret s, 16 ≤ input.length → input.take 16 = Markers.SIGNATURE →
      chunkLoopAfter env k (TerragenFile.ctor env) (input.drop 16) = some (ret, s) →
      s.take 4 = Markers.SCAL → 16 ≤ s.length →
      (floatAt (s.drop 4) 1 ≠ floatAt (s.drop 4) 0 ∨
        floatAt (s.drop 4) 2 ≠ floatAt (s.drop 4) 0 ∨
        F32.ne (floatAt (s.drop 4) 1) (floatAt (s.drop 4) 0) = true ∨
        F32.ne (floatAt (s.drop 4) 2) (floatAt (s.drop 4) 0) = true ∨
        F32.leZero (floatAt (s.drop 4) 0) = true) →
      readTerragen env input =
        .error (if F32.ne (floatAt (s.drop 4) 1) (floatAt (s.drop 4) 0) = true ∨
            F32.ne (floatAt (s.drop 4) 2) (floatAt (s.drop 4) 0) = true
          then .scalNotEqual else .scalNegative)) ∧
    (∀ g, readTerragen env input = .ok g →
      g.m_header_data.scale.pos = true ∧
      ((g.m_header_data.scale = F32.thirty ∧
          ∀ k ret s, chunkLoopAfter env k (TerragenFile.ctor env) (input.drop 16) = some (ret, s) →
            s.take 4 ≠ Markers.SCAL) ∨
        (∃ k ret s, chunkLoopAfter env k (TerragenFile.ctor env) (input.drop 16) = some (ret, s) ∧
          s.take 4 = Markers.SCAL ∧
          g.m_header_data.scale = floatAt (s.drop 4) 0 ∧
          F32.ne (floatAt (s.drop 4) 1) (floatAt (s.drop 4) 0) = false ∧
          F32.ne (floatAt (s.drop 4) 2) (floatAt (s.drop 4) 0) = false ∧
          ∀ k' ret' s', k < k' →
            chunkLoopAfter env k' (TerragenFile.ctor env) (input.drop 16) = some (ret', s') →
            s'.take 4 ≠ Markers.SCAL))) := by
  constructor
  · intro k ret s hlen hsig hk hmk hl hbad
    apply readTerragen_error
    rw [readTerragenRest_eq env input hlen hsig]
    obtain ⟨hle, hrun⟩ := chunkLoopAfter_run env k _ _ ret s hk
    rw [List.length_drop] at hle
    rw [hrun input.length (by rw [List.length_drop]; omega)]
    obtain ⟨f, hf⟩ : ∃ f, input.length = f + 1 := ⟨input.length - 1, by omega⟩
    rw [hf]
    exact readChunks_error env f ret s _ (readChunk_SCAL_bad env ret s hmk hl hbad)
  · intro g hg
    refine ⟨(readTerragen_decoded env input g hg).scale_pos, ?_⟩
    obtain ⟨rest, hr⟩ := readTerragen_inv env input g hg
    obtain ⟨-, -, hloop⟩ := readTerragenRest_inv env input g rest hr
    exact readChunks_scale env _ _ _ g rest hloop

theorem readTerragen_scal_validation_witness :
    readTerragen zeroEnv unequalScalStream = .error .scalNotEqual ∧
    altwOnlyGrid.m_header_data.scale.pos = true ∧
    altwOnlyGrid.m_header_data.scale = F32.thirty :=
  ⟨((readTerragen_scal_validation zeroEnv unequalScalStream).1 1
      { m_header_data := { zeroHeader with width := 1, depth := 1 }, m_height_data := [] }
      (unequalScalStream.drop 24) (by decide) (by decide) (by decide!) (by decide) (by decide)
      (Or.inr (Or.inl (by decide)))).trans (by decide!),
    ((readTerragen_scal_validation zeroEnv smallStream).2 altwOnlyGrid (by decide!)).1,
    by decide⟩


/-! ## The samples `readTerragen` decodes -/

theorem fromPayload_length (s : List Byte) (n : Nat) (g : TerragenFile)
    (fp : FromPayload s n g) : g.m_height_data.length = n := by
  rw [fp.data_eq, List.length_map, List.length_range]

theorem fromPayload_getD (s : List Byte) (n : Nat) (g : TerragenFile) (fp : FromPayload s n g)
    (k : Nat) (hk : k < n) : g.m_height_data.getD k 0 = payloadHeight s k := by
  rw [fp.data_eq, List.getD_eq_getElem?_getD, List.getElem?_map, List.getElem?_range hk]
  rfl

theorem fromPayload_of_sameBlock (s : List Byte) (n : Nat) (g g' : TerragenFile)
    (fp : FromPayload s n g) (h : SameBlock g g') : FromPayload s n g' := by
  obtain ⟨h1, h2, h3, h4, h5⟩ := h
  exact ⟨by rw [h2]; exact fp.height_scale_eq, by rw [h3]; exact fp.base_height_eq,
    by rw [h4]; exact fp.min_eq, by rw [h5]; exact fp.max_eq, by rw [h1]; exact fp.data_eq⟩

theorem sameBlock_trans (g g' g'' : TerragenFile) (h1 : SameBlock g g') (h2 : SameBlock g' g'') :
    SameBlock g g'' := by
  obtain ⟨a1, a2, a3, a4, a5⟩ := h1
  obtain ⟨b1, b2, b3, b4, b5⟩ := h2
  exact ⟨b1.trans a1, b2.trans a2, b3.trans a3, b4.trans a4, b5.trans a5⟩

/-- The height of sample `k` of a payload: the base plus the product of the
scale and the raw sample, the product and the sum rounded. -/
theorem payloadHeight_eq (s : List Byte) (k : Nat) :
    payloadHeight s k =
      Flt32.finite (rawSample s 1 : ℚ)
        + Flt32.finite ((rawSample s 0 : ℚ) / 65536) * Flt32.finite (rawSample s (k + 2) : ℚ) := by
  have r0 := rawSample_range s 0
  have r1 := rawSample_range s 1
  have rk := rawSample_range s (k + 2)
  unfold payloadHeight
  rw [Flt32.int16_div _ r0.1 r0.2, Flt32.int16_cast _ r1.1 r1.2, Flt32.int16_cast _ rk.1 rk.2]

/-- The effect of one completed iteration on the block: an `ALTW` chunk
decodes it with the dimensions of that moment, every other chunk keeps it. -/
theorem readChunk_block (env : Indeterminate) (ret ret' : TerragenFile) (b : Bool)
    (s rest : List Byte) (h : (readChunk env ret).run s = .ok ((b, ret'), rest)) :
    (s.take 4 = Markers.ALTW ∧ b = false ∧
      ∃ W D : Nat, ret.m_header_data.width = (W : Int) ∧ ret.m_header_data.depth = (D : Int) ∧
        0 < W ∧ 0 < D ∧ 8 + 2 * (D * W) ≤ s.length ∧ FromPayload (s.drop 4) (D * W) ret') ∨
    (s.take 4 ≠ Markers.ALTW ∧ SameBlock ret ret') := by
  obtain ⟨-, hcases⟩ := readChunk_inv env ret ret' b s rest h
  rcases hcases with ⟨hmk, -, -, -, v, -, he⟩ | ⟨hmk, -, -, -, v, -, he⟩ |
    ⟨hmk, -, -, -, v, -, he⟩ | ⟨hmk, hb, -, -, hn1, hn2, -, he⟩ | ⟨hmk, -, -, -, he⟩ |
    ⟨hmk, -, -, -, v, -, he⟩ | ⟨hmk, hb, W, D, hw, hd, hW, hD, -, hlen, he, -⟩ |
    ⟨hmk, -, he, -⟩
  · exact Or.inr ⟨by rw [hmk]; decide, by rw [he]; exact ⟨rfl, rfl, rfl, rfl, rfl⟩⟩
  · exact Or.inr ⟨by rw [hmk]; decide, by rw [he]; exact ⟨rfl, rfl, rfl, rfl, rfl⟩⟩
  · exact Or.inr ⟨by rw [hmk]; decide, by rw [he]; exact ⟨rfl, rfl, rfl, rfl, rfl⟩⟩
  · exact Or.inr ⟨by rw [hmk]; decide, by rw [he]; exact ⟨rfl, rfl, rfl, rfl, rfl⟩⟩
  · exact Or.inr ⟨by rw [hmk]; decide, by rw [he]; exact ⟨rfl, rfl, rfl, rfl, rfl⟩⟩
  · exact Or.inr ⟨by rw [hmk]; decide, by rw [he]; exact ⟨rfl, rfl, rfl, rfl, rfl⟩⟩
  · refine Or.inl ⟨hmk, hb, W, D, hw, hd, hW, hD, by omega, ?_⟩
    rw [he]
    exact decodeAltw_fromPayload ret _ W D hw hd
  · exact Or.inr ⟨by rw [hmk]; decide, by rw [he]; exact ⟨rfl, rfl, rfl, rfl, rfl⟩⟩

/-- Where the block of the grid the chunk loop returns comes from: the block
it started with when no iteration met an `ALTW` chunk, else the payload of
the last `ALTW` chunk met, decoded with the width and the depth the grid
under construction had when the loop reached that chunk. -/
theorem readChunks_block (env : Indeterminate) :
    ∀ fuel ret s g rest, (readChunks env fuel ret).run s = .ok (g, rest) →
      (SameBlock ret g ∧
        ∀ k ret' s', chunkLoopAfter env k ret s = some (ret', s') →
          s'.take 4 ≠ Markers.ALTW) ∨
      (∃ (k : Nat) (ret' : TerragenFile) (s' : List Byte) (W D : Nat),
        chunkLoopAfter env k ret s = some (ret', s') ∧
        s'.take 4 = Markers.ALTW ∧
        ret'.m_header_data.width = (W : Int) ∧ ret'.m_header_data.depth = (D : Int) ∧
        0 < W ∧ 0 < D ∧ 8 + 2 * (D * W) ≤ s'.length ∧
        FromPayload (s'.drop 4) (D * W) g ∧
        ∀ k' ret'' s'', k < k' → chunkLoopAfter env k' ret s = some (ret'', s'') →
          s''.take 4 ≠ Markers.ALTW) := by
  intro fuel
  induction fuel with
  | zero =>
    intro ret s g rest h
    cases h
  | succ n ih =>
    intro ret s g rest h
    unfold readChunks at h
    obtain ⟨r, s1, h1, h2⟩ := run_bind_ok _ _ _ _ _ h
    obtain ⟨b, ret1⟩ := r
    have hsc := readChunk_block env ret ret1 b s s1 h1
    cases b with
    | true =>
      obtain ⟨e, -⟩ := run_pure_inv _ _ _ _ h2
      rcases hsc with ⟨-, hb, -⟩ | ⟨hmk, hsame⟩
      · cases hb
      · refine Or.inl ⟨by rw [e]; exact hsame, ?_⟩
        intro k ret' s' hk
        cases k with
        | zero =>
          simp only [chunkLoopAfter, Option.some.injEq, Prod.mk.injEq] at hk
          rw [← hk.2]; exact hmk
        | succ j => rw [chunkLoopAfter_stop env j ret ret1 s s1 h1] at hk; cases hk
    | false =>
      have hstep : ∀ j, chunkLoopAfter env (j + 1) ret s = chunkLoopAfter env j ret1 s1 :=
        fun j => chunkLoopAfter_succ env j ret ret1 s s1 h1
      rcases ih ret1 s1 g rest h2 with ⟨hg, hno⟩ |
        ⟨k, ret', s', W, D, hk, hmk', hw, hd, hW, hD, hlen, fp, hlast⟩
      · rcases hsc with ⟨hmk, -, W, D, hw, hd, hW, hD, hlen, fp⟩ | ⟨hmk, hsame⟩
        · refine Or.inr ⟨0, ret, s, W, D, rfl, hmk, hw, hd, hW, hD, hlen,
            fromPayload_of_sameBlock _ _ _ _ fp hg, ?_⟩
          intro k' ret'' s'' hlt hk'
          obtain ⟨j, rfl⟩ : ∃ j, k' = j + 1 := ⟨k' - 1, by omega⟩
          rw [hstep j] at hk'
          exact hno j ret'' s'' hk'
        · refine Or.inl ⟨sameBlock_trans _ _ _ hsame hg, ?_⟩
          intro k ret' s' hk
          cases k with
          | zero =>
            simp only [chunkLoopAfter, Option.some.injEq, Prod.mk.injEq] at hk
            rw [← hk.2]; exact hmk
          | succ j =>
            rw [hstep j] at hk
            exact hno j ret' s' hk
      · refine Or.inr ⟨k + 1, ret', s', W, D, by rw [hstep k]; exact hk, hmk', hw, hd, hW, hD,
          hlen, fp, ?_⟩
        intro k' ret'' s'' hlt hk'
        obtain ⟨j, rfl⟩ : ∃ j, k' = j + 1 := ⟨k' - 1, by omega⟩
        rw [hstep j] at hk'
        exact hlast j ret'' s'' (by omega) hk'

/-- Claim C18, as amended: a grid that `readTerragen` returns with a block
was decoded from the last `ALTW` chunk the chunk loop met; with `W` and `D`
the width and the depth of the grid under construction when the loop reached
that chunk, `s`, `b` its two header words and `r_k` its raw samples,
`height_scale = s/65536`, `base_height = b`, the block has `D * W` elements,
element `k` is `b + (s/65536) * r_k` with the product and the sum rounded to
single precision, and when the width returned is still `W`,
`grid(x, y)` is that value for `k = y*W + x`, for every `x < W`, `y < D`. -/
theorem readTerragen_decoded_samples (env : Indeterminate) (input : List Byte)
    (g : TerragenFile) (h : readTerragen env input = .ok g) (hne : g.m_height_data ≠ []) :
    ∃ (k : Nat) (ret : TerragenFile) (s : List Byte) (W D : Nat),
      chunkLoopAfter env k (TerragenFile.ctor env) (input.drop 16) = some (ret, s) ∧
      s.take 4 = Markers.ALTW ∧
      (∀ k' ret' s', k < k' →
        chunkLoopAfter env k' (TerragenFile.ctor env) (input.drop 16) = some (ret', s') →
        s'.take 4 ≠ Markers.ALTW) ∧
      ret.m_header_data.width = (W : Int) ∧ ret.m_header_data.depth = (D : Int) ∧
      0 < W ∧ 0 < D ∧ 8 + 2 * (D * W) ≤ s.length ∧
      g.m_header_data.height_scale = Flt32.finite ((rawSample (s.drop 4) 0 : ℚ) / 65536) ∧
      g.m_header_data.base_height = Flt32.finite (rawSample (s.drop 4) 1 : ℚ) ∧
      g.m_height_data.length = D * W ∧
      (∀ j, j < D * W →
        g.m_height_data.getD j 0 =
          Flt32.finite (rawSample (s.drop 4) 1 : ℚ)
            + Flt32.finite ((rawSample (s.drop 4) 0 : ℚ) / 65536)
              * Flt32.finite (rawSample (s.drop 4) (j + 2) : ℚ)) ∧
      (g.m_header_data.width = (W : Int) → ∀ x y, x < W → y < D →
        g.height x y =
          Flt32.finite (rawSample (s.drop 4) 1 : ℚ)
            + Flt32.finite ((rawSample (s.drop 4) 0 : ℚ) / 65536)
              * Flt32.finite (rawSample (s.drop 4) (y * W + x + 2) : ℚ)) := by
  obtain ⟨rest, hr⟩ := readTerragen_inv env input g h
  obtain ⟨-, -, hloop⟩ := readTerragenRest_inv env input g rest hr
  rcases readChunks_block env _ _ _ g rest hloop with ⟨hsame, -⟩ |
    ⟨k, ret, s, W, D, hk, hmk, hw, hd, hW, hD, hlen, fp, hlast⟩
  · exact absurd hsame.1 hne
  · have r0 := rawSample_range (s.drop 4) 0
    have r1 := rawSample_range (s.drop 4) 1
    refine ⟨k, ret, s, W, D, hk, hmk, hlast, hw, hd, hW, hD, hlen, ?_, ?_,
      fromPayload_length _ _ _ fp, ?_, ?_⟩
    · rw [fp.height_scale_eq, Flt32.int16_div _ r0.1 r0.2]
    · rw [fp.base_height_eq, Flt32.int16_cast _ r1.1 r1.2]
    · intro j hj
      rw [fromPayload_getD _ _ _ fp j hj, payloadHeight_eq]
    · intro hwg x y hx hy
      unfold TerragenFile.height
      rw [hwg, Int.toNat_ofNat,
        fromPayload_getD _ _ _ fp (y * W + x) (flat_index_lt W D y x hy hx), payloadHeight_eq]

theorem readTerragen_decoded_samples_witness :
    readTerragen zeroEnv smallStream = .ok altwOnlyGrid ∧ altwOnlyGrid.m_height_data ≠ [] ∧
    ∃ (k : Nat) (ret : TerragenFile) (s : List Byte) (W D : Nat),
      chunkLoopAfter zeroEnv k (TerragenFile.ctor zeroEnv) (smallStream.drop 16)
        = some (ret, s) ∧
      s.take 4 = Markers.ALTW ∧
      (∀ k' ret' s', k < k' →
        chunkLoopAfter zeroEnv k' (TerragenFile.ctor zeroEnv) (smallStream.drop 16)
          = some (ret', s') →
        s'.take 4 ≠ Markers.ALTW) ∧
      ret.m_header_data.width = (W : Int) ∧ ret.m_header_data.depth = (D : Int) ∧
      0 < W ∧ 0 < D ∧ 8 + 2 * (D * W) ≤ s.length ∧
      altwOnlyGrid.m_header_data.height_scale
        = Flt32.finite ((rawSample (s.drop 4) 0 : ℚ) / 65536) ∧
      altwOnlyGrid.m_header_data.base_height = Flt32.finite (rawSample (s.drop 4) 1 : ℚ) ∧
      altwOnlyGrid.m_height_data.length = D * W ∧
      (∀ j, j < D * W →
        altwOnlyGrid.m_height_data.getD j 0 =
          Flt32.finite (rawSample (s.drop 4) 1 : ℚ)
            + Flt32.finite ((rawSample (s.drop 4) 0 : ℚ) / 65536)
              * Flt32.finite (rawSample (s.drop 4) (j + 2) : ℚ)) ∧
      (altwOnlyGrid.m_header_data.width = (W : Int) → ∀ x y, x < W → y < D →
        altwOnlyGrid.height x y =
          Flt32.finite (rawSample (s.drop 4) 1 : ℚ)
            + Flt32.finite ((rawSample (s.drop 4) 0 : ℚ) / 65536)
              * Flt32.finite (rawSample (s.drop 4) (y * W + x + 2) : ℚ)) :=
  ⟨by decide!, List.cons_ne_nil _ _,
    readTerragen_decoded_samples zeroEnv smallStream altwOnlyGrid (by decide!)
      (List.cons_ne_nil _ _)⟩

/-- Claim C18 as stated fails: in this file the `ALTW` chunk is read with the
dimensions 2 by 2 (scale word 256, base 0, raw samples 0, 1, 2, 3) and an
`XPTS` chunk then sets the width to 1; the grid returned has width 1 and
depth 2, and `grid(0, 1)` is `1/256`, the height of raw sample 1, where the
claim gives `2/256`, the height of raw sample `1 * 2 + 0`. -/
theorem readTerragen_late_width :
    (readTerragen zeroEnv lateWidthStream).map
        (fun g => (g.m_header_data.width, g.m_header_data.depth, g.m_header_data.height_scale,
          g.m_header_data.base_height, g.height 0 1))
      = .ok (1, 2, 1 / 256, 0, 1 / 256) ∧
    (lateWidthStream.drop 32).take 4 = Markers.ALTW ∧
    rawSample (lateWidthStream.drop 36) 0 = 256 ∧
    rawSample (lateWidthStream.drop 36) 1 = 0 ∧
    rawSample (lateWidthStream.drop 36) (1 * 2 + 0 + 2) = 2 := by
  decide!

/-! ## Writing a decoded grid again -/

/-- Claim C10 fails in the code: the stream of 36 bytes that has no dimension
chunk is decoded to its end when the unset `width` and `depth` hold 2, and
its first 32 bytes, a proper cut of it, are decoded to a 1 by 1 grid when
they hold 1.  The check of line 165 reads the two fields as the constructor
left them. -/
theorem readTerragen_decodes_cut_stream :
    readTerragenRest twoByTwoEnv doubleEofStream = .ok (doubleEofGrid, []) ∧
    doubleEofStream.length = 36 ∧
    readTerragen oneByOneEnv (doubleEofStream.take 32) = .ok cutGrid := by
  decide!

/-- Claim C17 fails in the code: for the 1 by 1 grid with
`height_scale * 65536 = 3/2` and `base_height = 10.7f` the `ALTW` chunk
written starts with the words 1 and 10, the values truncated by the
conversions of lines 300 and 301, where rounding as in line 307 gives 2 and
11. -/
theorem writeTerragen_truncates_altw_header :
    writeTerragen fractionGrid
      = .ok (chunkBytes fractionGrid ++ (Markers.ALTW ++
          ([1, 0, 10, 0, 0, 0, 0, 0] ++ Markers.EOF_))) ∧
    fractionGrid.m_header_data.height_scale * 65536 = 3 / 2 ∧
    floatToInt16 (Flt32.round (fractionGrid.m_header_data.height_scale * 65536)) = 2 ∧
    floatToInt16 (Flt32.round fractionGrid.m_header_data.base_height) = 11 := by
  decide!
end Terragen
